import Mathlib

/-!
# Verification of the `realm` authoritative DNS server

A shallow embedding of the server's core data model and algorithms:
the wire codec (`src/wire.rs`, `src/text.rs`), serial-number arithmetic
(`src/serial.rs`), the record catalogue (`src/record.rs` and
`src/record/*.rs`), the message model with truncation (`src/message.rs`),
the zone tree and resolver (`src/node.rs`, `src/resolver.rs`), the EDNS
option pipeline (`src/opt.rs`, `src/opt/*.rs`), the transport frame
handling (`src/server.rs`) and the zone-file reader (`src/zone.rs`).

Machine integers are modelled as `Nat` with explicit reductions modulo
`2 ^ w` exactly where the Rust code wraps or casts.  Fallible operations
return `Except`.  Rust panics (index out of bounds, `Option::unwrap` on
`None`) are modelled by a dedicated error alternative so that reachability
of a panic is a provable statement.
-/

set_option maxRecDepth 4000

namespace Realm

/-! ## Wire primitives (`src/wire.rs`)

`WireWrite::write` never fails (it extends a growable `Vec<u8>`), so every
encoder in the code returns `Ok`; encoders are therefore modelled as total
functions to byte lists.  A reader is a buffer with a movable cursor. -/

inductive WireError where
  | unexpectedEnd (size tried : Nat)
  | invalidLength (expected actual : Nat)
  | unsupportedFormat
  deriving DecidableEq, Repr

structure WireRead where
  buffer : List Nat
  pos : Nat
  deriving Repr, DecidableEq

/-- `WireRead::read`: copy `n` bytes and advance, or fail with
`UnexpectedEnd { size, tried }` as in the source. -/
def WireRead.read (r : WireRead) (n : Nat) : Except WireError (List Nat × WireRead) :=
  if r.pos + n ≤ r.buffer.length then
    .ok ((r.buffer.drop r.pos).take n, ⟨r.buffer, r.pos + n⟩)
  else
    .error (.unexpectedEnd r.buffer.length (r.pos + n - 1))

/-- `WireRead::peek`: copy without advancing. -/
def WireRead.peek (r : WireRead) (n : Nat) : Except WireError (List Nat) :=
  if r.pos + n ≤ r.buffer.length then
    .ok ((r.buffer.drop r.pos).take n)
  else
    .error (.unexpectedEnd r.buffer.length (r.pos + n - 1))

def WireRead.seekTo (r : WireRead) (index : Nat) : WireRead :=
  ⟨r.buffer, index⟩

/-- Big-endian byte string of a `w`-byte machine integer, as produced by
`to_be_bytes` (the value is reduced modulo `2 ^ (8 * w)` first, which is a
no-op for values already in range). -/
def beBytes : Nat → Nat → List Nat
  | 0, _ => []
  | w + 1, v => (v / 256 ^ w) % 256 :: beBytes w (v % 256 ^ w)

def encU8 (v : Nat) : List Nat := beBytes 1 v
def encU16 (v : Nat) : List Nat := beBytes 2 v
def encU32 (v : Nat) : List Nat := beBytes 4 v
def encU64 (v : Nat) : List Nat := beBytes 8 v
def encU128 (v : Nat) : List Nat := beBytes 16 v

/-- Big-endian recomposition, `from_be_bytes`. -/
def fromBeBytes (bs : List Nat) : Nat :=
  bs.foldl (fun acc b => acc * 256 + b) 0

def decodeUInt (w : Nat) (r : WireRead) : Except WireError (Nat × WireRead) := do
  let (bs, r') ← r.read w
  return (fromBeBytes bs, r')

def decodeU8 := decodeUInt 1
def decodeU16 := decodeUInt 2
def decodeU32 := decodeUInt 4
def decodeU64 := decodeUInt 8
def decodeU128 := decodeUInt 16

/-! ## Text and name model (`src/text.rs`)

A `Label` is the byte vector inside `Label(Vec<u8>)`; a name is its label
list.  `DomainName` supports compression pointers on decode
(`COMPRESS = true`), `HostName` does not. -/

abbrev Label := List Nat

/-- `u8::to_ascii_uppercase` on a byte value. -/
def toAsciiUppercase (b : Nat) : Nat :=
  if 97 ≤ b ∧ b ≤ 122 then b - 32 else b

/-- `impl PartialEq for Label`: length check, then comparison of
case-normalized bytes. -/
def Label.labelEq (a b : Label) : Bool :=
  if a.length ≠ b.length then false
  else a.map toAsciiUppercase == b.map toAsciiUppercase

/-- `Label::from(Vec<u8>)` asserts non-emptiness and length `< 64`;
`WireEncode::size` and `encode` prefix the length byte (`len as u8`). -/
def Label.WF (l : Label) : Prop :=
  0 < l.length ∧ l.length < 64

instance (l : Label) : Decidable (Label.WF l) := by
  unfold Label.WF; infer_instance

def Label.size (l : Label) : Nat := l.length + 1

def Label.encode (l : Label) : List Nat := (l.length % 256) :: l

/-- Name size: `labels.map(Label::size).sum() + 1` (terminating zero byte). -/
def nameSize (n : List Label) : Nat :=
  (n.map Label.size).sum + 1

/-- Name encoding: each label length-prefixed, then a zero byte.  Encoding is
always uncompressed (`src/text.rs` never emits pointers). -/
def nameEncode (n : List Label) : List Nat :=
  (n.flatMap Label.encode) ++ [0]

def NameWF (n : List Label) : Prop := ∀ l ∈ n, l.WF

instance (n : List Label) : Decidable (NameWF n) := by
  unfold NameWF; infer_instance

/-- Result of the name-decoding loop.  `fuelOut` marks exhaustion of the
fuel parameter; the termination theorem shows it is never produced for the
fuel bound used by `decodeName`. -/
inductive NameRes where
  | ok (labels : List Label) (r : WireRead)
  | err (e : WireError)
  | fuelOut
  deriving Repr, DecidableEq

/-- The 14-bit pointer target encoded at `pos` (`u16 ^ (0b11 << 14)`). -/
def ptrTarget (buf : List Nat) (pos : Nat) : Nat :=
  fromBeBytes ((buf.drop pos).take 2) ^^^ (3 <<< 14)

/-- The decode loop of `impl WireDecode for T: Name`, one iteration per
label start.  `visited` collects every visited offset; a pointer into
`visited` (which already includes the current offset, pushed at iteration
start) fails with `UnsupportedFormat`.  The saved cursor `seekBack` is
restored on the terminating zero label. -/
def decodeNameLoop (compress : Bool) :
    Nat → WireRead → List Nat → Option Nat → List Label → NameRes
  | 0, _, _, _, _ => .fuelOut
  | fuel + 1, r, visited, seekBack, labels =>
    let visited := visited ++ [r.pos]
    match r.peek 1 with
    | .error e => .err e
    | .ok bytes =>
      let b := bytes.headD 0
      if b / 64 = 0 then
        match decodeU8 r with
        | .error e => .err e
        | .ok (len, r) =>
          if len = 0 then
            match seekBack with
            | some p => .ok labels (r.seekTo p)
            | none => .ok labels r
          else
            match r.read len with
            | .error e => .err e
            | .ok (buf, r) =>
              decodeNameLoop compress fuel r visited seekBack (labels ++ [buf])
      else if b / 64 = 3 ∧ compress then
        match decodeU16 r with
        | .error e => .err e
        | .ok (v, r) =>
          let pointer := v ^^^ (3 <<< 14)
          if pointer ∈ visited then .err .unsupportedFormat
          else
            let seekBack := match seekBack with
              | none => some r.pos
              | some p => some p
            decodeNameLoop compress fuel (r.seekTo pointer) visited seekBack labels
      else .err .unsupportedFormat

/-- Fuel that the termination theorem proves sufficient for every buffer. -/
def nameFuel (buf : List Nat) : Nat :=
  (buf.length + 2) * (buf.length + 2)

def decodeName (compress : Bool) (r : WireRead) : NameRes :=
  decodeNameLoop compress (nameFuel r.buffer) r [] none []

/-- `DomainName::decode` (`COMPRESS = true`). -/
def decodeDomainName (r : WireRead) : NameRes := decodeName true r

/-- `HostName::decode` (`COMPRESS = false`). -/
def decodeHostName (r : WireRead) : NameRes := decodeName false r

/-! Text strings (`Text` in `src/text.rs`): length-prefixed opaque octets. -/

abbrev Text := List Nat

def Text.WF (t : Text) : Prop := t.length < 256

def Text.size (t : Text) : Nat := t.length + 1

def Text.encode (t : Text) : List Nat := (t.length % 256) :: t

def Text.decode (r : WireRead) : Except WireError (Text × WireRead) := do
  let (len, r) ← decodeU8 r
  let (buf, r) ← r.read len
  return (buf, r)

/-! ### Basic facts about the wire primitives -/

theorem ok_bind {ε α β : Type} (a : α) (f : α → Except ε β) :
    (Except.ok a >>= f : Except ε β) = f a := rfl

instance {ε α : Type _} [DecidableEq ε] [DecidableEq α] :
    DecidableEq (Except ε α) := fun
  | .ok a, .ok b =>
    if h : a = b then .isTrue (by rw [h])
    else .isFalse (by intro he; cases he; exact h rfl)
  | .error a, .error b =>
    if h : a = b then .isTrue (by rw [h])
    else .isFalse (by intro he; cases he; exact h rfl)
  | .ok _, .error _ => .isFalse (by intro h; cases h)
  | .error _, .ok _ => .isFalse (by intro h; cases h)

theorem beBytes_length (w v : Nat) : (beBytes w v).length = w := by
  induction w generalizing v with
  | zero => rfl
  | succ w ih => simp [beBytes, ih]

theorem beBytes_lt (w v : Nat) : ∀ b ∈ beBytes w v, b < 256 := by
  induction w generalizing v with
  | zero => simp [beBytes]
  | succ w ih =>
    intro b hb
    simp only [beBytes, List.mem_cons] at hb
    rcases hb with h | h
    · subst h; exact Nat.mod_lt _ (by norm_num)
    · exact ih _ b h

theorem fromBeBytes_beBytes_aux (w v acc : Nat) (h : v < 256 ^ w) :
    (beBytes w v).foldl (fun a b => a * 256 + b) acc = acc * 256 ^ w + v := by
  induction w generalizing v acc with
  | zero =>
    simp only [beBytes, List.foldl_nil, pow_zero, Nat.mul_one]
    omega
  | succ w ih =>
    have h256 : 0 < (256 : Nat) ^ w := Nat.pos_pow_of_pos w (by norm_num)
    have hdivlt : v / 256 ^ w < 256 := by
      rw [Nat.div_lt_iff_lt_mul h256]
      calc v < 256 ^ (w + 1) := h
        _ = 256 * 256 ^ w := by ring
    simp only [beBytes, List.foldl_cons]
    rw [ih (v % 256 ^ w) _ (Nat.mod_lt _ h256), Nat.mod_eq_of_lt hdivlt]
    have h2 : 256 ^ w * (v / 256 ^ w) + v % 256 ^ w = v := Nat.div_add_mod v (256 ^ w)
    calc (acc * 256 + v / 256 ^ w) * 256 ^ w + v % 256 ^ w
        = acc * (256 ^ w * 256) + (256 ^ w * (v / 256 ^ w) + v % 256 ^ w) := by
          ring
      _ = acc * 256 ^ (w + 1) + v := by rw [h2]; ring

theorem fromBeBytes_beBytes (w v : Nat) (h : v < 256 ^ w) :
    fromBeBytes (beBytes w v) = v := by
  unfold fromBeBytes
  rw [fromBeBytes_beBytes_aux w v 0 h]
  omega

/-- Splitting a drop equation: if the bytes from `pos` start with `xs`,
the buffer is long enough and the remainder begins at `pos + xs.length`. -/
theorem drop_prefix_facts {buf xs rest : List Nat} {pos : Nat}
    (hpos : pos ≤ buf.length) (h : buf.drop pos = xs ++ rest) :
    pos + xs.length + rest.length = buf.length ∧
      buf.drop (pos + xs.length) = rest := by
  have hlen : (buf.drop pos).length = buf.length - pos := List.length_drop pos buf
  rw [h] at hlen
  simp only [List.length_append] at hlen
  constructor
  · omega
  · have : buf.drop (pos + xs.length) = (buf.drop pos).drop xs.length := by
      rw [List.drop_drop]
    rw [this, h, List.drop_left]

theorem wireRead_read_exact {buf xs rest : List Nat} {pos : Nat}
    (hpos : pos ≤ buf.length) (h : buf.drop pos = xs ++ rest) :
    WireRead.read ⟨buf, pos⟩ xs.length = .ok (xs, ⟨buf, pos + xs.length⟩) := by
  obtain ⟨hlen, -⟩ := drop_prefix_facts hpos h
  unfold WireRead.read
  rw [if_pos (show pos + xs.length ≤ buf.length by omega)]
  simp only [h, List.take_left]

theorem uint_decode_roundtrip {buf rest : List Nat} {pos w v : Nat}
    (hv : v < 256 ^ w) (hpos : pos ≤ buf.length)
    (h : buf.drop pos = beBytes w v ++ rest) :
    decodeUInt w ⟨buf, pos⟩ = .ok (v, ⟨buf, pos + w⟩) := by
  have hr := wireRead_read_exact hpos h
  rw [beBytes_length] at hr
  unfold decodeUInt
  rw [hr]
  simp [fromBeBytes_beBytes w v hv]

/-- The byte value at offset `pos` (0 beyond the end, as no read succeeds
there anyway). -/
def byteAt (buf : List Nat) (pos : Nat) : Nat := buf.getD pos 0

theorem drop_cons_byteAt {buf : List Nat} {pos : Nat} (h : pos < buf.length) :
    buf.drop pos = byteAt buf pos :: buf.drop (pos + 1) := by
  rw [List.drop_eq_getElem_cons h, byteAt, List.getD_eq_getElem buf 0 h]

theorem peek1_eq {buf : List Nat} {pos : Nat} (h : pos < buf.length) :
    WireRead.peek ⟨buf, pos⟩ 1 = .ok [byteAt buf pos] := by
  unfold WireRead.peek
  rw [if_pos (by simpa using h)]
  rw [drop_cons_byteAt h]
  rfl

theorem decodeU8_eq {buf : List Nat} {pos : Nat} (h : pos < buf.length) :
    decodeU8 ⟨buf, pos⟩ = .ok (byteAt buf pos, ⟨buf, pos + 1⟩) := by
  unfold decodeU8 decodeUInt WireRead.read
  rw [if_pos (by simpa using h)]
  rw [drop_cons_byteAt h]
  simp [fromBeBytes]

theorem decodeU16_eq {buf : List Nat} {pos : Nat} (h : pos + 2 ≤ buf.length) :
    decodeU16 ⟨buf, pos⟩ =
      .ok (fromBeBytes ((buf.drop pos).take 2), ⟨buf, pos + 2⟩) := by
  unfold decodeU16 decodeUInt WireRead.read
  rw [if_pos (by simpa using h)]
  rfl

/-! ### Claim C6: pointer-cycle rejection and termination of name decoding -/

/-- Offsets in `0..=L` not yet on the visited list. -/
def unvisitedCard (L : Nat) (visited : List Nat) : Nat :=
  ((Finset.range (L + 1)).filter (fun p => p ∉ visited)).card

/-- Termination measure for the name-decode loop. -/
def nameMeasure (L : Nat) (visited : List Nat) (pos : Nat) : Nat :=
  (L + 2) * unvisitedCard L visited + (L + 1 - pos)

theorem unvisited_subset (L : Nat) (visited : List Nat) (q : Nat) :
    (Finset.range (L + 1)).filter (fun p => p ∉ visited ++ [q]) ⊆
      (Finset.range (L + 1)).filter (fun p => p ∉ visited) := by
  intro a ha
  simp only [Finset.mem_filter, List.mem_append, List.mem_singleton] at ha ⊢
  exact ⟨ha.1, fun hmem => ha.2 (Or.inl hmem)⟩

theorem unvisitedCard_mono (L : Nat) (visited : List Nat) (q : Nat) :
    unvisitedCard L (visited ++ [q]) ≤ unvisitedCard L visited :=
  Finset.card_le_card (unvisited_subset L visited q)

theorem unvisitedCard_strict (L : Nat) (visited : List Nat) (q : Nat)
    (hq : q ≤ L) (hnot : q ∉ visited) :
    unvisitedCard L (visited ++ [q]) < unvisitedCard L visited := by
  apply Finset.card_lt_card
  constructor
  · exact unvisited_subset L visited q
  · intro hsub
    have hqmem : q ∈ (Finset.range (L + 1)).filter (fun p => p ∉ visited) := by
      simp only [Finset.mem_filter, Finset.mem_range]
      exact ⟨by omega, hnot⟩
    have := hsub hqmem
    simp [Finset.mem_filter] at this

/-- The invariant carried by the decode loop: every already-visited offset
that holds a readable pointer points into the visited set or at the current
offset (the pointer most recently followed). -/
def PtrInv (buf : List Nat) (visited : List Nat) (pos : Nat) : Prop :=
  ∀ p ∈ visited, p + 2 ≤ buf.length → byteAt buf p / 64 = 3 →
    ptrTarget buf p ∈ visited ∨ ptrTarget buf p = pos

theorem decodeNameLoop_no_fuelOut (c : Bool) :
    ∀ (fuel : Nat) (buf : List Nat) (pos : Nat) (visited : List Nat)
      (sb : Option Nat) (labels : List Label),
      PtrInv buf visited pos →
      nameMeasure buf.length visited pos < fuel →
      decodeNameLoop c fuel ⟨buf, pos⟩ visited sb labels ≠ .fuelOut := by
  intro fuel
  induction fuel with
  | zero => intro _ _ _ _ _ _ h; omega
  | succ fuel ih =>
    intro buf pos visited sb labels hinv hm
    rw [decodeNameLoop]
    rcases Nat.lt_or_ge pos buf.length with hpos | hpos
    case inr =>
      -- the peek fails, the loop returns an error
      have : WireRead.peek ⟨buf, pos⟩ 1 =
          .error (.unexpectedEnd buf.length (pos + 1 - 1)) := by
        unfold WireRead.peek
        rw [if_neg (by simpa using by omega)]
      rw [this]
      simp
    case inl =>
      rw [peek1_eq hpos]
      simp only [List.headD_cons]
      by_cases hb0 : byteAt buf pos / 64 = 0
      · rw [if_pos hb0, decodeU8_eq hpos]
        by_cases hlen0 : byteAt buf pos = 0
        · simp only [hlen0, if_pos rfl]
          cases sb <;> simp
        · simp only [if_neg hlen0]
          rcases hread : WireRead.read ⟨buf, pos + 1⟩ (byteAt buf pos) with e | pr
          · simp
          · obtain ⟨bs, r'⟩ := pr
            simp only []
            -- the read succeeded: the new position advances within the buffer
            have hr' : r' = ⟨buf, pos + 1 + byteAt buf pos⟩ ∧
                pos + 1 + byteAt buf pos ≤ buf.length := by
              unfold WireRead.read at hread
              by_cases hle : pos + 1 + byteAt buf pos ≤ buf.length
              · rw [if_pos hle] at hread
                exact ⟨by cases hread; rfl, hle⟩
              · rw [if_neg hle] at hread; cases hread
            obtain ⟨hr', hle⟩ := hr'
            subst hr'
            apply ih
            · -- invariant preservation (literal label step)
              intro p hp hp2 hptr
              rcases List.mem_append.mp hp with hp | hp
              · rcases hinv p hp hp2 hptr with h | h
                · exact Or.inl (List.mem_append.mpr (Or.inl h))
                · exact Or.inl (List.mem_append.mpr (Or.inr (by simp [h])))
              · simp only [List.mem_singleton] at hp
                subst hp
                omega
            · -- measure decrease (position strictly advances)
              have h1 := Nat.mul_le_mul_left (buf.length + 2)
                (unvisitedCard_mono buf.length visited pos)
              unfold nameMeasure at hm ⊢
              omega
      · rw [if_neg hb0]
        by_cases hb3 : byteAt buf pos / 64 = 3 ∧ c = true
        · rw [if_pos (by simpa using hb3)]
          rcases Nat.lt_or_ge buf.length (pos + 2) with h2 | h2
          · have : decodeU16 ⟨buf, pos⟩ =
                .error (.unexpectedEnd buf.length (pos + 2 - 1)) := by
              unfold decodeU16 decodeUInt WireRead.read
              rw [if_neg (by simpa using by omega)]
              rfl
            rw [this]
            simp
          · rw [decodeU16_eq h2]
            simp only []
            have htarget : fromBeBytes ((buf.drop pos).take 2) ^^^ (3 <<< 14) =
                ptrTarget buf pos := rfl
            by_cases hmem : ptrTarget buf pos ∈ visited ++ [pos]
            · rw [htarget, if_pos hmem]
              simp
            · rw [htarget, if_neg hmem]
              -- the current offset cannot itself be on the visited list:
              -- the invariant would force the target to be visited
              have hposnot : pos ∉ visited := by
                intro hposin
                rcases hinv pos hposin h2 hb3.1 with h | h
                · exact hmem (List.mem_append.mpr (Or.inl h))
                · exact hmem (List.mem_append.mpr (Or.inr (by simp [h])))
              have hseek : WireRead.seekTo ⟨buf, pos + 2⟩ (ptrTarget buf pos) =
                  ⟨buf, ptrTarget buf pos⟩ := rfl
              rw [hseek]
              apply ih
              · -- invariant preservation (pointer-follow step)
                intro p hp hp2 hptr
                rcases List.mem_append.mp hp with hp | hp
                · rcases hinv p hp hp2 hptr with h | h
                  · exact Or.inl (List.mem_append.mpr (Or.inl h))
                  · exact Or.inl (List.mem_append.mpr (Or.inr (by simp [h])))
                · simp only [List.mem_singleton] at hp
                  subst hp
                  exact Or.inr rfl
              · -- measure decrease (a fresh offset is consumed)
                have h1 := unvisitedCard_strict buf.length visited pos
                  (by omega) hposnot
                unfold nameMeasure at hm ⊢
                have hcard : unvisitedCard buf.length (visited ++ [pos]) + 1 ≤
                    unvisitedCard buf.length visited := by omega
                have hstep : (buf.length + 2) *
                    unvisitedCard buf.length (visited ++ [pos]) +
                    (buf.length + 2) ≤
                    (buf.length + 2) * unvisitedCard buf.length visited := by
                  calc (buf.length + 2) *
                      unvisitedCard buf.length (visited ++ [pos]) +
                      (buf.length + 2)
                      = (buf.length + 2) *
                        (unvisitedCard buf.length (visited ++ [pos]) + 1) := by
                        ring
                    _ ≤ (buf.length + 2) * unvisitedCard buf.length visited :=
                        Nat.mul_le_mul_left _ hcard
                omega
        · rw [if_neg (by simpa using hb3)]
          simp

/-- At a state whose next token is a compression pointer into the visited
set (the current offset included), the loop fails with
`UnsupportedFormat`. -/
theorem decodeNameLoop_reject (fuel : Nat) (buf : List Nat) (pos : Nat)
    (visited : List Nat) (sb : Option Nat) (labels : List Label)
    (h2 : pos + 2 ≤ buf.length) (hb : byteAt buf pos / 64 = 3)
    (hmem : ptrTarget buf pos ∈ pos :: visited) :
    decodeNameLoop true (fuel + 1) ⟨buf, pos⟩ visited sb labels =
      .err .unsupportedFormat := by
  rw [decodeNameLoop, peek1_eq (by omega)]
  simp only [List.headD_cons]
  rw [if_neg (by omega), if_pos (by simp [hb]), decodeU16_eq h2]
  simp only []
  have htarget : fromBeBytes ((buf.drop pos).take 2) ^^^ (3 <<< 14) =
      ptrTarget buf pos := rfl
  rw [htarget, if_pos (by
    rcases List.mem_cons.mp hmem with h | h
    · exact List.mem_append.mpr (Or.inr (by simp [h]))
    · exact List.mem_append.mpr (Or.inl h))]

theorem nameMeasure_lt_nameFuel (buf : List Nat) (pos : Nat) :
    nameMeasure buf.length [] pos < nameFuel buf := by
  unfold nameMeasure nameFuel unvisitedCard
  have hcard : ((Finset.range (buf.length + 1)).filter
      (fun p => p ∉ ([] : List Nat))).card ≤ buf.length + 1 := by
    calc ((Finset.range (buf.length + 1)).filter
        (fun p => p ∉ ([] : List Nat))).card
        ≤ (Finset.range (buf.length + 1)).card :=
          Finset.card_filter_le _ _
      _ = buf.length + 1 := Finset.card_range _
  have h2 := Nat.mul_le_mul_left (buf.length + 2) hcard
  have h3 : (buf.length + 2) * (buf.length + 2) =
      (buf.length + 2) * (buf.length + 1) + (buf.length + 2) := by ring
  omega

/-- C6: for every input buffer and starting offset, (a) the compressible
name decode loop never runs out of the fuel supplied by `decodeName`, so
decoding always terminates; and (b) whenever the token at the current
offset is a compression pointer whose target is the current offset or any
already-visited offset, decoding fails with `UnsupportedFormat`. -/
theorem claim_C6_pointer_cycles (buf : List Nat) (pos : Nat) :
    decodeName true ⟨buf, pos⟩ ≠ .fuelOut ∧
    (∀ (visited : List Nat) (sb : Option Nat) (labels : List Label)
       (fuel : Nat),
       pos + 2 ≤ buf.length → byteAt buf pos / 64 = 3 →
       ptrTarget buf pos ∈ pos :: visited →
       decodeNameLoop true (fuel + 1) ⟨buf, pos⟩ visited sb labels =
         .err .unsupportedFormat) := by
  constructor
  · unfold decodeName
    apply decodeNameLoop_no_fuelOut
    · intro p hp
      simp at hp
    · exact nameMeasure_lt_nameFuel buf pos
  · intro visited sb labels fuel h2 hb hmem
    exact decodeNameLoop_reject fuel buf pos visited sb labels h2 hb hmem

/-- Witness for C6 at the repository's own "deny recursion" test vector:
the two-byte buffer `[0xC0, 0x00]` holds a pointer to offset 0. -/
theorem claim_C6_witness :
    decodeName true ⟨[192, 0], 0⟩ ≠ .fuelOut ∧
    ((0 : Nat) + 2 ≤ [192, 0].length ∧ byteAt [192, 0] 0 / 64 = 3 ∧
      ptrTarget [192, 0] 0 ∈ [(0 : Nat)] ∧
      decodeNameLoop true 1 ⟨[192, 0], 0⟩ [] none [] =
        .err .unsupportedFormat) :=
  ⟨(claim_C6_pointer_cycles [192, 0] 0).1,
    by decide, by decide, by decide,
    (claim_C6_pointer_cycles [192, 0] 0).2 [] none [] 0
      (by decide) (by decide) (by decide)⟩

/-! ### Decoding an uncompressed encoded name -/

theorem nameEncode_length (ls : List Label) :
    (nameEncode ls).length = nameSize ls := by
  unfold nameEncode nameSize
  induction ls with
  | nil => rfl
  | cons l ls ih =>
    simp only [List.length_append, List.length_singleton, List.length_nil,
      List.length_cons] at ih
    simp only [List.flatMap_cons, List.map_cons, List.sum_cons,
      List.append_assoc, List.length_append, Label.encode, Label.size,
      List.length_cons, List.length_singleton, List.length_nil]
    omega

theorem nameSize_pos (ls : List Label) : ls.length + 1 ≤ nameSize ls := by
  unfold nameSize
  induction ls with
  | nil => simp
  | cons l ls ih =>
    simp only [List.map_cons, List.sum_cons, List.length_cons, Label.size]
    omega

theorem decodeNameLoop_encode (c : Bool) (ls : List Label) :
    ∀ (acc : List Label) (buf rest : List Nat) (pos : Nat)
      (visited : List Nat) (fuel : Nat),
      NameWF ls → ls.length + 1 ≤ fuel →
      pos ≤ buf.length → buf.drop pos = nameEncode ls ++ rest →
      decodeNameLoop c fuel ⟨buf, pos⟩ visited none acc =
        .ok (acc ++ ls) ⟨buf, pos + nameSize ls⟩ := by
  induction ls with
  | nil =>
    intro acc buf rest pos visited fuel _ hfuel hpos hdrop
    simp only [nameEncode, List.flatMap_nil, List.nil_append] at hdrop
    obtain ⟨fuel, rfl⟩ : ∃ f, fuel = f + 1 := ⟨fuel - 1, by omega⟩
    have hlt : pos < buf.length := by
      have := congrArg List.length hdrop
      simp [List.length_drop] at this
      omega
    have hbyte : byteAt buf pos = 0 ∧ buf.drop (pos + 1) = rest := by
      rw [drop_cons_byteAt hlt] at hdrop
      exact ⟨by injection hdrop, by injection hdrop⟩
    rw [decodeNameLoop, peek1_eq hlt]
    simp only [List.headD_cons, hbyte.1]
    rw [if_pos (by norm_num), decodeU8_eq hlt]
    simp [hbyte.1, nameSize]
  | cons l ls ih =>
    intro acc buf rest pos visited fuel hWF hfuel hpos hdrop
    obtain ⟨fuel, rfl⟩ : ∃ f, fuel = f + 1 := ⟨fuel - 1, by omega⟩
    have hlWF : l.WF := hWF l (by simp)
    have hlsWF : NameWF ls := fun x hx => hWF x (by simp [hx])
    have hmod : l.length % 256 = l.length :=
      Nat.mod_eq_of_lt (by have := hlWF.2; omega)
    simp only [nameEncode, List.flatMap_cons, Label.encode, hmod,
      List.append_assoc, List.cons_append] at hdrop
    have hlt : pos < buf.length := by
      have := congrArg List.length hdrop
      simp [List.length_drop] at this
      omega
    have hbyte : byteAt buf pos = l.length ∧
        buf.drop (pos + 1) = l ++ ((ls.flatMap Label.encode ++ [0]) ++ rest) := by
      rw [drop_cons_byteAt hlt] at hdrop
      refine ⟨by injection hdrop, ?_⟩
      have := hdrop
      injection this with h1 h2
      rw [h2]
      simp [List.append_assoc]
    rw [decodeNameLoop, peek1_eq hlt]
    simp only [List.headD_cons, hbyte.1]
    rw [if_pos (by have := hlWF.2; exact Nat.div_eq_of_lt (by omega)),
      decodeU8_eq hlt]
    simp only [hbyte.1]
    rw [if_neg (by have := hlWF.1; omega)]
    have hread := wireRead_read_exact (by omega) hbyte.2
    rw [hread]
    show decodeNameLoop c fuel ⟨buf, pos + 1 + l.length⟩ (visited ++ [pos])
      none (acc ++ [l]) = _
    have hdrop' : buf.drop (pos + 1 + l.length) =
        nameEncode ls ++ rest := by
      obtain ⟨-, h⟩ := drop_prefix_facts (by omega) hbyte.2
      rw [show pos + 1 + l.length = pos + 1 + l.length from rfl, h]
      simp [nameEncode]
    have hpos' : pos + 1 + l.length ≤ buf.length := by
      obtain ⟨h, -⟩ := drop_prefix_facts (by omega) hbyte.2
      omega
    rw [ih (acc ++ [l]) buf rest (pos + 1 + l.length) (visited ++ [pos]) fuel
      hlsWF (by simp at hfuel ⊢; omega) hpos' hdrop']
    congr 1
    · simp
    · simp only [nameSize, List.map_cons, List.sum_cons, Label.size]
      congr 1
      omega

/-- Decoding at a position where the buffer holds an uncompressed encoded
well-formed name yields exactly that name and advances by its size. -/
theorem name_decode_roundtrip (c : Bool) (ls : List Label) {buf rest : List Nat}
    {pos : Nat} (hWF : NameWF ls) (hpos : pos ≤ buf.length)
    (hdrop : buf.drop pos = nameEncode ls ++ rest) :
    decodeName c ⟨buf, pos⟩ = .ok ls ⟨buf, pos + nameSize ls⟩ := by
  unfold decodeName
  have hlen : nameSize ls + rest.length + pos = buf.length := by
    obtain ⟨h, -⟩ := drop_prefix_facts hpos hdrop
    rw [nameEncode_length] at h
    omega
  have hfuel : ls.length + 1 ≤ nameFuel buf := by
    have h1 := nameSize_pos ls
    have h2 : buf.length + 2 ≤ nameFuel buf := by
      unfold nameFuel
      calc buf.length + 2 = (buf.length + 2) * 1 := by ring
        _ ≤ (buf.length + 2) * (buf.length + 2) :=
          Nat.mul_le_mul_left _ (by omega)
    omega
  have := decodeNameLoop_encode c ls [] buf rest pos [] (nameFuel buf)
    hWF hfuel hpos hdrop
  simpa using this

/-! ### Text strings: decoding an encoded text -/

theorem text_decode_roundtrip (t : Text) {buf rest : List Nat} {pos : Nat}
    (hWF : t.WF) (hpos : pos ≤ buf.length)
    (hdrop : buf.drop pos = Text.encode t ++ rest) :
    Text.decode ⟨buf, pos⟩ = .ok (t, ⟨buf, pos + t.size⟩) := by
  unfold Text.decode
  have hmod : t.length % 256 = t.length := Nat.mod_eq_of_lt hWF
  simp only [Text.encode, hmod, List.cons_append] at hdrop
  have hlt : pos < buf.length := by
    have := congrArg List.length hdrop
    simp [List.length_drop] at this
    omega
  have hbyte : byteAt buf pos = t.length ∧ buf.drop (pos + 1) = t ++ rest := by
    rw [drop_cons_byteAt hlt] at hdrop
    exact ⟨by injection hdrop, by injection hdrop⟩
  have hread := wireRead_read_exact (by omega) hbyte.2
  have hsize : pos + 1 + t.length = pos + t.size := by
    unfold Text.size; omega
  simp only [decodeU8_eq hlt, ok_bind, hbyte.1, hread, hsize]
  rfl

/-! ## Serial number arithmetic (`src/serial.rs`)

A `Serial` is a `u32`; we carry the value as a `Nat` assumed `< 2 ^ 32`. -/

namespace Serial

/-- `Serial::COMPARISON_THRESHOLD = 2u32.pow(31)`. -/
def COMPARISON_THRESHOLD : Nat := 2 ^ 31

/-- `impl PartialOrd for Serial`, literally transcribed. -/
def partialCmp (a b : Nat) : Option Ordering :=
  if a = b then some .eq
  else if (a < b ∧ b - a < COMPARISON_THRESHOLD) ∨
          (a > b ∧ a - b > COMPARISON_THRESHOLD) then some .lt
  else if (a < b ∧ b - a > COMPARISON_THRESHOLD) ∨
          (a > b ∧ a - b < COMPARISON_THRESHOLD) then some .gt
  else none

/-- `impl Add<u32> for Serial` (`wrapping_add`). -/
def add (a k : Nat) : Nat := (a + k) % 2 ^ 32

/-- Rust `>=` on a `PartialOrd` type: `partial_cmp` is `Greater` or `Equal`. -/
def ge (a b : Nat) : Bool :=
  match partialCmp a b with
  | some .gt => true
  | some .eq => true
  | _ => false

end Serial

/-! ## Record classes and types (`src/record.rs`)

`enum_other`'s `#[other(u16)]` supplies `From<u16>` (normalising: named
variants for recognised codes, `Other` otherwise) and the inverse
`From<_> for u16`. -/

inductive RecordClass where
  | In | Ch | NoneC | AnyC
  | Other (code : Nat)
  deriving DecidableEq, Repr

def RecordClass.toU16 : RecordClass → Nat
  | .In => 1
  | .Ch => 3
  | .NoneC => 254
  | .AnyC => 255
  | .Other c => c

def RecordClass.ofU16 (c : Nat) : RecordClass :=
  if c = 1 then .In
  else if c = 3 then .Ch
  else if c = 254 then .NoneC
  else if c = 255 then .AnyC
  else .Other c

inductive RecordType where
  | A | Ns | Cname | Soa | Ptr | Hinfo | Mx | Txt | Rp | Aaaa | Loc | Srv | OptT
  | Other (code : Nat)
  deriving DecidableEq, Repr

def RecordType.toU16 : RecordType → Nat
  | .A => 1
  | .Ns => 2
  | .Cname => 5
  | .Soa => 6
  | .Ptr => 12
  | .Hinfo => 13
  | .Mx => 15
  | .Txt => 16
  | .Rp => 17
  | .Aaaa => 28
  | .Loc => 29
  | .Srv => 33
  | .OptT => 41
  | .Other c => c

def RecordType.ofU16 (c : Nat) : RecordType :=
  if c = 1 then .A
  else if c = 2 then .Ns
  else if c = 5 then .Cname
  else if c = 6 then .Soa
  else if c = 12 then .Ptr
  else if c = 13 then .Hinfo
  else if c = 15 then .Mx
  else if c = 16 then .Txt
  else if c = 17 then .Rp
  else if c = 28 then .Aaaa
  else if c = 29 then .Loc
  else if c = 33 then .Srv
  else if c = 41 then .OptT
  else .Other c

/-! ## Questions (`src/question.rs`) -/

structure Question where
  name : List Label
  qclass : RecordClass
  qtype : RecordType
  deriving DecidableEq, Repr

def Question.size (q : Question) : Nat := nameSize q.name + 4

/-- `impl WireEncode for Question`: name, then type, then class. -/
def Question.encode (q : Question) : List Nat :=
  nameEncode q.name ++ encU16 q.qtype.toU16 ++ encU16 q.qclass.toU16

/-! ## EDNS options (`src/opt.rs`, `src/opt/*.rs`) -/

inductive OptCode where
  | NameServerIdentifier | Cookie | TcpKeepalive | Padding
  | Other (code : Nat)
  deriving DecidableEq, Repr

def OptCode.toU16 : OptCode → Nat
  | .NameServerIdentifier => 3
  | .Cookie => 10
  | .TcpKeepalive => 11
  | .Padding => 12
  | .Other c => c

def OptCode.ofU16 (c : Nat) : OptCode :=
  if c = 3 then .NameServerIdentifier
  else if c = 10 then .Cookie
  else if c = 11 then .TcpKeepalive
  else if c = 12 then .Padding
  else .Other c

inductive Opt where
  | nameServerIdentifier (identity : List Nat)
  | cookie (client server : List Nat)
  | tcpKeepalive (timeout : Option Nat)
  | padding (bytes : List Nat)
  | other (code : OptCode) (data : List Nat)
  deriving DecidableEq, Repr

def Opt.code : Opt → OptCode
  | .nameServerIdentifier _ => .NameServerIdentifier
  | .cookie _ _ => .Cookie
  | .tcpKeepalive _ => .TcpKeepalive
  | .padding _ => .Padding
  | .other c _ => c

def Opt.dataSize : Opt → Nat
  | .nameServerIdentifier identity => identity.length
  | .cookie client server => client.length + server.length
  | .tcpKeepalive timeout => match timeout with
    | some _ => 2
    | none => 0
  | .padding bytes => bytes.length
  | .other _ data => data.length

def Opt.encodeData : Opt → List Nat
  | .nameServerIdentifier identity => identity
  | .cookie client server => client ++ server
  | .tcpKeepalive timeout => match timeout with
    | some t => encU16 t
    | none => []
  | .padding bytes => bytes
  | .other _ data => data

def Opt.size (o : Opt) : Nat := 4 + o.dataSize

/-- `impl WireEncode for Opt`: code, data length (`as u16`), data. -/
def Opt.encode (o : Opt) : List Nat :=
  encU16 o.code.toU16 ++ encU16 o.dataSize ++ o.encodeData

/-- Per-option `decode_data` dispatch (`dns_opt_impl!`). -/
def Opt.decodeData (code : OptCode) (len : Nat) (r : WireRead) :
    Except WireError (Opt × WireRead) :=
  match code with
  | .NameServerIdentifier => do
    let (identity, r) ← r.read len
    return (.nameServerIdentifier identity, r)
  | .Cookie =>
    if ¬ (len = 8 ∨ (16 ≤ len ∧ len ≤ 40)) then
      .error (.invalidLength 8 len)
    else do
      let (client, r) ← r.read 8
      let (server, r) ← r.read (len - 8)
      return (.cookie client server, r)
  | .TcpKeepalive =>
    if len = 0 then .ok (.tcpKeepalive none, r)
    else if len ≠ 2 then .error (.invalidLength 2 len)
    else do
      let (t, r) ← decodeU16 r
      return (.tcpKeepalive (some t), r)
  | .Padding => do
    let (bytes, r) ← r.read len
    return (.padding bytes, r)
  | .Other _ => do
    let (data, r) ← r.read len
    return (.other code data, r)

def Opt.decode (r : WireRead) : Except WireError (Opt × WireRead) := do
  let (code, r) ← decodeU16 r
  let (len, r) ← decodeU16 r
  Opt.decodeData (OptCode.ofU16 code) len r

/-! ## The record catalogue (`src/record.rs`, `src/record/*.rs`)

`LOC` latitude/longitude are `i32` bit patterns; we carry the 32-bit
two's-complement representation as a `Nat < 2^32` (no arithmetic is ever
performed on them, only the sign-bit XOR done by the codec).  A LOC `Size`
is its `(base, exponent)` pair. -/

inductive Record where
  | inA (name : List Label) (ttl : Nat) (addr : Nat)
  | chA (name : List Label) (ttl : Nat) (network : List Label) (addr : Nat)
  | ns (name : List Label) (ttl : Nat) (rclass : RecordClass)
      (authority : List Label)
  | cname (name : List Label) (ttl : Nat) (rclass : RecordClass)
      (canonical : List Label)
  | soa (name : List Label) (ttl : Nat) (rclass : RecordClass)
      (primary admin : List Label) (serial refresh retry expire minimum : Nat)
  | ptr (name : List Label) (ttl : Nat) (rclass : RecordClass)
      (pointer : List Label)
  | hinfo (name : List Label) (ttl : Nat) (rclass : RecordClass) (cpu os : Text)
  | mx (name : List Label) (ttl : Nat) (rclass : RecordClass)
      (priority : Nat) (exchange : List Label)
  | txt (name : List Label) (ttl : Nat) (rclass : RecordClass)
      (strings : List Text)
  | rp (name : List Label) (ttl : Nat) (rclass : RecordClass)
      (mailbox text : List Label)
  | inAaaa (name : List Label) (ttl : Nat) (addr : Nat)
  | loc (name : List Label) (ttl : Nat) (rclass : RecordClass) (version : Nat)
      (latitude longitude : Nat) (altitude : Nat) (sz hp vp : Nat × Nat)
  | srv (name : List Label) (ttl : Nat) (rclass : RecordClass)
      (priority weight port : Nat) (target : List Label)
  | opt (name : List Label) (flags : Nat) (udpPayloadSize : Nat)
      (options : List Opt)
  | other (name : List Label) (ttl : Nat) (rtype : RecordType)
      (rclass : RecordClass) (data : List Nat)
  deriving DecidableEq, Repr

def Record.name : Record → List Label
  | .inA n _ _ => n
  | .chA n _ _ _ => n
  | .ns n _ _ _ => n
  | .cname n _ _ _ => n
  | .soa n _ _ _ _ _ _ _ _ _ => n
  | .ptr n _ _ _ => n
  | .hinfo n _ _ _ _ => n
  | .mx n _ _ _ _ => n
  | .txt n _ _ _ => n
  | .rp n _ _ _ _ => n
  | .inAaaa n _ _ => n
  | .loc n _ _ _ _ _ _ _ _ _ => n
  | .srv n _ _ _ _ _ _ => n
  | .opt n _ _ _ => n
  | .other n _ _ _ _ => n

/-- `ttl()`; the OPT pseudo-record reports its flags word. -/
def Record.ttl : Record → Nat
  | .inA _ t _ => t
  | .chA _ t _ _ => t
  | .ns _ t _ _ => t
  | .cname _ t _ _ => t
  | .soa _ t _ _ _ _ _ _ _ _ => t
  | .ptr _ t _ _ => t
  | .hinfo _ t _ _ _ => t
  | .mx _ t _ _ _ => t
  | .txt _ t _ _ => t
  | .rp _ t _ _ _ => t
  | .inAaaa _ t _ => t
  | .loc _ t _ _ _ _ _ _ _ _ => t
  | .srv _ t _ _ _ _ _ => t
  | .opt _ flags _ _ => flags
  | .other _ t _ _ _ => t

/-- `rclass()`; the OPT pseudo-record reports its payload size as a class. -/
def Record.rclass : Record → RecordClass
  | .inA _ _ _ => .In
  | .chA _ _ _ _ => .Ch
  | .ns _ _ c _ => c
  | .cname _ _ c _ => c
  | .soa _ _ c _ _ _ _ _ _ _ => c
  | .ptr _ _ c _ => c
  | .hinfo _ _ c _ _ => c
  | .mx _ _ c _ _ => c
  | .txt _ _ c _ => c
  | .rp _ _ c _ _ => c
  | .inAaaa _ _ _ => .In
  | .loc _ _ c _ _ _ _ _ _ _ => c
  | .srv _ _ c _ _ _ _ => c
  | .opt _ _ ups _ => RecordClass.ofU16 ups
  | .other _ _ _ c _ => c

def Record.rtype : Record → RecordType
  | .inA _ _ _ => .A
  | .chA _ _ _ _ => .A
  | .ns _ _ _ _ => .Ns
  | .cname _ _ _ _ => .Cname
  | .soa _ _ _ _ _ _ _ _ _ _ => .Soa
  | .ptr _ _ _ _ => .Ptr
  | .hinfo _ _ _ _ _ => .Hinfo
  | .mx _ _ _ _ _ => .Mx
  | .txt _ _ _ _ => .Txt
  | .rp _ _ _ _ _ => .Rp
  | .inAaaa _ _ _ => .Aaaa
  | .loc _ _ _ _ _ _ _ _ _ _ => .Loc
  | .srv _ _ _ _ _ _ _ => .Srv
  | .opt _ _ _ _ => .OptT
  | .other _ _ t _ _ => t

def Record.dataSize : Record → Nat
  | .inA _ _ _ => 4
  | .chA _ _ network _ => nameSize network + 2
  | .ns _ _ _ authority => nameSize authority
  | .cname _ _ _ canonical => nameSize canonical
  | .soa _ _ _ primary admin _ _ _ _ _ => nameSize primary + nameSize admin + 20
  | .ptr _ _ _ pointer => nameSize pointer
  | .hinfo _ _ _ cpu os => cpu.size + os.size
  | .mx _ _ _ _ exchange => nameSize exchange + 2
  | .txt _ _ _ strings => (strings.map Text.size).sum
  | .rp _ _ _ mailbox text => nameSize mailbox + nameSize text
  | .inAaaa _ _ _ => 16
  | .loc _ _ _ _ _ _ _ _ _ _ => 16
  | .srv _ _ _ _ _ _ target => nameSize target + 6
  | .opt _ _ _ options => (options.map Opt.size).sum
  | .other _ _ _ _ data => data.length

/-- A LOC `Size` byte: `(base << 4) | exponent`. -/
def sizeEncode (s : Nat × Nat) : List Nat := encU8 ((s.1 <<< 4) ||| s.2)

def sizeDecode (r : WireRead) : Except WireError ((Nat × Nat) × WireRead) := do
  let (value, r) ← decodeU8 r
  let base := value >>> 4
  let exponent := value &&& 15
  if ¬ (base ≤ 9) ∨ ¬ (exponent ≤ 9) then
    .error .unsupportedFormat
  else
    return ((base, exponent), r)

/-- `SIGN_BIT: i32 = 1 << 31`, as a 32-bit pattern. -/
def SIGN_BIT : Nat := 2 ^ 31

def Record.encodeData : Record → List Nat
  | .inA _ _ addr => encU32 addr
  | .chA _ _ network addr => nameEncode network ++ encU16 addr
  | .ns _ _ _ authority => nameEncode authority
  | .cname _ _ _ canonical => nameEncode canonical
  | .soa _ _ _ primary admin serial refresh retry expire minimum =>
    nameEncode primary ++ nameEncode admin ++ encU32 serial ++ encU32 refresh
      ++ encU32 retry ++ encU32 expire ++ encU32 minimum
  | .ptr _ _ _ pointer => nameEncode pointer
  | .hinfo _ _ _ cpu os => Text.encode cpu ++ Text.encode os
  | .mx _ _ _ priority exchange => encU16 priority ++ nameEncode exchange
  | .txt _ _ _ strings => strings.flatMap Text.encode
  | .rp _ _ _ mailbox text => nameEncode mailbox ++ nameEncode text
  | .inAaaa _ _ addr => encU128 addr
  | .loc _ _ _ version latitude longitude altitude sz hp vp =>
    encU8 version ++ sizeEncode sz ++ sizeEncode hp ++ sizeEncode vp
      ++ encU32 (SIGN_BIT ^^^ latitude) ++ encU32 (SIGN_BIT ^^^ longitude)
      ++ encU32 altitude
  | .srv _ _ _ priority weight port target =>
    encU16 priority ++ encU16 weight ++ encU16 port ++ nameEncode target
  | .opt _ _ _ options => options.flatMap Opt.encode
  | .other _ _ _ _ data => data

def Record.size (rec : Record) : Nat :=
  10 + nameSize rec.name + rec.dataSize

/-- `impl WireEncode for Record`: name, type, class, TTL, rdlength
(`as u16`), then the data. -/
def Record.encode (rec : Record) : List Nat :=
  nameEncode rec.name ++ encU16 rec.rtype.toU16 ++ encU16 rec.rclass.toU16
    ++ encU32 rec.ttl ++ encU16 rec.dataSize ++ rec.encodeData

/-! ### Record decoding -/

/-- Name decoding as an `Except` (the `fuelOut` case is unreachable by
`decodeNameLoop_no_fuelOut`; it is mapped to an arbitrary error). -/
def decodeNameE (compress : Bool) (r : WireRead) :
    Except WireError (List Label × WireRead) :=
  match decodeName compress r with
  | .ok ls r' => .ok (ls, r')
  | .err e => .error e
  | .fuelOut => .error .unsupportedFormat

/-- The `TXT` rdata loop (`TxtRecord::decode_data`): read strings until the
declared length is exhausted; overshoot is an `InvalidLength`.  Each pass
consumes at least one byte of budget, so the `len + 2` fuel supplied at
the call site can never run out (the fuel-out arm is unreachable). -/
def txtLoop (len : Nat) :
    Nat → Int → WireRead → List Text → Except WireError (List Text × WireRead)
  | 0, _, _, _ => .error .unsupportedFormat
  | fuel + 1, expected, r, acc =>
    if expected = 0 then .ok (acc, r)
    else if expected < 0 then
      .error (.invalidLength ((len - expected).toNat) len)
    else
      match Text.decode r with
      | .error e => .error e
      | .ok (s, r') => txtLoop len fuel (expected - s.size) r' (acc ++ [s])

/-- The OPT rdata loop (`OptRecord::decode_data`); fuel as in `txtLoop`. -/
def optLoop (len : Nat) :
    Nat → Int → WireRead → List Opt → Except WireError (List Opt × WireRead)
  | 0, _, _, _ => .error .unsupportedFormat
  | fuel + 1, expected, r, acc =>
    if expected = 0 then .ok (acc, r)
    else if expected < 0 then
      .error (.invalidLength ((len - expected).toNat) len)
    else
      match Opt.decode r with
      | .error e => .error e
      | .ok (o, r') => optLoop len fuel (expected - o.size) r' (acc ++ [o])

/-- `decode_data` for each `(class, type)` pair, in the match order laid
down by `dns_record_impl!`. -/
def Record.decodeData (name : List Label) (ttl : Nat) (rclass : RecordClass)
    (rtype : RecordType) (len : Nat) (r : WireRead) :
    Except WireError (Record × WireRead) :=
  match rclass, rtype with
  | .In, .A =>
    if len ≠ 4 then .error (.invalidLength 4 len)
    else do
      let (addr, r) ← decodeU32 r
      return (.inA name ttl addr, r)
  | .Ch, .A => do
    let (network, r) ← decodeNameE false r
    if nameSize network + 2 ≠ len then
      .error (.invalidLength (nameSize network + 2) len)
    else do
      let (addr, r) ← decodeU16 r
      return (.chA name ttl network addr, r)
  | _, .Ns => do
    let (authority, r) ← decodeNameE false r
    if nameSize authority ≠ len then
      .error (.invalidLength (nameSize authority) len)
    else
      return (.ns name ttl rclass authority, r)
  | _, .Cname => do
    let (canonical, r) ← decodeNameE false r
    if nameSize canonical ≠ len then
      .error (.invalidLength (nameSize canonical) len)
    else
      return (.cname name ttl rclass canonical, r)
  | _, .Soa => do
    let (primary, r) ← decodeNameE false r
    let (admin, r) ← decodeNameE false r
    if nameSize primary + nameSize admin + 20 ≠ len then
      .error (.invalidLength (nameSize primary + nameSize admin + 20) len)
    else do
      let (serial, r) ← decodeU32 r
      let (refresh, r) ← decodeU32 r
      let (retry, r) ← decodeU32 r
      let (expire, r) ← decodeU32 r
      let (minimum, r) ← decodeU32 r
      return (.soa name ttl rclass primary admin serial refresh retry expire
        minimum, r)
  | _, .Ptr => do
    let (pointer, r) ← decodeNameE false r
    if nameSize pointer ≠ len then
      .error (.invalidLength (nameSize pointer) len)
    else
      return (.ptr name ttl rclass pointer, r)
  | _, .Hinfo => do
    let (cpu, r) ← Text.decode r
    let (os, r) ← Text.decode r
    if cpu.size + os.size ≠ len then
      .error (.invalidLength (cpu.size + os.size) len)
    else
      return (.hinfo name ttl rclass cpu os, r)
  | _, .Mx => do
    let (priority, r) ← decodeU16 r
    let (exchange, r) ← decodeNameE false r
    if nameSize exchange + 2 ≠ len then
      .error (.invalidLength (nameSize exchange) len)
    else
      return (.mx name ttl rclass priority exchange, r)
  | _, .Txt => do
    let (strings, r) ← txtLoop len (len + 2) (len : Int) r []
    return (.txt name ttl rclass strings, r)
  | _, .Rp => do
    let (mailbox, r) ← decodeNameE false r
    let (text, r) ← decodeNameE false r
    if nameSize mailbox + nameSize text ≠ len then
      .error (.invalidLength (nameSize mailbox + nameSize text) len)
    else
      return (.rp name ttl rclass mailbox text, r)
  | .In, .Aaaa =>
    if len ≠ 16 then .error (.invalidLength 16 len)
    else do
      let (addr, r) ← decodeU128 r
      return (.inAaaa name ttl addr, r)
  | _, .Loc =>
    if len ≠ 16 then .error (.invalidLength 16 len)
    else do
      let (version, r) ← decodeU8 r
      if version ≠ 0 then .error .unsupportedFormat
      else do
        let (sz, r) ← sizeDecode r
        let (hp, r) ← sizeDecode r
        let (vp, r) ← sizeDecode r
        let (latRaw, r) ← decodeU32 r
        let (lonRaw, r) ← decodeU32 r
        let (altitude, r) ← decodeU32 r
        return (.loc name ttl rclass version (latRaw ^^^ SIGN_BIT)
          (lonRaw ^^^ SIGN_BIT) altitude sz hp vp, r)
  | _, .Srv => do
    let (priority, r) ← decodeU16 r
    let (weight, r) ← decodeU16 r
    let (port, r) ← decodeU16 r
    let (target, r) ← decodeNameE false r
    if nameSize target + 6 ≠ len then
      .error (.invalidLength (nameSize target) len)
    else
      return (.srv name ttl rclass priority weight port target, r)
  | _, .OptT => do
    let (options, r) ← optLoop len (len + 2) (len : Int) r []
    return (.opt name ttl rclass.toU16 options, r)
  | _, _ => do
    let (data, r) ← r.read len
    return (.other name ttl rtype rclass data, r)

/-- `impl WireDecode for Record`. -/
def Record.decode (r : WireRead) : Except WireError (Record × WireRead) := do
  let (name, r) ← decodeNameE true r
  let (rtype, r) ← decodeU16 r
  let (rclass, r) ← decodeU16 r
  let (ttl, r) ← decodeU32 r
  let (len, r) ← decodeU16 r
  Record.decodeData name ttl (RecordClass.ofU16 rclass) (RecordType.ofU16 rtype)
    len r

/-- `impl WireDecode for Question`. -/
def Question.decode (r : WireRead) : Except WireError (Question × WireRead) := do
  let (name, r) ← decodeNameE true r
  let (qtype, r) ← decodeU16 r
  let (qclass, r) ← decodeU16 r
  return (⟨name, RecordClass.ofU16 qclass, RecordType.ofU16 qtype⟩, r)

/-! ## Bit fields (`src/bitfield.rs`)

`set_flag`/`set_bits`/`get_flag`/`get_bits` on a `w`-bit word. -/

def setFlag (w flags bit : Nat) (value : Bool) : Nat :=
  if value then flags ||| (1 <<< bit)
  else flags &&& ((2 ^ w - 1) ^^^ (1 <<< bit))

def setBits (w flags start stop value : Nat) : Nat :=
  let bits := stop - start
  let mask := ((1 <<< bits) - 1) <<< start
  (flags &&& ((2 ^ w - 1) ^^^ mask)) ||| ((value <<< start) &&& mask)

def getFlag (flags bit : Nat) : Bool :=
  flags &&& (1 <<< bit) ≠ 0

def getBits (flags start stop : Nat) : Nat :=
  (flags >>> start) &&& ((1 <<< (stop - start)) - 1)

/-! ## Messages (`src/message.rs`) -/

inductive PacketType where
  | Query | Response
  deriving DecidableEq, Repr

def PacketType.toBool : PacketType → Bool
  | .Query => false
  | .Response => true

inductive Opcode where
  | Query | IQuery | Status | Notify | Update
  | Other (code : Nat)
  deriving DecidableEq, Repr

def Opcode.toU8 : Opcode → Nat
  | .Query => 0
  | .IQuery => 1
  | .Status => 2
  | .Notify => 4
  | .Update => 5
  | .Other c => c

def Opcode.ofU8 (c : Nat) : Opcode :=
  if c = 0 then .Query
  else if c = 1 then .IQuery
  else if c = 2 then .Status
  else if c = 4 then .Notify
  else if c = 5 then .Update
  else .Other c

inductive ResponseCode where
  | NoError | FormatError | ServerFailure | NonExistentDomain | NotImplemented
  | QueryRefused | UnexpectedDomain | UnexpectedRrSet | NonExistentRrSet
  | NotAuthorized | NameNotInZone | BadSignature | BadKey | BadTime | BadMode
  | BadName | BadAlgorithm | BadTruncation | BadCookie
  | Other (code : Nat)
  deriving DecidableEq, Repr

def ResponseCode.toU16 : ResponseCode → Nat
  | .NoError => 0
  | .FormatError => 1
  | .ServerFailure => 2
  | .NonExistentDomain => 3
  | .NotImplemented => 4
  | .QueryRefused => 5
  | .UnexpectedDomain => 6
  | .UnexpectedRrSet => 7
  | .NonExistentRrSet => 8
  | .NotAuthorized => 9
  | .NameNotInZone => 10
  | .BadSignature => 16
  | .BadKey => 17
  | .BadTime => 18
  | .BadMode => 19
  | .BadName => 20
  | .BadAlgorithm => 21
  | .BadTruncation => 22
  | .BadCookie => 23
  | .Other c => c

def ResponseCode.ofU16 (c : Nat) : ResponseCode :=
  if c = 0 then .NoError
  else if c = 1 then .FormatError
  else if c = 2 then .ServerFailure
  else if c = 3 then .NonExistentDomain
  else if c = 4 then .NotImplemented
  else if c = 5 then .QueryRefused
  else if c = 6 then .UnexpectedDomain
  else if c = 7 then .UnexpectedRrSet
  else if c = 8 then .NonExistentRrSet
  else if c = 9 then .NotAuthorized
  else if c = 10 then .NameNotInZone
  else if c = 16 then .BadSignature
  else if c = 17 then .BadKey
  else if c = 18 then .BadTime
  else if c = 19 then .BadMode
  else if c = 20 then .BadName
  else if c = 21 then .BadAlgorithm
  else if c = 22 then .BadTruncation
  else if c = 23 then .BadCookie
  else .Other c

def ResponseCode.headerBits (c : ResponseCode) : Nat := c.toU16 &&& 15

def ResponseCode.extendedBits (c : ResponseCode) : Nat := c.toU16 >>> 4

structure Message where
  id : Nat
  packetType : PacketType
  opcode : Opcode
  authoritativeAnswer : Bool
  truncated : Bool
  recursionDesired : Bool
  recursionAvailable : Bool
  zero : Bool
  authenticData : Bool
  checkingDisabled : Bool
  responseCode : ResponseCode
  udpPayloadSize : Nat
  ednsVersion : Option Nat
  dnssecOk : Bool
  extendedZero : Nat
  options : List Opt
  questions : List Question
  answers : List Record
  authorities : List Record
  additionals : List Record
  deriving DecidableEq, Repr

/-- `Message::new(id)`. -/
def Message.new (id : Nat) : Message where
  id := id
  packetType := .Query
  opcode := .Query
  authoritativeAnswer := false
  truncated := false
  recursionDesired := false
  recursionAvailable := false
  zero := false
  authenticData := false
  checkingDisabled := false
  responseCode := .NoError
  udpPayloadSize := 512
  ednsVersion := none
  dnssecOk := false
  extendedZero := 0
  options := []
  questions := []
  answers := []
  authorities := []
  additionals := []

/-- `impl WireEncode for Message::size`. -/
def Message.size (m : Message) : Nat :=
  (match m.ednsVersion with
    | some _ => 23 + (m.options.map Opt.size).sum
    | none => 12)
    + (m.questions.map Question.size).sum
    + (m.answers.map Record.size).sum
    + (m.authorities.map Record.size).sum
    + (m.additionals.map Record.size).sum

/-- The header flags word assembled by `Message::encode`. -/
def Message.flagsWord (m : Message) : Nat :=
  let flags := setFlag 16 0 15 m.packetType.toBool
  let flags := setBits 16 flags 11 15 m.opcode.toU8
  let flags := setFlag 16 flags 10 m.authoritativeAnswer
  let flags := setFlag 16 flags 9 m.truncated
  let flags := setFlag 16 flags 8 m.recursionDesired
  let flags := setFlag 16 flags 7 m.recursionAvailable
  let flags := setFlag 16 flags 6 m.zero
  let flags := setFlag 16 flags 5 m.authenticData
  let flags := setFlag 16 flags 4 m.checkingDisabled
  setBits 16 flags 0 4 m.responseCode.headerBits

/-- The OPT TTL word assembled by `Message::encode`
(`OptRecord::BITS_RESPONSE_CODE = 24..32`, `BITS_VERSION = 16..24`,
`FLAG_DNSSEC_OK = 16`, `BITS_ZERO = 0..16`).

Note: `FLAG_DNSSEC_OK` is bit 16, which lies inside `BITS_VERSION`'s
range; the fields are assembled in source order. -/
def Message.optFlagsWord (m : Message) (ednsVersion : Nat) : Nat :=
  let flags := setBits 32 0 24 32 m.responseCode.extendedBits
  let flags := setBits 32 flags 16 24 ednsVersion
  let flags := setFlag 32 flags 16 m.dnssecOk
  setBits 32 flags 0 16 m.extendedZero

/-- `impl WireEncode for Message::encode`. -/
def Message.encode (m : Message) : List Nat :=
  let ednsAdditionalSpace := match m.ednsVersion with
    | some _ => 1
    | none => 0
  encU16 m.id
    ++ encU16 m.flagsWord
    ++ encU16 m.questions.length
    ++ encU16 m.answers.length
    ++ encU16 m.authorities.length
    ++ encU16 (ednsAdditionalSpace + m.additionals.length)
    ++ m.questions.flatMap Question.encode
    ++ m.answers.flatMap Record.encode
    ++ m.authorities.flatMap Record.encode
    ++ (match m.ednsVersion with
      | some v =>
        Record.encode (.opt [] (m.optFlagsWord v) m.udpPayloadSize m.options)
      | none => [])
    ++ m.additionals.flatMap Record.encode

/-! ### Truncation (`Message::truncate_to`) -/

/-- One section pass of the `iter!` macro inside `truncate_to`: subtract
each resource's size from the running (signed) budget; on underflow report
the kept prefix (`inr`), otherwise the remaining budget (`inl`). -/
def truncGo (sizeOf : α → Nat) : List α → Int → (Int ⊕ List α)
  | [], s => .inl s
  | x :: rest, s =>
    let s := s - (sizeOf x : Int)
    if s < 0 then .inr []
    else match truncGo sizeOf rest s with
      | .inl s => .inl s
      | .inr kept => .inr (x :: kept)

/-- The four `iter!` section passes of `truncate_to`, applied after the
EDNS step. -/
def truncChain (m : Message) (s : Int) : Message :=
  match truncGo Question.size m.questions s with
  | .inr kept =>
    { m with
      questions := kept
      answers := []
      authorities := []
      additionals := []
      truncated := true }
  | .inl s =>
  match truncGo Record.size m.answers s with
  | .inr kept =>
    { m with
      answers := kept
      authorities := []
      additionals := []
      truncated := true }
  | .inl s =>
  match truncGo Record.size m.authorities s with
  | .inr kept =>
    { m with
      authorities := kept
      additionals := []
      truncated := true }
  | .inl s =>
  match truncGo Record.size m.additionals s with
  | .inr kept => { m with additionals := kept, truncated := true }
  | .inl _ => m

/-- `Message::truncate_to(size)`. -/
def Message.truncateTo (m : Message) (size : Nat) : Message :=
  let s : Int := (size : Int) - 12
  let step : Message × Int :=
    match m.ednsVersion with
    | some _ =>
      let ednsSize : Int := 11 + ((m.options.map Opt.size).sum : Int)
      if s - ednsSize < 0 then
        ({ m with ednsVersion := none, truncated := true }, s)
      else (m, s - ednsSize)
    | none => (m, s)
  truncChain step.1 step.2

/-! ### Message decoding -/

/-- `Vec::swap_remove(i)`: replace index `i` with the last element and pop
(valid for `i < l.length`). -/
def swapRemove (l : List α) (i : Nat) : List α :=
  match l.getLast? with
  | some last => (l.set i last).dropLast
  | none => []

def decodeCount (count : Nat) (dec : WireRead → Except WireError (α × WireRead))
    (r : WireRead) : Except WireError (List α × WireRead) :=
  match count with
  | 0 => .ok ([], r)
  | c + 1 => do
    let (x, r) ← dec r
    let (xs, r) ← decodeCount c dec r
    return (x :: xs, r)

/-- `impl WireDecode for Message`. -/
def Message.decode (r : WireRead) : Except WireError (Message × WireRead) := do
  let (id, r) ← decodeU16 r
  let (flags, r) ← decodeU16 r
  let packetType : PacketType :=
    if getFlag flags 15 then .Response else .Query
  let opcode := Opcode.ofU8 (getBits flags 11 15)
  let authoritativeAnswer := getFlag flags 10
  let truncated := getFlag flags 9
  let recursionDesired := getFlag flags 8
  let recursionAvailable := getFlag flags 7
  let zero := getFlag flags 6
  let authenticData := getFlag flags 5
  let checkingDisabled := getFlag flags 4
  let responseCode := ResponseCode.ofU16 (getBits flags 0 4)
  let (questionCount, r) ← decodeU16 r
  let (answerCount, r) ← decodeU16 r
  let (authorityCount, r) ← decodeU16 r
  let (additionalCount, r) ← decodeU16 r
  let (questions, r) ← decodeCount questionCount Question.decode r
  let (answers, r) ← decodeCount answerCount Record.decode r
  let (authorities, r) ← decodeCount authorityCount Record.decode r
  let (additionals, r) ← decodeCount additionalCount Record.decode r
  let optIndex := additionals.findIdx? (fun rec => rec.rtype == RecordType.OptT)
  let laterOpts := match optIndex with
    | some i =>
      (additionals.drop (i + 1)).any (fun rec => rec.rtype == RecordType.OptT)
    | none => false
  if laterOpts then
    .error .unsupportedFormat
  else
    let base : Message :=
      { id := id
        packetType := packetType
        opcode := opcode
        authoritativeAnswer := authoritativeAnswer
        truncated := truncated
        recursionDesired := recursionDesired
        recursionAvailable := recursionAvailable
        zero := zero
        authenticData := authenticData
        checkingDisabled := checkingDisabled
        responseCode := responseCode
        udpPayloadSize := 512
        ednsVersion := none
        dnssecOk := false
        extendedZero := 0
        options := []
        questions := questions
        answers := answers
        authorities := authorities
        additionals := additionals }
    match optIndex with
    | some i =>
      match additionals.get? i with
      | some (.opt _ flags ups opts) =>
        return ({ base with
          udpPayloadSize := max ups 512
          options := opts
          responseCode := ResponseCode.ofU16
            ((getBits flags 24 32 <<< 4) ||| responseCode.toU16)
          ednsVersion := some (getBits flags 16 24)
          dnssecOk := getFlag flags 16
          extendedZero := getBits flags 0 16
          additionals := swapRemove additionals i }, r)
      | _ => return ({ base with additionals := swapRemove additionals i }, r)
    | none => return (base, r)

/-! ## Message setters (`getter_setter_impl!` / `getter_adder_impl!`) -/

def Message.setPacketType (m : Message) (v : PacketType) : Message :=
  { m with packetType := v }
def Message.setOpcode (m : Message) (v : Opcode) : Message :=
  { m with opcode := v }
def Message.setAuthoritativeAnswer (m : Message) (v : Bool) : Message :=
  { m with authoritativeAnswer := v }
def Message.setRecursionDesired (m : Message) (v : Bool) : Message :=
  { m with recursionDesired := v }
def Message.setRecursionAvailable (m : Message) (v : Bool) : Message :=
  { m with recursionAvailable := v }
def Message.setResponseCode (m : Message) (v : ResponseCode) : Message :=
  { m with responseCode := v }
def Message.setUdpPayloadSize (m : Message) (v : Nat) : Message :=
  { m with udpPayloadSize := v }
def Message.setEdnsVersion (m : Message) (v : Option Nat) : Message :=
  { m with ednsVersion := v }
def Message.addOption (m : Message) (o : Opt) : Message :=
  { m with options := m.options ++ [o] }
def Message.addQuestion (m : Message) (q : Question) : Message :=
  { m with questions := m.questions ++ [q] }
def Message.addAnswer (m : Message) (r : Record) : Message :=
  { m with answers := m.answers ++ [r] }
def Message.addAuthority (m : Message) (r : Record) : Message :=
  { m with authorities := m.authorities ++ [r] }
def Message.addAdditional (m : Message) (r : Record) : Message :=
  { m with additionals := m.additionals ++ [r] }

/-! ## The zone tree (`src/node.rs`)

`HashMap` keys compare with the key type's `PartialEq`: case-insensitive
for `Label`, structural for `(RecordClass, RecordType)`. -/

/-- Derived `PartialEq` on a name: element-wise case-insensitive labels. -/
def nameEq (a b : List Label) : Bool :=
  a.length == b.length && (a.zip b).all fun p => p.1.labelEq p.2

/-- Derived `PartialEq` on `Question`. -/
def Question.qeq (a b : Question) : Bool :=
  nameEq a.name b.name && a.qclass == b.qclass && a.qtype == b.qtype

inductive Node where
  | mk (children : List (Label × Node))
       (records : List ((RecordClass × RecordType) × List Record))
  deriving Repr

def Node.children : Node → List (Label × Node)
  | .mk c _ => c

def Node.records : Node → List ((RecordClass × RecordType) × List Record)
  | .mk _ r => r

/-- `Node::get`. -/
def Node.get (n : Node) (l : Label) : Option Node :=
  match n.children.find? (fun kv => kv.1.labelEq l) with
  | some kv => some kv.2
  | none => none

/-- `Node::resource_record_set`. -/
def Node.resourceRecordSet (n : Node) (rclass : RecordClass)
    (rtype : RecordType) : List Record :=
  match n.records.find? (fun kv => kv.1 == (rclass, rtype)) with
  | some kv => kv.2
  | none => []

/-! ## The resolver (`src/resolver.rs`) -/

inductive ResolveType where
  | Question | Alias | Additional
  deriving DecidableEq, Repr

/-- `RecordData::additionals` per record type (`CNAME`, `NS`, `MX`, `SRV`
override the empty default). -/
def Record.additionals (rec : Record) (question : Question) :
    List (Question × ResolveType) :=
  match rec with
  | .cname _ _ rclass canonical =>
    if question.qtype = .Cname then []
    else [(⟨canonical, rclass, question.qtype⟩, .Alias)]
  | .ns _ _ rclass authority =>
    [(⟨authority, rclass, .A⟩, .Additional),
     (⟨authority, rclass, .Aaaa⟩, .Additional)]
  | .mx _ _ rclass _ exchange =>
    [(⟨exchange, rclass, .A⟩, .Additional),
     (⟨exchange, rclass, .Aaaa⟩, .Additional)]
  | .srv _ _ rclass _ _ _ target =>
    [(⟨target, rclass, .A⟩, .Additional),
     (⟨target, rclass, .Aaaa⟩, .Additional)]
  | _ => []

/-- `find_authorities`. -/
def findAuthorities (node : Node) (qclass : RecordClass) : List Record :=
  let soaRecords := node.resourceRecordSet qclass .Soa
  if ¬ soaRecords.isEmpty then soaRecords
  else
    let nsRecords := node.resourceRecordSet qclass .Ns
    if ¬ nsRecords.isEmpty then nsRecords
    else []

/-- `find_node`: walk the labels in reverse, tracking the deepest node and
the closest enclosing non-empty authority set. -/
def findNode (name : List Label) (qclass : RecordClass) (root : Node) :
    Option Node × List Record :=
  name.reverse.foldl
    (fun (st : Option Node × List Record) label =>
      let node := st.1.bind (fun n => n.get label)
      match node with
      | some n =>
        let nodeAuthorities := findAuthorities n qclass
        (node, if nodeAuthorities.isEmpty then st.2 else nodeAuthorities)
      | none => (node, st.2))
    (some root, findAuthorities root qclass)

/-- The authority loop inside `resolve_query`'s `node.is_none()` branch.
Returns the updated response and queue and whether the loop returned early
(after copying an SOA for a `Question` item). -/
def authorityLoop (question : Question) (resolveType : ResolveType) :
    List Record → Message → List (Question × ResolveType) →
    Message × List (Question × ResolveType) × Bool
  | [], response, queue => (response, queue, false)
  | authority :: rest, response, queue =>
    let response := response.addAuthority authority
    let queue := queue ++ authority.additionals question
    if resolveType = .Question ∧ authority.rtype = .Soa then
      (response.setResponseCode .NonExistentDomain, queue, true)
    else authorityLoop question resolveType rest response queue

/-- The answer loop at the end of `resolve_query`'s main branch. -/
def answerLoop (question : Question) (resolveType : ResolveType) :
    List Record → Message → List (Question × ResolveType) →
    Message × List (Question × ResolveType)
  | [], response, queue => (response, queue)
  | answer :: rest, response, queue =>
    let response :=
      if resolveType ≠ .Additional then response.addAnswer answer
      else response.addAdditional answer
    let queue := queue ++ answer.additionals question
    answerLoop question resolveType rest response queue

/-- One dequeued item of `resolve_query`'s `while let` loop, after the
already-resolved check.  Returns `(response, resolved, queue, done)`;
`done` means the function returned. -/
def resolveStep (root : Node) (question : Question)
    (resolveType : ResolveType) (response : Message)
    (queue : List (Question × ResolveType)) :
    Message × List (Question × ResolveType) × Bool :=
  let found := findNode question.name question.qclass root
  let node := found.1
  let authorities := found.2
  if authorities.isEmpty ∧ resolveType = .Question then
    (response.setResponseCode .QueryRefused, queue, true)
  else
    match node with
    | none =>
      let r := authorityLoop question resolveType authorities response queue
      (r.1, r.2.1, r.2.2)
    | some node =>
      let answers := node.resourceRecordSet question.qclass .Cname
      let queue := queue ++ answers.flatMap (fun a => a.additionals question)
      let answers :=
        if answers.isEmpty then
          node.resourceRecordSet question.qclass question.qtype
        else answers
      let r := answerLoop question resolveType answers response queue
      (r.1, r.2, false)

/-- `resolve_query`'s worklist loop.  `Vec::pop` takes the *last* element;
`append` pushes to the end.  The fuel is threaded explicitly (the loop
terminates on every input reachable from the server, and every claim about
it is stated for a sufficient fuel). -/
def resolveQueryLoop (root : Node) :
    Nat → Message → List Question → List (Question × ResolveType) → Message
  | 0, response, _, _ => response
  | fuel + 1, response, resolved, queue =>
    match queue.getLast? with
    | none => response
    | some (question, resolveType) =>
      let queue := queue.dropLast
      if resolved.any (fun x => x.qeq question) then
        resolveQueryLoop root fuel response resolved queue
      else
        let resolved := question :: resolved
        let r := resolveStep root question resolveType response queue
        if r.2.2 then r.1
        else resolveQueryLoop root fuel r.1 resolved r.2.1

/-- `resolve_query`. -/
def resolveQuery (root : Node) (fuel : Nat) (query : Message)
    (response : Message) : Message :=
  resolveQueryLoop root fuel response []
    (query.questions.map (fun q => (q, ResolveType.Question)))

/-! ## Query context (`src/context.rs`), reduced to the fields the
resolver and option handlers consult.

The SipHash-2-4 MAC keyed with the 16-byte server cookie secret is carried
as an opaque function `mac` over the byte stream fed to the hasher (the
`Hasher::write*` calls concatenate); both cookie production and validation
apply the same function, which is all the cookie claims depend on.
`now` is the `u32` timestamp the code derives from `SystemTime::now()`;
`keepalive` is the connection's keepalive in milliseconds. -/

inductive CookieStrategy where
  | Off | Validate | Enforce
  deriving DecidableEq, Repr

structure ServerCfg where
  udpMaxPayloadSize : Nat
  cookieEnabled : Bool
  cookieStrategy : CookieStrategy
  identityEnabled : Bool
  identityName : List Nat
  deriving Repr

structure Ctx where
  config : ServerCfg
  root : Node
  ipOctets : List Nat
  keepalive : Nat
  now : Nat
  mac : List Nat → Nat

/-- `to_ne_bytes` of a `u32` (little-endian on the reference platform). -/
def neBytesU32 (v : Nat) : List Nat :=
  [v % 256, v / 256 % 256, v / 65536 % 256, v / 16777216 % 256]

/-! ### Cookie option (`src/opt/cookie.rs`) -/

/-- `CookieOpt::response`: a fresh server cookie for this client. -/
def cookieResponse (client : List Nat) (ctx : Ctx) : Opt :=
  let stream := client ++ [1, 0, 0, 0] ++ neBytesU32 ctx.now ++ ctx.ipOctets
  let hash := ctx.mac stream
  .cookie client ([1, 0, 0, 0] ++ encU32 ctx.now ++ encU64 hash)

/-- `CookieOpt::validate`. -/
def cookieValidate (client server : List Nat) (ctx : Ctx) : Bool :=
  if ctx.config.cookieStrategy = .Off then true
  else if server.isEmpty ∧ ctx.config.cookieStrategy = .Validate then true
  else if server.length ≠ 16 then false
  else
    let version := server.headD 0
    if version ≠ 1 then false
    else
      let reserved := (server.drop 1).take 3
      let timestamp := fromBeBytes ((server.drop 4).take 4)
      if Serial.ge ((ctx.now + 2 ^ 32 - 3600) % 2 ^ 32) timestamp ∧
          Serial.ge timestamp ((ctx.now + 300) % 2 ^ 32) then false
      else
        let stream := client ++ [1] ++ reserved ++ neBytesU32 timestamp
          ++ ctx.ipOctets
        let hash := ctx.mac stream
        let expectedHash := fromBeBytes ((server.drop 8).take 8)
        hash == expectedHash

/-! ### Option handlers (`OptData::handle`) -/

inductive OptHandleAction where
  | Nothing | ReturnEarly
  deriving DecidableEq, Repr

/-- `TcpKeepaliveOpt::duration` in milliseconds. -/
def tcpKeepaliveDuration (timeout : Option Nat) : Nat :=
  match timeout with
  | some t => t * 100
  | none => 0

/-- `TcpKeepaliveOpt::with_duration` (`as_millis() / 100` cast to `u16`). -/
def tcpKeepaliveWithDuration (millis : Nat) : Opt :=
  .tcpKeepalive (some (millis / 100 % 2 ^ 16))

/-- The per-option `handle` dispatch.  `Padding` and unrecognised options
use the trait's default handler, which does nothing. -/
def Opt.handle (o : Opt) (response : Message) (ctx : Ctx) :
    Message × Ctx × OptHandleAction :=
  match o with
  | .nameServerIdentifier _ =>
    if ¬ ctx.config.identityEnabled then (response, ctx, .Nothing)
    else
      (response.addOption (.nameServerIdentifier ctx.config.identityName),
        ctx, .Nothing)
  | .cookie client server =>
    if ¬ ctx.config.cookieEnabled then (response, ctx, .Nothing)
    else
      let response := response.addOption (cookieResponse client ctx)
      if ¬ cookieValidate client server ctx then
        (response.setResponseCode .BadCookie, ctx, .ReturnEarly)
      else (response, ctx, .Nothing)
  | .tcpKeepalive timeout =>
    let ctx :=
      if timeout.isSome then
        { ctx with keepalive := tcpKeepaliveDuration timeout }
      else ctx
    (response.addOption (tcpKeepaliveWithDuration ctx.keepalive), ctx,
      .Nothing)
  | .padding _ => (response, ctx, .Nothing)
  | .other _ _ => (response, ctx, .Nothing)

/-- The option loop in `resolve_impl`. -/
def optionsLoop : List Opt → Message → Ctx → Message × Ctx × Bool
  | [], response, ctx => (response, ctx, false)
  | o :: rest, response, ctx =>
    let r := o.handle response ctx
    match r.2.2 with
    | .Nothing => optionsLoop rest r.1 r.2.1
    | .ReturnEarly => (r.1, r.2.1, true)

/-- `resolve_impl`. -/
def resolveImpl (fuel : Nat) (query : Message) (ctx : Ctx) : Message × Ctx :=
  let response := Message.new query.id
    |>.setPacketType .Response
    |>.setOpcode query.opcode
    |>.setAuthoritativeAnswer true
    |>.setRecursionDesired query.recursionDesired
    |>.setRecursionAvailable false
    |>.setResponseCode .NoError
  let response := query.questions.foldl Message.addQuestion response
  let step : Message × Bool :=
    match query.ednsVersion with
    | some version =>
      let response := response.setEdnsVersion (some 0)
        |>.setUdpPayloadSize ctx.config.udpMaxPayloadSize
      if version > 0 then
        -- BADSIG and BADVERS share the same code
        (response.setResponseCode .BadSignature, true)
      else (response, false)
    | none => (response, false)
  if step.2 then (step.1, ctx)
  else
    let r := optionsLoop query.options step.1 ctx
    if r.2.2 then (r.1, r.2.1)
    else if query.opcode = .Query then
      (resolveQuery ctx.root fuel query r.1, r.2.1)
    else
      (r.1.setResponseCode .NotImplemented, r.2.1)

/-! ## Transport frame handling (`src/server.rs`)

`to_wire` never fails in this code base (`WireWrite::write` is
infallible), so the `Err` branch that would send `ServerFailure` is dead;
encoding is total.  Resolution itself is irrelevant to the frame-handling
claims and is supplied as a function parameter.  The `Err` branch of the
wire decode builds `Message::new(u16::from_be_bytes([packet[0],
packet[1]]))`: on a TCP frame shorter than two bytes that indexing is out
of bounds, modelled by `FrameResult.panic`. -/

inductive FrameResult where
  | reply (wire : List Nat)
  | panic
  deriving DecidableEq, Repr

/-- Per-frame handling of `TcpDnsServer::run`'s connection loop body
(after the length-prefixed read). -/
def handleTcpFrame (resolveFn : Message → Message) (packet : List Nat) :
    FrameResult :=
  match Message.decode ⟨packet, 0⟩ with
  | .ok (message, _) => .reply (resolveFn message).encode
  | .error _ =>
    if packet.length < 2 then .panic
    else
      let response := (Message.new (fromBeBytes (packet.take 2)))
        |>.setPacketType .Response
        |>.setResponseCode .FormatError
      .reply response.encode

/-- Per-packet handling of `UdpDnsServer::run`'s worker body: the receive
buffer is a fixed 512-byte array, of which `len` bytes were received; the
error branch indexes the buffer (always in bounds). -/
def handleUdpPacket (resolveFn : Message → Message)
    (buf : List Nat) (len : Nat) (udpMaxPayloadSize : Nat) : FrameResult :=
  match Message.decode ⟨buf.take len, 0⟩ with
  | .ok (message, _) =>
    .reply (((resolveFn message).truncateTo
      (min message.udpPayloadSize udpMaxPayloadSize)).encode)
  | .error _ =>
    if buf.length < 2 then .panic
    else
      let response := (Message.new (fromBeBytes (buf.take 2)))
        |>.setPacketType .Response
        |>.setResponseCode .FormatError
      .reply ((response.truncateTo (min 512 udpMaxPayloadSize)).encode)

/-! ## The zone-file reader (`src/zone.rs`)

The lexer is the maximal-munch tokenizer generated by `logos` from the
declared patterns; `;`-comments are skipped.  Spans are character offsets
(all relevant inputs are ASCII).  A Rust panic (`Option::unwrap` on
`None`) is modelled by the dedicated `ZErr.panic` alternative. -/

inductive ZoneToken where
  | ErrorTok (slice : List Char)
  | Whitespace
  | NewLine
  | OpenParen
  | CloseParen
  | TextTok (t : Text)
  | StringTok (s : List Char)
  deriving DecidableEq, Repr

inductive ZoneErrorKind where
  | LexerError (s : List Char)
  | UnknownEscape (s : List Char)
  | MissingOpeningParentheses
  | MissingClosingParentheses
  | IncompleteEntry
  | BadEntry
  | InvalidName
  | UnknownControl (s : List Char)
  deriving DecidableEq, Repr

inductive ZErr where
  | zoneError (kind : ZoneErrorKind) (span : Nat × Nat)
  | panic
  deriving DecidableEq, Repr

abbrev ZRes (α : Type) : Type := Except ZErr α

/-! ### `parse_text` (`src/text.rs`) -/

inductive TextParseResult where
  | FoundDelimiter (index : Nat) (bytes : List Nat)
  | FoundWhitespace (index : Nat) (bytes : List Nat)
  | EndOfString (index : Nat) (bytes : List Nat)
  | UnknownEscape (s : List Char)
  deriving DecidableEq, Repr

/-- UTF-8 bytes of a character (`char.to_string().as_bytes()`). -/
def utf8Bytes (c : Char) : List Nat :=
  let n := c.toNat
  if n < 0x80 then [n]
  else if n < 0x800 then
    [0xC0 ||| (n >>> 6), 0x80 ||| (n &&& 0x3F)]
  else if n < 0x10000 then
    [0xE0 ||| (n >>> 12), 0x80 ||| ((n >>> 6) &&& 0x3F), 0x80 ||| (n &&& 0x3F)]
  else
    [0xF0 ||| (n >>> 18), 0x80 ||| ((n >>> 12) &&& 0x3F),
     0x80 ||| ((n >>> 6) &&& 0x3F), 0x80 ||| (n &&& 0x3F)]

def digitVal (c : Char) : Nat := c.toNat - 48

/-- The body of `parse_text`; `pos` is the index of the next character,
the `index` variable of the source tracks the last character read. -/
def parseTextGo (delim : Char) (allowWs : Bool) :
    List Char → Nat → List Nat → TextParseResult
  | [], pos, bytes => .EndOfString (pos - 1 + 1) bytes
  | c :: rest, pos, bytes =>
    if c = delim then .FoundDelimiter pos bytes
    else if ¬ allowWs ∧ c.isWhitespace then .FoundWhitespace pos bytes
    else if c ≠ '\\' then
      parseTextGo delim allowWs rest (pos + 1) (bytes ++ utf8Bytes c)
    else
      match rest with
      | [] => .EndOfString (pos + 1) bytes
      | e :: rest2 =>
        if e = '\\' then parseTextGo delim allowWs rest2 (pos + 2) (bytes ++ [92])
        else if '0' ≤ e ∧ e ≤ '9' then
          match rest2 with
          | d2 :: d3 :: rest3 =>
            if ¬ (('0' ≤ d2 ∧ d2 ≤ '9') ∧ ('0' ≤ d3 ∧ d3 ≤ '9')) then
              .UnknownEscape [e, d2, d3]
            else
              let num := 100 * digitVal e + 10 * digitVal d2 + digitVal d3
              if num > 255 then .UnknownEscape [e, d2, d3]
              else parseTextGo delim allowWs rest3 (pos + 4) (bytes ++ [num])
          | [_] => .EndOfString (pos + 2 + 1) bytes
          | [] => .EndOfString (pos + 1 + 1) bytes
        else
          if e ≠ delim then .UnknownEscape [e]
          else parseTextGo delim allowWs rest2 (pos + 2) (bytes ++ utf8Bytes e)

/-- `parse_text(text, delimiter, allow_whitespace)`.  The `index` of an
`EndOfString` on empty input is `0 + 1` as in the source (the macro adds 1
to the last seen index, initialised to 0). -/
def parseText (text : List Char) (delim : Char) (allowWs : Bool) :
    TextParseResult :=
  match text with
  | [] => .EndOfString 1 []
  | _ => parseTextGo delim allowWs text 0 []

/-! ### The lexer -/

def isStringChar (c : Char) : Bool :=
  ¬ (c = ';' ∨ c = ' ' ∨ c = '\t' ∨ c = '\r' ∨ c = '\n' ∨ c = '"' ∨
     c = '(' ∨ c = ')')

/-- Longest run satisfying `p` starting at `pos`. -/
def runLength (src : List Char) (pos : Nat) (p : Char → Bool) : Nat :=
  ((src.drop pos).takeWhile p).length

/-- One lexer step: the token starting at `pos` (comments are skipped via
the fuel-bounded outer loop).  Returns `(token?, spanStart, spanEnd,
newPos)`; `none` is end of input. -/
def lexNext (src : List Char) : Nat → Nat →
    Option ZoneToken × Nat × Nat × Nat
  | 0, pos => (some (.ErrorTok []), pos, pos, pos)
  | fuel + 1, pos =>
    match (src.drop pos).head? with
    | none => (none, src.length, src.length, pos)
    | some c =>
      if c = ' ' ∨ c = '\t' then
        let n := runLength src pos (fun x => x = ' ' ∨ x = '\t')
        (some .Whitespace, pos, pos + n, pos + n)
      else if c = '\r' ∨ c = '\n' then
        let n := runLength src pos (fun x => x = '\r' ∨ x = '\n')
        (some .NewLine, pos, pos + n, pos + n)
      else if c = '(' then (some .OpenParen, pos, pos + 1, pos + 1)
      else if c = ')' then (some .CloseParen, pos, pos + 1, pos + 1)
      else if c = ';' then
        -- `#[regex(r";[^\r\n]*", logos::skip)]`: skip to end of line
        let n := runLength src pos (fun x => ¬ (x = '\r' ∨ x = '\n'))
        lexNext src fuel (pos + n)
      else if c = '"' then
        match parseText (src.drop (pos + 1)) '"' true with
        | .FoundDelimiter bytesRead label =>
          (some (.TextTok label), pos, pos + 1 + bytesRead + 1,
           pos + 1 + bytesRead + 1)
        | _ => (some (.ErrorTok [c]), pos, pos + 1, pos + 1)
      else
        let n := runLength src pos isStringChar
        (some (.StringTok ((src.drop pos).take n)), pos, pos + n, pos + n)

/-! ### The reader (`ZoneReader`) -/

structure ZoneReader where
  src : List Char
  pos : Nat
  lastSpan : Nat × Nat
  peeked : Option (Option ZoneToken)
  parentheses : Nat
  root : Node
  origin : List Label
  name : Option (List Label)
  ttl : Option Nat
  rclass : Option RecordClass

/-- Produce the next token (from the peek cache or the lexer), updating
the span exactly when the lexer runs. -/
def ZoneReader.nextToken (z : ZoneReader) : Option ZoneToken × ZoneReader :=
  match z.peeked with
  | some t => (t, { z with peeked := none })
  | none =>
    let r := lexNext z.src (z.src.length + 1) z.pos
    (r.1, { z with pos := r.2.2.2, lastSpan := (r.2.1, r.2.2.1) })

def ZoneReader.error (z : ZoneReader) (kind : ZoneErrorKind) : ZRes α :=
  .error (.zoneError kind z.lastSpan)

/-- `ZoneReader::read` (`&mut self`: the reader state survives an error,
which some callers go on using). -/
def ZoneReader.readR (z : ZoneReader) : ZRes ZoneToken × ZoneReader :=
  let r := z.nextToken
  let token := r.1
  let z := r.2
  match token with
  | some (.ErrorTok s) => (z.error (.LexerError s), z)
  | some .OpenParen =>
    let z := { z with parentheses := z.parentheses + 1 }
    (.ok .OpenParen, z)
  | some .CloseParen =>
    if z.parentheses = 0 then (z.error .MissingOpeningParentheses, z)
    else
      let z := { z with parentheses := z.parentheses - 1 }
      (.ok .CloseParen, z)
  | some .NewLine =>
    if z.parentheses = 0 then (z.error .IncompleteEntry, z)
    else (.ok .NewLine, z)
  | some t => (.ok t, z)
  | none =>
    if z.parentheses = 0 then (z.error .IncompleteEntry, z)
    else (z.error .MissingClosingParentheses, z)

def ZoneReader.read (z : ZoneReader) : ZRes (ZoneToken × ZoneReader) :=
  match z.readR with
  | (.ok t, z) => .ok (t, z)
  | (.error e, _) => .error e

/-- `ZoneReader::peek` (caches the token; a `NewLine` outside parentheses
reads as end-of-entry). -/
def ZoneReader.peek (z : ZoneReader) : Option ZoneToken × ZoneReader :=
  let cached := match z.peeked with
    | some t => (t, z)
    | none =>
      let r := lexNext z.src (z.src.length + 1) z.pos
      (r.1, { z with
        pos := r.2.2.2
        lastSpan := (r.2.1, r.2.2.1)
        peeked := some r.1 })
  match cached.1 with
  | some .NewLine =>
    if cached.2.parentheses = 0 then (none, cached.2)
    else (some .NewLine, cached.2)
  | t => (t, cached.2)

/-- `ZoneReader::read_string`. -/
def ZoneReader.readString (z : ZoneReader) : ZRes (List Char × ZoneReader) := do
  let (t, z) ← z.read
  match t with
  | .StringTok s => return (s, z)
  | _ => z.error .BadEntry

/-- `ZoneReader::read_whitespace`. -/
def ZoneReader.readWhitespace (z : ZoneReader) : ZRes ZoneReader := do
  let (t, z) ← z.read
  match t with
  | .Whitespace => return z
  | _ => z.error .BadEntry

/-- `ZoneReader::read_blank` (fuel-bounded loop over blank tokens). -/
def ZoneReader.readBlank (z : ZoneReader) : Nat → Nat →
    ZRes (Nat × ZoneReader)
  | 0, _ => .error .panic
  | fuel + 1, readCount =>
    let p := z.peek
    let isBlank := match p.1 with
      | some .Whitespace | some .NewLine | some .OpenParen
      | some .CloseParen => true
      | _ => false
    if isBlank then
      match p.2.read with
      | .error e => .error e
      | .ok (_, z') => z'.readBlank fuel (readCount + 1)
    else if readCount ≠ 0 then .ok (readCount, p.2)
    else
      match p.2.peek with
      | (some _, z') => z'.error .BadEntry
      | (none, z') => z'.error .IncompleteEntry

/-- `ZoneReader::read_text`. -/
def ZoneReader.readText (z : ZoneReader) : ZRes (Text × ZoneReader) := do
  let (t, z) ← z.read
  match t with
  | .TextTok text => return (text, z)
  | _ => z.error .BadEntry

/-! ### `FromStr` instances used by the reader -/

/-- `u32::from_str` (optional `+`, decimal digits, range check). -/
def parseU32 (s : List Char) : Option Nat :=
  let digits := match s with
    | '+' :: rest => rest
    | _ => s
  if digits.isEmpty ∨ ¬ digits.all (fun c => '0' ≤ c ∧ c ≤ '9') then none
  else
    let v := digits.foldl (fun acc c => acc * 10 + digitVal c) 0
    if v < 2 ^ 32 then some v else none

def parseU16 (s : List Char) : Option Nat :=
  let digits := match s with
    | '+' :: rest => rest
    | _ => s
  if digits.isEmpty ∨ ¬ digits.all (fun c => '0' ≤ c ∧ c ≤ '9') then none
  else
    let v := digits.foldl (fun acc c => acc * 10 + digitVal c) 0
    if v < 2 ^ 16 then some v else none

/-- `RecordClass::from_str`. -/
def RecordClass.fromStr (s : List Char) : Option RecordClass :=
  if s.take 5 = ['C', 'L', 'A', 'S', 'S'] then
    match parseU16 (s.drop 5) with
    | some v => some (RecordClass.ofU16 v)
    | none =>
      if s = ['I', 'N'] then some .In
      else if s = ['C', 'H'] then some .Ch
      else if s = ['N', 'O', 'N', 'E'] then some .NoneC
      else if s = ['A', 'N', 'Y'] then some .AnyC
      else none
  else
    if s = ['I', 'N'] then some .In
    else if s = ['C', 'H'] then some .Ch
    else if s = ['N', 'O', 'N', 'E'] then some .NoneC
    else if s = ['A', 'N', 'Y'] then some .AnyC
    else none

/-- `RecordType::from_str`. -/
def RecordType.fromStr (s : List Char) : Option RecordType :=
  let byName : Option RecordType :=
    if s = ['A'] then some .A
    else if s = ['N', 'S'] then some .Ns
    else if s = ['C', 'N', 'A', 'M', 'E'] then some .Cname
    else if s = ['S', 'O', 'A'] then some .Soa
    else if s = ['P', 'T', 'R'] then some .Ptr
    else if s = ['H', 'I', 'N', 'F', 'O'] then some .Hinfo
    else if s = ['M', 'X'] then some .Mx
    else if s = ['T', 'X', 'T'] then some .Txt
    else if s = ['R', 'P'] then some .Rp
    else if s = ['A', 'A', 'A', 'A'] then some .Aaaa
    else if s = ['L', 'O', 'C'] then some .Loc
    else if s = ['S', 'R', 'V'] then some .Srv
    else if s = ['O', 'P', 'T'] then some .OptT
    else none
  if s.take 4 = ['T', 'Y', 'P', 'E'] then
    match parseU16 (s.drop 4) with
    | some v => some (RecordType.ofU16 v)
    | none => byName
  else byName

/-- `DomainName::from_str` (the `name_impl!` macro): labels separated by
unescaped dots, requiring a trailing dot. -/
def domainNameFromStr (s : List Char) : Option (List Label) :=
  let rec go : List Char → List Label → Nat → Option (List Label)
    | _, _, 0 => none
    | cs, labels, fuel + 1 =>
      if cs.isEmpty then some labels
      else
        match parseText cs '.' false with
        | .FoundDelimiter index label =>
          if label.isEmpty then
            if labels.isEmpty then some labels else none
          else go (cs.drop (index + 1)) (labels ++ [label]) fuel
        | _ => none
  go s [] (s.length + 1)

/-- `ZoneReader::read_name`: `@` is the origin; a name with no trailing
dot is relative (origin appended). -/
def ZoneReader.readName (z : ZoneReader) : ZRes (List Label × ZoneReader) := do
  let (name, z) ← z.readString
  if name = ['@'] then return (z.origin, z)
  else
    let rec go (z : ZoneReader) : List Char → List Label → Nat →
        ZRes (List Label)
      | _, _, 0 => .error .panic
      | cs, labels, fuel + 1 =>
        if cs.isEmpty then .ok labels
        else
          match parseText cs '.' false with
          | .FoundDelimiter index label =>
            if label.isEmpty then
              if labels.isEmpty then .ok labels
              else z.error .InvalidName
            else go z (cs.drop (index + 1)) (labels ++ [label]) fuel
          | .EndOfString _ label =>
            .ok (labels ++ [label] ++ z.origin)
          | .UnknownEscape seq => z.error (.UnknownEscape seq)
          | _ => z.error .InvalidName
    let labels ← go z name [] (name.length + 1)
    return (labels, z)

/-! ### Building the zone tree (`Node::insert`, `Node::add_record`) -/

/-- `Node::add_record`: push onto the record set keyed by the record's own
`(class, type)`. -/
def Node.addRecord (n : Node) (rec : Record) : Node :=
  let key := (rec.rclass, rec.rtype)
  let rec go : List ((RecordClass × RecordType) × List Record) →
      List ((RecordClass × RecordType) × List Record)
    | [] => [(key, [rec])]
    | kv :: rest =>
      if kv.1 = key then (kv.1, kv.2 ++ [rec]) :: rest
      else kv :: go rest
  .mk n.children (go n.records)

/-- The insertion walk in `handle_resource`: `insert` each label of the
owner name in reverse, then `add_record` at the final node. -/
def Node.addRecordAt (n : Node) (path : List Label) (rec : Record) : Node :=
  match path with
  | [] => n.addRecord rec
  | l :: rest =>
    let rec go : List (Label × Node) → List (Label × Node)
      | [] => [(l, (Node.mk [] []).addRecordAt rest rec)]
      | kv :: tail =>
        if kv.1.labelEq l then (kv.1, kv.2.addRecordAt rest rec) :: tail
        else kv :: go tail
    .mk (go n.children) n.records

/-! ### `handle_resource` and `handle_control` -/

def hexVal (c : Char) : Option Nat :=
  if '0' ≤ c ∧ c ≤ '9' then some (c.toNat - 48)
  else if 'a' ≤ c ∧ c ≤ 'f' then some (c.toNat - 87)
  else if 'A' ≤ c ∧ c ≤ 'F' then some (c.toNat - 55)
  else none

/-- `hex::decode_to_slice(data, &mut buf)` where `buf` holds `size`
zero bytes: succeeds iff `data` is exactly `2 * size` hex digits. -/
def hexDecodeToSlice (data : List Char) (size : Nat) : Option (List Nat) :=
  let rec go : List Char → Option (List Nat)
    | [] => some []
    | [_] => none
    | hi :: lo :: rest =>
      match hexVal hi, hexVal lo, go rest with
      | some h, some l, some bs => some ((h * 16 + l) :: bs)
      | _, _, _ => none
  if data.length ≠ 2 * size then none
  else go data

/-- The TTL/class/type header loop at the top of `handle_resource`. -/
def handleResourceLoop (z : ZoneReader) :
    Nat → Bool → Bool → ZRes (RecordType × ZoneReader)
  | 0, _, _ => .error .panic
  | fuel + 1, definedTtl, definedRclass =>
    match z.readR with
    | (.ok (.StringTok string), z) =>
      -- assert the token is followed by whitespace (swallowed) or entry end
      let p := z.peek
      let afterWs : ZRes ZoneReader :=
        match p.1 with
        | some .Whitespace =>
          match p.2.readR with
          | (.ok _, z') => .ok z'
          | (.error _, z') => .ok z'
        | some _ => p.2.error .BadEntry
        | none => .ok p.2
      match afterWs with
      | .error e => .error e
      | .ok z =>
        if ¬ definedTtl ∧ (parseU32 string).isSome then
          let z := { z with ttl := parseU32 string }
          handleResourceLoop z fuel true definedRclass
        else if ¬ definedRclass ∧ (RecordClass.fromStr string).isSome then
          let z := { z with rclass := RecordClass.fromStr string }
          handleResourceLoop z fuel definedTtl true
        else
          match RecordType.fromStr string with
          | some rtype => .ok (rtype, z)
          | none => z.error .IncompleteEntry
    | (.ok _, z) => z.error .IncompleteEntry
    | (.error _, z) => z.error .IncompleteEntry

/-- The `while let Ok(token) = reader.read()` hex-collection loop of the
`\#` branch. -/
def hexCollectLoop (z : ZoneReader) :
    Nat → List Char → ZRes (List Char × ZoneReader) ⊕ (List Char × ZoneReader)
  | 0, _ => .inl (.error .panic)
  | fuel + 1, data =>
    match z.readR with
    | (.ok (.StringTok s), z) => hexCollectLoop z fuel (data ++ s)
    | (.ok .Whitespace, z) | (.ok .NewLine, z) | (.ok .OpenParen, z)
    | (.ok .CloseParen, z) => hexCollectLoop z fuel data
    | (.ok _, z) => .inl (z.error .BadEntry)
    | (.error _, z) => .inr (data, z)

/-- `usize::from_str` (decimal; the model bounds it by the 64-bit usize). -/
def parseUsize (s : List Char) : Option Nat :=
  let digits := match s with
    | '+' :: rest => rest
    | _ => s
  if digits.isEmpty ∨ ¬ digits.all (fun c => '0' ≤ c ∧ c ≤ '9') then none
  else
    let v := digits.foldl (fun acc c => acc * 10 + digitVal c) 0
    if v < 2 ^ 64 then some v else none

/-- The three inherited-state `unwrap`s of `handle_resource`, in argument
evaluation order (name, TTL, class); `None` is a panic. -/
def unwrapInherited (z : ZoneReader) :
    ZRes (List Label × Nat × RecordClass) :=
  match z.name with
  | none => .error .panic
  | some name =>
    match z.ttl with
    | none => .error .panic
    | some ttl =>
      match z.rclass with
      | none => .error .panic
      | some rclass => .ok (name, ttl, rclass)

/-- `handle_resource`.  The per-type `decode_zone` dispatch is supplied as
a parameter; every claim about this function is decided before or without
entering it. -/
def handleResource
    (decodeZone : List Label → Nat → RecordClass → RecordType → ZoneReader →
      ZRes (Record × ZoneReader))
    (z : ZoneReader) : ZRes ZoneReader := do
  let r ← handleResourceLoop z (z.src.length + 2) false false
  let rtype := r.1
  let z := r.2
  let p := z.peek
  let isUnknownSyntax : Bool := match p.1 with
    | some (.StringTok s) => s == ['\\', '#']
    | _ => false
  let recAndReader ←
    (if isUnknownSyntax then do
      let z := p.2
      let z ← (match z.readR with
        | (.ok _, z) => (.ok z : ZRes ZoneReader)
        | (.error e, _) => .error e)
      let rb ← z.readBlank (z.src.length + 2) 0
      let z := rb.2
      let (sizeStr, z) ← z.readString
      match parseUsize sizeStr with
      | none => z.error .BadEntry
      | some size =>
        match hexCollectLoop z (z.src.length + 2) [] with
        | .inl e => e >>= fun _ => z.error .BadEntry
        | .inr (data, z) =>
          match hexDecodeToSlice data size with
          | none => z.error .BadEntry
          | some buf => do
            let inh ← unwrapInherited z
            match Record.decodeData inh.1 inh.2.1 inh.2.2 rtype size
                ⟨buf, 0⟩ with
            | .ok (rec, _) => return (rec, z)
            | .error _ => z.error .BadEntry
    else do
      let z := p.2
      let inh ← unwrapInherited z
      decodeZone inh.1 inh.2.1 inh.2.2 rtype z)
  let rec' := recAndReader.1
  let z := recAndReader.2
  return { z with root := z.root.addRecordAt rec'.name.reverse rec' }

/-- `handle_control`. -/
def handleControl (z : ZoneReader) (control : List Char) :
    ZRes ZoneReader := do
  let z ← z.readWhitespace
  if control = ['$', 'O', 'R', 'I', 'G', 'I', 'N'] then do
    let (s, z) ← z.readString
    match domainNameFromStr s with
    | some origin => return { z with origin := origin }
    | none => z.error .BadEntry
  else if control = ['$', 'T', 'T', 'L'] then do
    let (s, z) ← z.readString
    match parseU32 s with
    | some ttl => return { z with ttl := some ttl }
    | none => z.error .BadEntry
  else z.error (.UnknownControl control)

/-- `next_entry`. -/
def nextEntry (z : ZoneReader) : Nat → Bool → ZRes ZoneReader
  | 0, _ => .error .panic
  | fuel + 1, ok =>
    if z.lastSpan.2 = z.src.length then .ok z
    else
      let p := z.peek
      match p.1 with
      | some .Whitespace =>
        if ok then .ok p.2
        else
          match p.2.readR with
          | (.ok _, z') => nextEntry z' fuel ok
          | (.error (.zoneError .IncompleteEntry _), z') =>
            nextEntry z' fuel true
          | (.error e, _) => .error e
      | none | some .NewLine | some .OpenParen | some .CloseParen =>
        match p.2.readR with
        | (.ok _, z') => nextEntry z' fuel ok
        | (.error (.zoneError .IncompleteEntry _), z') => nextEntry z' fuel true
        | (.error e, _) => .error e
      | some _ =>
        if ok then .ok p.2
        else p.2.error .BadEntry

/-- The entry loop of `read_zone`. -/
def readZoneLoop
    (decodeZone : List Label → Nat → RecordClass → RecordType → ZoneReader →
      ZRes (Record × ZoneReader)) :
    Nat → ZoneReader → ZRes Node
  | 0, _ => .error .panic
  | fuel + 1, z =>
    if z.lastSpan.2 = z.src.length then .ok z.root
    else do
      let p := z.peek
      let isNamedResource : Bool := match p.1 with
        | some (.StringTok s) => ¬ s.head? == some '$'
        | _ => false
      let z ← (if isNamedResource then do
          let (name, z) ← p.2.readName
          let z := { z with name := some name }
          let p2 := z.peek
          match p2.1 with
          | some .Whitespace => (.ok p2.2 : ZRes ZoneReader)
          | some _ => p2.2.error .BadEntry
          | none => p2.2.error .IncompleteEntry
        else .ok p.2)
      let z ← (match z.readR with
        | (.ok .Whitespace, z) => handleResource decodeZone z
        | (.ok (.StringTok control), z) => handleControl z control
        | (.ok _, z) => (z.error .BadEntry : ZRes ZoneReader)
        | (.error (.zoneError .IncompleteEntry _), z) => .ok z
        | (.error e, _) => .error e)
      let z ← nextEntry z (z.src.length + 2) true
      readZoneLoop decodeZone fuel z

/-- `read_zone(source, origin)`. -/
def readZone
    (decodeZone : List Label → Nat → RecordClass → RecordType → ZoneReader →
      ZRes (Record × ZoneReader))
    (source : List Char) (origin : List Label) : ZRes Node :=
  readZoneLoop decodeZone (source.length + 2)
    { src := source
      pos := 0
      lastSpan := (0, 0)
      peeked := none
      parentheses := 0
      root := .mk [] []
      origin := origin
      name := none
      ttl := none
      rclass := none }

/-! ### Encoded lengths equal reported sizes -/

theorem encU8_length (v : Nat) : (encU8 v).length = 1 := beBytes_length 1 v
theorem encU16_length (v : Nat) : (encU16 v).length = 2 := beBytes_length 2 v
theorem encU32_length (v : Nat) : (encU32 v).length = 4 := beBytes_length 4 v
theorem encU64_length (v : Nat) : (encU64 v).length = 8 := beBytes_length 8 v
theorem encU128_length (v : Nat) : (encU128 v).length = 16 :=
  beBytes_length 16 v

theorem text_encode_length (t : Text) : (Text.encode t).length = t.size := by
  simp [Text.encode, Text.size]

theorem flatMap_length_sum {α : Type _} (f : α → List Nat) (g : α → Nat)
    (h : ∀ a, (f a).length = g a) (l : List α) :
    (l.flatMap f).length = (l.map g).sum := by
  induction l with
  | nil => rfl
  | cons x xs ih => simp [List.flatMap_cons, ih, h x]

theorem sizeEncode_length (s : Nat × Nat) : (sizeEncode s).length = 1 := by
  simp [sizeEncode, encU8_length]

theorem opt_encodeData_length (o : Opt) : o.encodeData.length = o.dataSize := by
  cases o with
  | tcpKeepalive timeout =>
    cases timeout <;> simp [Opt.encodeData, Opt.dataSize, encU16_length]
  | _ => simp [Opt.encodeData, Opt.dataSize]

theorem opt_encode_length (o : Opt) : o.encode.length = o.size := by
  simp [Opt.encode, Opt.size, encU16_length, opt_encodeData_length]
  omega

theorem record_encodeData_length (rec : Record) :
    rec.encodeData.length = rec.dataSize := by
  cases rec with
  | txt name ttl rclass strings =>
    simp [Record.encodeData, Record.dataSize,
      flatMap_length_sum Text.encode Text.size text_encode_length]
  | opt name flags ups options =>
    simp [Record.encodeData, Record.dataSize,
      flatMap_length_sum Opt.encode Opt.size opt_encode_length]
  | _ =>
    simp [Record.encodeData, Record.dataSize, nameEncode_length, encU8_length,
      encU16_length, encU32_length, encU64_length, encU128_length,
      sizeEncode_length, text_encode_length, Text.size, Label.size] <;> omega

theorem record_encode_length (rec : Record) : rec.encode.length = rec.size := by
  simp [Record.encode, Record.size, nameEncode_length, encU16_length,
    encU32_length, record_encodeData_length]
  omega

theorem question_encode_length (q : Question) :
    q.encode.length = q.size := by
  simp [Question.encode, Question.size, nameEncode_length, encU16_length]

theorem message_encode_length (m : Message) : m.encode.length = m.size := by
  unfold Message.encode Message.size
  cases h : m.ednsVersion with
  | none =>
    simp [h, encU16_length,
      flatMap_length_sum Question.encode Question.size question_encode_length,
      flatMap_length_sum Record.encode Record.size record_encode_length]
    omega
  | some v =>
    simp [h, encU16_length,
      flatMap_length_sum Question.encode Question.size question_encode_length,
      flatMap_length_sum Record.encode Record.size record_encode_length,
      record_encode_length]
    have : (Record.opt [] (m.optFlagsWord v) m.udpPayloadSize
        m.options).size = 11 + (m.options.map Opt.size).sum := by
      simp [Record.size, Record.dataSize, Record.name, nameSize]
    omega

/-! ### Decoding an encoded option -/

/-- Constructor invariants plus machine-width bounds for an EDNS option:
`CookieOpt::new` asserts its lengths, `data_size` must fit the 16-bit
length field, and a fallback option's code is normalised (that's what the
decoder produces and what `OptCode::from(u16)` yields). -/
def Opt.WF : Opt → Prop
  | .nameServerIdentifier identity => identity.length < 2 ^ 16
  | .cookie client server =>
    client.length = 8 ∧
      (server = [] ∨ (8 ≤ server.length ∧ server.length ≤ 32))
  | .tcpKeepalive timeout => ∀ t, timeout = some t → t < 2 ^ 16
  | .padding bytes => bytes.length < 2 ^ 16
  | .other code data =>
    data.length < 2 ^ 16 ∧
      ∃ n, code = .Other n ∧ OptCode.ofU16 n = .Other n ∧ n < 2 ^ 16

theorem drop_step {buf A tail : List Nat} {pos : Nat}
    (hpos : pos ≤ buf.length) (h : buf.drop pos = A ++ tail) :
    buf.drop (pos + A.length) = tail ∧ pos + A.length ≤ buf.length := by
  obtain ⟨h1, h2⟩ := drop_prefix_facts hpos h
  exact ⟨h2, by omega⟩

theorem Opt.code_toU16_lt (o : Opt) (h : o.WF) : o.code.toU16 < 2 ^ 16 := by
  cases o with
  | other code data =>
    obtain ⟨-, n, rfl, -, hn⟩ := h
    simpa [Opt.code, OptCode.toU16] using hn
  | _ => simp [Opt.code, OptCode.toU16]

theorem Opt.dataSize_lt (o : Opt) (h : o.WF) : o.dataSize < 2 ^ 16 := by
  cases o with
  | nameServerIdentifier identity => simpa [Opt.dataSize] using h
  | cookie client server =>
    obtain ⟨h1, h2⟩ := h
    rcases h2 with h2 | h2
    · simp [Opt.dataSize, h1, h2]
    · simp only [Opt.dataSize]; omega
  | tcpKeepalive timeout => cases timeout <;> simp [Opt.dataSize]
  | padding bytes => simpa [Opt.dataSize] using h
  | other code data =>
    obtain ⟨h1, -⟩ := h
    simpa [Opt.dataSize] using h1

theorem Opt.ofU16_code (o : Opt) (h : o.WF) :
    OptCode.ofU16 o.code.toU16 = o.code := by
  cases o with
  | other code data =>
    obtain ⟨-, n, rfl, hn, -⟩ := h
    simpa [Opt.code, OptCode.toU16] using hn
  | _ => simp [Opt.code, OptCode.toU16, OptCode.ofU16]

theorem opt_decode_roundtrip (o : Opt) {buf rest : List Nat} {pos : Nat}
    (hWF : o.WF) (hpos : pos ≤ buf.length)
    (hdrop : buf.drop pos = o.encode ++ rest) :
    Opt.decode ⟨buf, pos⟩ = .ok (o, ⟨buf, pos + o.size⟩) := by
  unfold Opt.encode at hdrop
  rw [List.append_assoc, List.append_assoc] at hdrop
  have h1 := @uint_decode_roundtrip _ _ _ 2 _ (Opt.code_toU16_lt o hWF) hpos hdrop
  obtain ⟨hdrop2, hpos2⟩ := drop_step hpos hdrop
  rw [encU16_length] at hdrop2 hpos2
  have h2 := @uint_decode_roundtrip _ _ _ 2 _ (Opt.dataSize_lt o hWF) hpos2 hdrop2
  obtain ⟨hdrop3, hpos3⟩ := drop_step hpos2 hdrop2
  rw [encU16_length] at hdrop3 hpos3
  unfold Opt.decode
  rw [show decodeU16 = decodeUInt 2 from rfl]
  rw [h1, ok_bind]
  dsimp only
  rw [h2, ok_bind]
  dsimp only
  rw [Opt.ofU16_code o hWF]
  have hsize : pos + o.size = pos + 2 + 2 + o.dataSize := by
    unfold Opt.size; omega
  cases o with
  | nameServerIdentifier identity =>
    simp only [Opt.encodeData, Opt.dataSize] at hdrop3 ⊢
    have hr := wireRead_read_exact hpos3 hdrop3
    unfold Opt.decodeData
    simp only [Opt.code, hr, ok_bind]
    rw [hsize]
    rfl
  | cookie client server =>
    obtain ⟨hc, hs⟩ := hWF
    simp only [Opt.encodeData, Opt.dataSize] at hdrop3 hsize ⊢
    rw [List.append_assoc] at hdrop3
    have hr1 := wireRead_read_exact hpos3 hdrop3
    obtain ⟨hdrop4, hpos4⟩ := drop_step hpos3 hdrop3
    have hr2 := wireRead_read_exact hpos4 hdrop4
    rw [hc] at hr1 hr2 hpos4
    unfold Opt.decodeData
    dsimp only [Opt.code, Opt.dataSize]
    have hcond : client.length + server.length = 8 ∨
        (16 ≤ client.length + server.length ∧
         client.length + server.length ≤ 40) := by
      rcases hs with h | h
      · left; simp [hc, h]
      · right; omega
    rw [if_neg (not_not_intro hcond)]
    rw [show client.length + server.length - 8 = server.length by omega]
    rw [hr1, ok_bind]
    dsimp only
    rw [hr2, ok_bind]
    dsimp only
    rw [hsize,
      show pos + 2 + 2 + (client.length + server.length) =
        pos + 2 + 2 + 8 + server.length by omega]
    rfl
  | tcpKeepalive timeout =>
    cases timeout with
    | none =>
      simp only [Opt.encodeData, Opt.dataSize] at hdrop3 hsize ⊢
      unfold Opt.decodeData
      dsimp only [Opt.code, Opt.dataSize]
      rw [if_pos rfl, hsize]
    | some t =>
      have ht : t < 2 ^ 16 := hWF t rfl
      simp only [Opt.encodeData, Opt.dataSize] at hdrop3 hsize ⊢
      have hr := @uint_decode_roundtrip _ _ _ 2 _ ht hpos3 hdrop3
      unfold Opt.decodeData
      dsimp only [Opt.code, Opt.dataSize]
      rw [if_neg (by omega), if_neg (by omega)]
      rw [show decodeU16 = decodeUInt 2 from rfl, hr, ok_bind]
      dsimp only
      rw [hsize]
      rfl
  | padding bytes =>
    simp only [Opt.encodeData, Opt.dataSize] at hdrop3 ⊢
    have hr := wireRead_read_exact hpos3 hdrop3
    unfold Opt.decodeData
    simp only [Opt.code, hr, ok_bind]
    rw [hsize]
    rfl
  | other code data =>
    obtain ⟨-, n, hcode, -, -⟩ := hWF
    simp only [Opt.encodeData, Opt.dataSize] at hdrop3 ⊢
    have hr := wireRead_read_exact hpos3 hdrop3
    unfold Opt.decodeData
    subst hcode
    simp only [Opt.code, hr, ok_bind]
    rw [hsize]
    rfl

end Realm

namespace Realm

/-! ### Claim C7: RFC 1982 serial comparison -/

theorem serial_lt_of_small_add (a k : Nat) (ha : a < 2 ^ 32)
    (hk0 : 0 < k) (hk : k < 2 ^ 31) :
    Serial.partialCmp a (Serial.add a k) = some .lt := by
  unfold Serial.partialCmp Serial.add Serial.COMPARISON_THRESHOLD
  rcases Nat.lt_or_ge (a + k) (2 ^ 32) with h | h
  · rw [Nat.mod_eq_of_lt h]
    have hne : ¬ a = a + k := by omega
    rw [if_neg hne, if_pos (by omega)]
  · have hb : (a + k) % 2 ^ 32 = a + k - 2 ^ 32 := by
      have : a + k < 2 * 2 ^ 32 := by omega
      omega
    rw [hb]
    have hne : ¬ a = a + k - 2 ^ 32 := by omega
    rw [if_neg hne, if_pos (by omega)]

theorem serial_none_of_half_add (a : Nat) (ha : a < 2 ^ 32) :
    Serial.partialCmp a (Serial.add a (2 ^ 31)) = none := by
  unfold Serial.partialCmp Serial.add Serial.COMPARISON_THRESHOLD
  rcases Nat.lt_or_ge (a + 2 ^ 31) (2 ^ 32) with h | h
  · rw [Nat.mod_eq_of_lt h]
    have hne : ¬ a = a + 2 ^ 31 := by omega
    rw [if_neg hne, if_neg (by omega), if_neg (by omega)]
  · have hb : (a + 2 ^ 31) % 2 ^ 32 = a + 2 ^ 31 - 2 ^ 32 := by
      have : a + 2 ^ 31 < 2 * 2 ^ 32 := by omega
      omega
    rw [hb]
    have hne : ¬ a = a + 2 ^ 31 - 2 ^ 32 := by omega
    rw [if_neg hne, if_neg (by omega), if_neg (by omega)]

theorem serial_add_wraps (a k j : Nat) :
    Serial.add a (k + j * 2 ^ 32) = Serial.add a k := by
  unfold Serial.add
  omega

/-- C7: for all 32-bit serials `a` and all `k` with `0 < k < 2^31`,
comparing `a` with `a + k` (wrapping) yields `Less`; comparing `a` with
`a + 2^31` yields no ordering; and the wrapping addition — hence the
comparison of `a` with `a + k` — depends on `k` only modulo `2^32`. -/
theorem claim_C7_serial_arithmetic (a k j : Nat) (ha : a < 2 ^ 32)
    (hk0 : 0 < k) (hk : k < 2 ^ 31) :
    Serial.partialCmp a (Serial.add a k) = some .lt ∧
    Serial.partialCmp a (Serial.add a (2 ^ 31)) = none ∧
    Serial.partialCmp a (Serial.add a (k + j * 2 ^ 32)) =
      Serial.partialCmp a (Serial.add a k) := by
  refine ⟨serial_lt_of_small_add a k ha hk0 hk, serial_none_of_half_add a ha, ?_⟩
  rw [serial_add_wraps]

theorem claim_C7_witness :
    (3 : Nat) < 2 ^ 32 ∧ (0 : Nat) < 5 ∧ (5 : Nat) < 2 ^ 31 ∧
    (Serial.partialCmp 3 (Serial.add 3 5) = some .lt ∧
     Serial.partialCmp 3 (Serial.add 3 (2 ^ 31)) = none ∧
     Serial.partialCmp 3 (Serial.add 3 (5 + 2 * 2 ^ 32)) =
       Serial.partialCmp 3 (Serial.add 3 5)) :=
  ⟨by norm_num, by norm_num, by norm_num,
    claim_C7_serial_arithmetic 3 5 2 (by norm_num) (by norm_num) (by norm_num)⟩

/-! ### Claim C10: `read_zone` panics on missing inherited TTL or class

`handle_resource` calls `reader.ttl.unwrap()` and `reader.rclass.unwrap()`
(`src/zone.rs:459-475`).  A record line that never establishes a TTL (no
`$TTL`, no explicit TTL field) or a class reaches those `unwrap`s with
`None` and panics instead of producing a `ZoneError`.  Both inputs below
lex and parse up to that point; the panic is reached before the per-type
`decode_zone` dispatch is ever invoked, so the result holds for every
dispatch function. -/

theorem claim_C10_read_zone_panics
    (decodeZone : List Label → Nat → RecordClass → RecordType → ZoneReader →
      ZRes (Record × ZoneReader)) :
    readZone decodeZone "www A 0.0.0.0".toList [] = .error .panic ∧
    readZone decodeZone "$TTL 3600\nwww A 0.0.0.0".toList [] =
      .error .panic := by
  constructor <;> rfl

/-! ### Claim C5: frame handling panics on short TCP frames

The TCP error path builds `Message::new(u16::from_be_bytes([packet[0],
packet[1]]))` (`src/server.rs:152`); a frame whose length prefix is 0 or 1
delivers a packet shorter than two bytes, the wire decode fails, and the
indexing panics.  The UDP path reads into a fixed 512-byte buffer, so its
indexing never panics.  This contradicts the claim that handling never
panics (the spec's "the server never crashes on malformed client input" is
clearly the intent; the unchecked indexing is the slip). -/

theorem claim_C5_short_tcp_frame_panics (resolveFn : Message → Message) :
    handleTcpFrame resolveFn [] = .panic ∧
    handleTcpFrame resolveFn [0] = .panic ∧
    (∀ (buf : List Nat) (len maxPayload : Nat), buf.length = 512 →
      handleUdpPacket resolveFn buf len maxPayload ≠ .panic) := by
  refine ⟨rfl, rfl, ?_⟩
  intro buf len maxPayload hlen
  unfold handleUdpPacket
  cases hd : Message.decode ⟨buf.take len, 0⟩ with
  | ok v => simp
  | error e =>
    simp only []
    rw [if_neg (by omega)]
    simp

theorem claim_C5_witness :
    ([0, 1, 2] ++ List.replicate 509 0).length = 512 ∧
    (handleTcpFrame id [] = .panic ∧
     handleTcpFrame id [0] = .panic ∧
     handleUdpPacket id ([0, 1, 2] ++ List.replicate 509 0) 1 512 ≠
       .panic) := by
  have h := claim_C5_short_tcp_frame_panics id
  exact ⟨by decide, h.1, h.2.1,
    h.2.2 ([0, 1, 2] ++ List.replicate 509 0) 1 512 (by decide)⟩

/-! ### Claim C9: tcp-keepalive units and echo

The claim states a 2-octet value `t` denotes `t` half-seconds.  The code
(`TcpKeepaliveOpt::duration`, `src/opt/tcp_keepalive.rs:40-45`) interprets
`t` in units of 100 milliseconds — its own doc comment says "in units of
100 milliseconds" — so the claim's unit is wrong; everything else (update
on presence, unconditional echo of the connection's current keepalive)
holds. -/

def c9ctx : Ctx :=
  { config :=
      { udpMaxPayloadSize := 1232
        cookieEnabled := false
        cookieStrategy := .Off
        identityEnabled := false
        identityName := [] }
    root := .mk [] []
    ipOctets := [127, 0, 0, 1]
    keepalive := 300000
    now := 0
    mac := fun _ => 0 }

/-- C9 counterexample: a tcp-keepalive value of 10 sets the connection
keepalive to 1000 ms (10 tenths of a second), not the 5000 ms that "10
half-seconds" would demand. -/
theorem claim_C9_counterexample :
    ((Opt.tcpKeepalive (some 10)).handle (Message.new 0) c9ctx).2.1.keepalive
      = 1000 ∧
    ¬ ((Opt.tcpKeepalive (some 10)).handle (Message.new 0)
        c9ctx).2.1.keepalive = 10 * 500 := by
  constructor <;> decide

/-- C9 (amended): a present 2-octet value `t` denotes `t` units of 100
milliseconds (not half-seconds); the connection's keepalive is updated to
that duration exactly when a value is present; and the response always
gains a tcp-keepalive option echoing the connection's current keepalive
(`keepalive_millis / 100`, truncated to 16 bits), without short-circuiting
option handling. -/
theorem claim_C9_amended (timeout : Option Nat) (response : Message)
    (ctx : Ctx) :
    (∀ t, timeout = some t →
      ((Opt.tcpKeepalive timeout).handle response ctx).2.1.keepalive
        = t * 100) ∧
    (timeout = none →
      ((Opt.tcpKeepalive timeout).handle response ctx).2.1.keepalive
        = ctx.keepalive) ∧
    ((Opt.tcpKeepalive timeout).handle response ctx).1.options
      = response.options ++
        [.tcpKeepalive (some
          (((Opt.tcpKeepalive timeout).handle response ctx).2.1.keepalive
            / 100 % 2 ^ 16))] ∧
    ((Opt.tcpKeepalive timeout).handle response ctx).2.2 = .Nothing := by
  cases timeout with
  | none =>
    refine ⟨?_, ?_, ?_, ?_⟩
    · intro t ht; cases ht
    · intro _; rfl
    · simp [Opt.handle, tcpKeepaliveWithDuration, Message.addOption]
    · rfl
  | some t =>
    refine ⟨?_, ?_, ?_, ?_⟩
    · intro t' ht
      cases ht
      simp [Opt.handle, tcpKeepaliveDuration, Option.isSome]
    · intro h; cases h
    · simp [Opt.handle, tcpKeepaliveWithDuration, tcpKeepaliveDuration,
        Message.addOption, Option.isSome]
    · rfl

theorem claim_C9_witness :
    ((some 7 = some 7 →
      ((Opt.tcpKeepalive (some 7)).handle (Message.new 3) c9ctx).2.1.keepalive
        = 700)) ∧
    ((Opt.tcpKeepalive (some 7)).handle (Message.new 3) c9ctx).1.options
      = (Message.new 3).options ++
        [.tcpKeepalive (some
          (((Opt.tcpKeepalive (some 7)).handle (Message.new 3)
            c9ctx).2.1.keepalive / 100 % 2 ^ 16))] :=
  ⟨fun _ => (claim_C9_amended (some 7) (Message.new 3) c9ctx).1 7 rfl,
    (claim_C9_amended (some 7) (Message.new 3) c9ctx).2.2.1⟩

/-! ### Claim C8: padding options are stored but not echoed

The claim says the response carries the query's padding option back.
`PaddingOpt` stores its bytes opaquely and round-trips them through the
wire codec, but it does not override `OptData::handle`, so the trait
default (`src/opt.rs:101-103`) runs — and that default does nothing.  No
other code path adds a padding option either, so the resolver's response
never carries one. -/

def Opt.isPadding : Opt → Bool
  | .padding _ => true
  | _ => false

def c8ctx : Ctx :=
  { config :=
      { udpMaxPayloadSize := 1232
        cookieEnabled := false
        cookieStrategy := .Off
        identityEnabled := false
        identityName := [] }
    root := .mk [] []
    ipOctets := [127, 0, 0, 1]
    keepalive := 0
    now := 0
    mac := fun _ => 0 }

def c8query : Message :=
  ((Message.new 7).setEdnsVersion (some 0)).addOption (.padding [1, 2, 3])

/-- C8 counterexample: a query carrying a padding option (and EDNS, so the
option loop runs) yields a response whose option list is empty — the
padding option is not echoed. -/
theorem claim_C8_counterexample :
    c8query.options = [.padding [1, 2, 3]] ∧
    (resolveImpl 4 c8query c8ctx).1.options = [] :=
  ⟨rfl, rfl⟩

theorem authorityLoop_options (question : Question) (rt : ResolveType)
    (auths : List Record) (response : Message)
    (queue : List (Question × ResolveType)) :
    (authorityLoop question rt auths response queue).1.options
      = response.options := by
  induction auths generalizing response queue with
  | nil => rfl
  | cons a rest ih =>
    unfold authorityLoop
    dsimp only
    split
    · rfl
    · exact ih (response.addAuthority a) _

theorem answerLoop_options (question : Question) (rt : ResolveType)
    (answers : List Record) (response : Message)
    (queue : List (Question × ResolveType)) :
    (answerLoop question rt answers response queue).1.options
      = response.options := by
  induction answers generalizing response queue with
  | nil => rfl
  | cons a rest ih =>
    unfold answerLoop
    dsimp only
    split
    · exact ih (response.addAnswer a) _
    · exact ih (response.addAdditional a) _

theorem resolveStep_options (root : Node) (question : Question)
    (rt : ResolveType) (response : Message)
    (queue : List (Question × ResolveType)) :
    (resolveStep root question rt response queue).1.options
      = response.options := by
  unfold resolveStep
  dsimp only
  split
  · rfl
  · split
    · exact authorityLoop_options _ _ _ _ _
    · exact answerLoop_options _ _ _ _ _

theorem resolveQueryLoop_options (root : Node) (fuel : Nat)
    (response : Message) (resolved : List Question)
    (queue : List (Question × ResolveType)) :
    (resolveQueryLoop root fuel response resolved queue).options
      = response.options := by
  induction fuel generalizing response resolved queue with
  | zero => rfl
  | succ fuel ih =>
    unfold resolveQueryLoop
    dsimp only
    split
    · rfl
    · split
      · exact ih response resolved _
      · split
        · exact resolveStep_options _ _ _ _ _
        · rw [ih]
          exact resolveStep_options _ _ _ _ _

theorem resolveQuery_options (root : Node) (fuel : Nat)
    (query response : Message) :
    (resolveQuery root fuel query response).options = response.options :=
  resolveQueryLoop_options _ _ _ _ _

theorem Opt.handle_no_padding (o : Opt) (response : Message) (ctx : Ctx)
    (h : response.options.any Opt.isPadding = false) :
    ((o.handle response ctx).1.options.any Opt.isPadding) = false := by
  cases o with
  | nameServerIdentifier identity =>
    unfold Opt.handle
    dsimp only
    split
    · exact h
    · simp [Message.addOption, List.any_append, h, Opt.isPadding]
  | cookie client server =>
    unfold Opt.handle
    dsimp only
    split
    · exact h
    · split
      · simp [Message.addOption, Message.setResponseCode, cookieResponse,
          List.any_append, h, Opt.isPadding]
      · simp [Message.addOption, cookieResponse, List.any_append, h,
          Opt.isPadding]
  | tcpKeepalive timeout =>
    simp [Opt.handle, Message.addOption, List.any_append, h,
      tcpKeepaliveWithDuration, Opt.isPadding]
  | padding bytes => exact h
  | other code data => exact h

theorem optionsLoop_no_padding (opts : List Opt) (response : Message)
    (ctx : Ctx) (h : response.options.any Opt.isPadding = false) :
    (optionsLoop opts response ctx).1.options.any Opt.isPadding = false := by
  induction opts generalizing response ctx with
  | nil => exact h
  | cons o rest ih =>
    unfold optionsLoop
    dsimp only
    split
    · exact ih _ _ (Opt.handle_no_padding o response ctx h)
    · exact Opt.handle_no_padding o response ctx h

theorem foldl_addQuestion_options (qs : List Question) (m : Message) :
    (qs.foldl Message.addQuestion m).options = m.options := by
  induction qs generalizing m with
  | nil => rfl
  | cons q rest ih =>
    simp only [List.foldl_cons]
    exact ih (m.addQuestion q)

theorem resolveImpl_no_padding (fuel : Nat) (query : Message) (ctx : Ctx) :
    (resolveImpl fuel query ctx).1.options.any Opt.isPadding = false := by
  have hb : (query.questions.foldl Message.addQuestion
      (Message.new query.id
        |>.setPacketType .Response
        |>.setOpcode query.opcode
        |>.setAuthoritativeAnswer true
        |>.setRecursionDesired query.recursionDesired
        |>.setRecursionAvailable false
        |>.setResponseCode .NoError)).options.any Opt.isPadding
      = false := by
    rw [foldl_addQuestion_options]
    rfl
  unfold resolveImpl
  dsimp only
  generalize hB : List.foldl Message.addQuestion
      (Message.new query.id
        |>.setPacketType .Response
        |>.setOpcode query.opcode
        |>.setAuthoritativeAnswer true
        |>.setRecursionDesired query.recursionDesired
        |>.setRecursionAvailable false
        |>.setResponseCode .NoError) query.questions = base at hb ⊢
  cases query.ednsVersion with
  | none =>
    dsimp only
    rw [if_neg Bool.false_ne_true]
    split
    · exact optionsLoop_no_padding _ _ _ hb
    · split
      · rw [resolveQuery_options]
        exact optionsLoop_no_padding _ _ _ hb
      · exact optionsLoop_no_padding _ _ _ hb
  | some version =>
    by_cases hgt : version > 0
    · simp only [if_pos hgt, if_true]
      exact hb
    · simp only [if_neg hgt]
      rw [if_neg Bool.false_ne_true]
      split
      · exact optionsLoop_no_padding _ _ _ hb
      · split
        · rw [resolveQuery_options]
          exact optionsLoop_no_padding _ _ _ hb
        · exact optionsLoop_no_padding _ _ _ hb

/-- C8 (amended): a padding option's bytes are stored opaquely and
round-trip through the wire codec unchanged; its `handle` is the trait
default, which leaves response and context untouched; and the resolver's
response never carries a padding option — the query's padding is *not*
echoed. -/
theorem claim_C8_amended (bytes : List Nat) (response : Message) (ctx : Ctx)
    (fuel : Nat) (query : Message) (hlen : bytes.length < 2 ^ 16) :
    Opt.decode ⟨(Opt.padding bytes).encode, 0⟩
      = .ok (Opt.padding bytes,
          ⟨(Opt.padding bytes).encode, (Opt.padding bytes).size⟩) ∧
    (Opt.padding bytes).handle response ctx
      = (response, ctx, .Nothing) ∧
    (resolveImpl fuel query ctx).1.options.any Opt.isPadding = false := by
  refine ⟨?_, rfl, resolveImpl_no_padding fuel query ctx⟩
  have h := @opt_decode_roundtrip (Opt.padding bytes)
    ((Opt.padding bytes).encode) [] 0
    (show Opt.WF (Opt.padding bytes) from hlen)
    (Nat.zero_le _)
    (by simp)
  simpa using h

theorem claim_C8_witness :
    ([1, 2, 3] : List Nat).length < 2 ^ 16 ∧
    (Opt.decode ⟨(Opt.padding [1, 2, 3]).encode, 0⟩
      = .ok (Opt.padding [1, 2, 3],
          ⟨(Opt.padding [1, 2, 3]).encode, (Opt.padding [1, 2, 3]).size⟩) ∧
     (Opt.padding [1, 2, 3]).handle (Message.new 0) c8ctx
       = (Message.new 0, c8ctx, .Nothing) ∧
     (resolveImpl 1 (Message.new 0) c8ctx).1.options.any Opt.isPadding
       = false) :=
  ⟨by decide,
    claim_C8_amended [1, 2, 3] (Message.new 0) c8ctx 1 (Message.new 0)
      (by decide)⟩

/-! ### Claim C4: the cookie staleness window

`CookieOpt::validate` rejects on
`now - 3600 >= timestamp && timestamp >= now + 300` — a *conjunction* of
the two window-edge comparisons (`src/opt/cookie.rs:115-119`).  The spec's
window test would reject whenever the timestamp lies *outside*
`[now - 3600, now + 300]`, i.e. on the disjunction of the edge violations.
Under RFC 1982 serial comparison the conjunction is almost never
satisfiable, so a cookie that is arbitrarily stale passes the timestamp
check and, carrying a valid MAC, is accepted. -/

def c4client : List Nat := [1, 2, 3, 4, 5, 6, 7, 8]

def c4cfg : ServerCfg :=
  { udpMaxPayloadSize := 1232
    cookieEnabled := true
    cookieStrategy := .Enforce
    identityEnabled := false
    identityName := [] }

/-- The server at the time it minted the cookie (`now = 2800`). -/
def c4prodCtx (mac : List Nat → Nat) : Ctx :=
  { config := c4cfg
    root := .mk [] []
    ipOctets := [192, 0, 2, 1]
    keepalive := 0
    now := 2800
    mac := mac }

/-- The same server (same secret, same peer IP) 7200 seconds later —
far beyond the 3600-second backward window. -/
def c4validateCtx (mac : List Nat → Nat) : Ctx :=
  { config := c4cfg
    root := .mk [] []
    ipOctets := [192, 0, 2, 1]
    keepalive := 0
    now := 10000
    mac := mac }

/-- The 16-byte server cookie `CookieOpt::response` minted at `now = 2800`. -/
def c4server (mac : List Nat → Nat) : List Nat :=
  match cookieResponse c4client (c4prodCtx mac) with
  | .cookie _ server => server
  | _ => []

/-- The byte stream both cookie sides feed the keyed SipHash-2-4. -/
def c4stream : List Nat :=
  c4client ++ [1, 0, 0, 0] ++ neBytesU32 2800 ++ [192, 0, 2, 1]

/-- C4: `validate` accepts a stale cookie.  The cookie's timestamp (2800)
is serially *less than* `now - 3600 = 6400`, i.e. strictly outside the
claimed acceptance window, yet `validate` returns `true` for any MAC
function (in particular the real keyed SipHash-2-4): the code's staleness
test is a conjunction of the two window edges instead of a disjunction,
so it rejects almost nothing. -/
theorem claim_C4_stale_cookie_accepted (mac : List Nat → Nat)
    (hmac : ∀ s, mac s < 2 ^ 64) :
    Serial.partialCmp (fromBeBytes (((c4server mac).drop 4).take 4))
        (((c4validateCtx mac).now + 2 ^ 32 - 3600) % 2 ^ 32) = some .lt ∧
    cookieValidate c4client (c4server mac) (c4validateCtx mac) = true := by
  have hserver : c4server mac
      = 1 :: 0 :: 0 :: 0 :: 0 :: 0 :: 10 :: 240 :: encU64 (mac c4stream) := by
    rw [show c4server mac
        = [1, 0, 0, 0] ++ encU32 2800 ++ encU64 (mac c4stream) from rfl,
      show encU32 2800 = [0, 0, 10, 240] from rfl]
    rfl
  have h4 : ((c4server mac).drop 4).take 4 = [0, 0, 10, 240] := by
    rw [hserver]
    rfl
  have h13 : ((c4server mac).drop 1).take 3 = [0, 0, 0] := by
    rw [hserver]
    rfl
  have h8 : ((c4server mac).drop 8).take 8 = encU64 (mac c4stream) := by
    rw [hserver,
      show ((1 :: 0 :: 0 :: 0 :: 0 :: 0 :: 10 :: 240
        :: encU64 (mac c4stream) : List Nat).drop 8)
        = encU64 (mac c4stream) from rfl]
    exact List.take_of_length_le (le_of_eq (encU64_length (mac c4stream)))
  constructor
  · rw [h4, show (c4validateCtx mac).now = 10000 from rfl]
    decide
  · have hE : fromBeBytes (((c4server mac).drop 8).take 8) = mac c4stream := by
      rw [h8]
      exact fromBeBytes_beBytes 8 _
        (lt_of_lt_of_eq (hmac c4stream) (by norm_num))
    unfold cookieValidate
    dsimp only
    rw [hE, h4, h13]
    rw [show fromBeBytes ([0, 0, 10, 240] : List Nat) = 2800 from rfl]
    rw [show neBytesU32 2800 = [240, 10, 0, 0] from rfl]
    rw [show (c4validateCtx mac).ipOctets = [192, 0, 2, 1] from rfl]
    rw [show (c4validateCtx mac).mac = mac from rfl]
    rw [show (c4client ++ [1] ++ [0, 0, 0] ++ [240, 10, 0, 0]
        ++ [192, 0, 2, 1] : List Nat) = c4stream by decide]
    have hstrat : (c4validateCtx mac).config.cookieStrategy
        = CookieStrategy.Enforce := rfl
    have hempty : (c4server mac).isEmpty = false := by
      rw [hserver]
      rfl
    have hlen : (c4server mac).length = 16 := by
      rw [hserver]
      simp [encU64_length]
    have hhead : (c4server mac).headD 0 = 1 := by
      rw [hserver]
      rfl
    have hnow : (c4validateCtx mac).now = 10000 := rfl
    rw [hstrat, hempty, hlen, hhead, hnow]
    rw [if_neg (by decide), if_neg (by decide), if_neg (by decide),
      if_neg (by decide), if_neg (by decide)]
    exact beq_self_eq_true _

theorem claim_C4_witness :
    (0 : Nat) < 2 ^ 64 ∧
    (Serial.partialCmp
        (fromBeBytes (((c4server (fun _ => 0)).drop 4).take 4))
        (((c4validateCtx (fun _ => 0)).now + 2 ^ 32 - 3600) % 2 ^ 32)
       = some .lt ∧
     cookieValidate c4client (c4server (fun _ => 0))
        (c4validateCtx (fun _ => 0)) = true) :=
  ⟨by decide,
    claim_C4_stale_cookie_accepted (fun _ => 0)
      (fun _ => pow_pos (by decide) 64)⟩

/-! ### Claim C1: the resolver's authority handling

The claim says all authority records are copied before the SOA check.
The loop in `resolve_query` (`src/resolver.rs:77-85`) checks for an SOA
*inside* the copy loop and returns immediately after copying it, so with
an authority set `[soa1, soa2]` only `soa1` reaches the response.  The
Refused case and the no-SOA case behave as claimed. -/

def c1soa1 : Record :=
  .soa [[110, 115]] 3600 .In [[110, 115]] [[97]] 1 7200 3600 86400 300

def c1soa2 : Record :=
  .soa [[110, 115]] 3600 .In [[110, 115]] [[97]] 2 7200 3600 86400 300

def c1root : Node := .mk [] [((.In, .Soa), [c1soa1, c1soa2])]

def c1question : Question := ⟨[[119, 119, 119]], .In, .A⟩

def c1query : Message := (Message.new 9).addQuestion c1question

/-- C1 counterexample: the enclosing authority set holds two SOA records,
but the response's authority section receives only the first one — the
loop returns upon copying the first SOA instead of copying all
authorities first. -/
theorem claim_C1_counterexample :
    (findNode c1question.name c1question.qclass c1root).2
      = [c1soa1, c1soa2] ∧
    (resolveQuery c1root 4 c1query (Message.new 9)).authorities
      = [c1soa1] ∧
    (resolveQuery c1root 4 c1query (Message.new 9)).responseCode
      = .NonExistentDomain :=
  ⟨rfl, rfl, rfl⟩

theorem authorityLoop_no_soa (q : Question) (auths : List Record)
    (response : Message) (queue : List (Question × ResolveType))
    (h : ∀ a ∈ auths, a.rtype ≠ RecordType.Soa) :
    authorityLoop q .Question auths response queue
      = (auths.foldl Message.addAuthority response,
         queue ++ auths.flatMap (fun a => a.additionals q), false) := by
  induction auths generalizing response queue with
  | nil => simp [authorityLoop]
  | cons a rest ih =>
    unfold authorityLoop
    dsimp only
    rw [if_neg (by rintro ⟨-, hs⟩; exact h a (by simp) hs)]
    rw [ih (response.addAuthority a) (queue ++ a.additionals q)
      (fun x hx => h x (by simp [hx]))]
    simp [List.append_assoc]

theorem authorityLoop_first_soa (q : Question) (pre : List Record)
    (soa : Record) (rest : List Record) (response : Message)
    (queue : List (Question × ResolveType))
    (hpre : ∀ a ∈ pre, a.rtype ≠ RecordType.Soa)
    (hsoa : soa.rtype = RecordType.Soa) :
    authorityLoop q .Question (pre ++ soa :: rest) response queue
      = (((pre.foldl Message.addAuthority response).addAuthority
            soa).setResponseCode .NonExistentDomain,
         (queue ++ pre.flatMap (fun a => a.additionals q))
           ++ soa.additionals q, true) := by
  induction pre generalizing response queue with
  | nil =>
    rw [List.nil_append]
    unfold authorityLoop
    dsimp only
    rw [if_pos ⟨rfl, hsoa⟩]
    simp
  | cons a pre ih =>
    rw [List.cons_append]
    unfold authorityLoop
    dsimp only
    rw [if_neg (by rintro ⟨-, hs⟩; exact hpre a (by simp) hs)]
    rw [ih (response.addAuthority a) (queue ++ a.additionals q)
      (fun x hx => hpre x (by simp [hx]))]
    simp [List.append_assoc]

/-- C1 (amended): processing a worklist item of kind `Question`: (a) with
no enclosing authority the response code becomes Refused and resolution
returns; (b) with no matching node, authorities are copied *one at a
time, stopping at the first SOA*: the records before the first SOA and
the SOA itself reach the authority section (with their additionals
enqueued), the response code becomes NXDomain and resolution returns —
authorities after the first SOA are *not* copied; (c) with no matching
node and no SOA among the authorities, every authority is copied and
resolution continues. -/
theorem claim_C1_amended (root : Node) (q : Question) (response : Message)
    (queue : List (Question × ResolveType)) :
    ((findNode q.name q.qclass root).2 = [] →
      resolveStep root q .Question response queue
        = (response.setResponseCode .QueryRefused, queue, true)) ∧
    ((findNode q.name q.qclass root).1 = none →
      ∀ pre soa rest, (findNode q.name q.qclass root).2 = pre ++ soa :: rest →
        (∀ a ∈ pre, a.rtype ≠ RecordType.Soa) → soa.rtype = RecordType.Soa →
        resolveStep root q .Question response queue
          = (((pre.foldl Message.addAuthority response).addAuthority
                soa).setResponseCode .NonExistentDomain,
             (queue ++ pre.flatMap (fun a => a.additionals q))
               ++ soa.additionals q, true)) ∧
    ((findNode q.name q.qclass root).1 = none →
      (findNode q.name q.qclass root).2 ≠ [] →
      (∀ a ∈ (findNode q.name q.qclass root).2, a.rtype ≠ RecordType.Soa) →
      resolveStep root q .Question response queue
        = ((findNode q.name q.qclass root).2.foldl Message.addAuthority
             response,
           queue ++ (findNode q.name q.qclass root).2.flatMap
             (fun a => a.additionals q), false)) := by
  refine ⟨?_, ?_, ?_⟩
  · intro h
    unfold resolveStep
    dsimp only
    rw [h]
    rw [if_pos ⟨rfl, rfl⟩]
  · intro hnode pre soa rest hauth hpre hsoa
    unfold resolveStep
    dsimp only
    rw [hauth, hnode]
    rw [if_neg (by rintro ⟨he, -⟩; simp at he)]
    dsimp only
    rw [authorityLoop_first_soa q pre soa rest response queue hpre hsoa]
  · intro hnode hne hno
    unfold resolveStep
    dsimp only
    rw [hnode]
    rw [if_neg (by rintro ⟨he, -⟩; exact hne (by simpa using he))]
    dsimp only
    rw [authorityLoop_no_soa q _ response queue hno]

theorem claim_C1_witness :
    (findNode c1question.name c1question.qclass c1root).1 = none ∧
    (findNode c1question.name c1question.qclass c1root).2
      = [] ++ c1soa1 :: [c1soa2] ∧
    c1soa1.rtype = RecordType.Soa ∧
    resolveStep c1root c1question .Question (Message.new 9) []
      = (((([] : List Record).foldl Message.addAuthority
            (Message.new 9)).addAuthority c1soa1).setResponseCode
          .NonExistentDomain,
        (([] : List (Question × ResolveType))
          ++ ([] : List Record).flatMap (fun a => a.additionals c1question))
          ++ c1soa1.additionals c1question, true) :=
  ⟨rfl, rfl, rfl,
    (claim_C1_amended c1root c1question (Message.new 9) []).2.1 rfl
      [] c1soa1 [c1soa2] rfl (by simp) rfl⟩

/-! ### Claim C2: truncation

Two corrections.  `truncate_to` can never shrink the 12-byte header, so
for `N < 12` the encoded size exceeds `N`; and the TC flag is *set*, never
cleared, by `truncate_to` — a message whose TC flag was already set keeps
it even when nothing is dropped.  With `12 ≤ N` and a clear incoming TC
flag the claim holds: the result encodes to at most `N` bytes and TC is
set exactly when content was dropped (equivalently, when truncation
changed the message). -/

def c2question : Question := ⟨[[113]], .In, .A⟩

def c2msg : Message := (Message.new 5).addQuestion c2question

def c2pre : Message := { Message.new 3 with truncated := true }

/-- C2 counterexample: a 0-byte budget still yields a 12-byte encoding,
and a message entering `truncate_to` with TC already set keeps TC even
though nothing is dropped (the result equals the input). -/
theorem claim_C2_counterexample :
    ((Message.new 0).truncateTo 0).encode.length = 12 ∧
    ¬ ((Message.new 0).truncateTo 0).encode.length ≤ 0 ∧
    (c2pre.truncateTo 100).truncated = true ∧
    c2pre.truncateTo 100 = c2pre :=
  ⟨rfl, by decide, rfl, rfl⟩

/-- Header-plus-EDNS size, the part of `Message::size` independent of the
four truncatable sections. -/
def Message.baseSize (m : Message) : Nat :=
  match m.ednsVersion with
  | some _ => 23 + (m.options.map Opt.size).sum
  | none => 12

theorem Message.size_eq (m : Message) :
    m.size = m.baseSize
      + (m.questions.map Question.size).sum
      + (m.answers.map Record.size).sum
      + (m.authorities.map Record.size).sum
      + (m.additionals.map Record.size).sum := rfl

theorem truncGo_inl {α : Type _} (f : α → Nat) (l : List α) (s s' : Int)
    (hs : 0 ≤ s) (h : truncGo f l s = .inl s') :
    s' = s - ((l.map f).sum : Nat) ∧ 0 ≤ s' := by
  induction l generalizing s with
  | nil =>
    simp only [truncGo, Sum.inl.injEq] at h
    subst h
    simpa using hs
  | cons x rest ih =>
    unfold truncGo at h
    dsimp only at h
    split at h
    · exact absurd h (by simp)
    · next hneg =>
      split at h
      · next s2 heq =>
        cases h
        obtain ⟨h1, h2⟩ := ih (s - (f x : Int)) (by omega) heq
        refine ⟨?_, h2⟩
        rw [h1]
        push_cast [List.map_cons, List.sum_cons]
        ring
      · exact absurd h (by simp)

theorem truncGo_inr {α : Type _} (f : α → Nat) (l : List α) (s : Int)
    (kept : List α) (hs : 0 ≤ s) (h : truncGo f l s = .inr kept) :
    ((kept.map f).sum : Int) ≤ s ∧ kept.length < l.length := by
  induction l generalizing s kept with
  | nil => simp [truncGo] at h
  | cons x rest ih =>
    unfold truncGo at h
    dsimp only at h
    split at h
    · next hneg =>
      cases h
      exact ⟨by simpa using hs, by simp⟩
    · next hneg =>
      split at h
      · exact absurd h (by simp)
      · next kept2 heq =>
        cases h
        obtain ⟨h1, h2⟩ := ih (s - (f x : Int)) kept2 (by omega) heq
        refine ⟨?_, by simpa using h2⟩
        push_cast [List.map_cons, List.sum_cons]
        push_cast at h1
        omega

theorem truncChain_eq_or (m : Message) (s : Int) :
    truncChain m s = m ∨ (truncChain m s).truncated = true := by
  unfold truncChain
  split
  · right
    rfl
  · split
    · right
      rfl
    · split
      · right
        rfl
      · split
        · right
          rfl
        · left
          rfl

theorem truncChain_size (m : Message) (s : Int) (hs : 0 ≤ s) :
    ((truncChain m s).size : Int) ≤ (m.baseSize : Int) + s := by
  unfold truncChain
  split
  · next kept h1 =>
    obtain ⟨hk, -⟩ := truncGo_inr _ _ _ _ hs h1
    rw [Message.size_eq]
    dsimp only [Message.baseSize]
    simp only [List.map_nil, List.sum_nil, Nat.add_zero]
    push_cast at hk ⊢
    omega
  · next s1 h1 =>
    obtain ⟨he1, hp1⟩ := truncGo_inl _ _ _ _ hs h1
    split
    · next kept h2 =>
      obtain ⟨hk, -⟩ := truncGo_inr _ _ _ _ hp1 h2
      rw [Message.size_eq]
      dsimp only [Message.baseSize]
      simp only [List.map_nil, List.sum_nil, Nat.add_zero]
      push_cast at he1 hk ⊢
      omega
    · next s2 h2 =>
      obtain ⟨he2, hp2⟩ := truncGo_inl _ _ _ _ hp1 h2
      split
      · next kept h3 =>
        obtain ⟨hk, -⟩ := truncGo_inr _ _ _ _ hp2 h3
        rw [Message.size_eq]
        dsimp only [Message.baseSize]
        simp only [List.map_nil, List.sum_nil, Nat.add_zero]
        push_cast at he1 he2 hk ⊢
        omega
      · next s3 h3 =>
        obtain ⟨he3, hp3⟩ := truncGo_inl _ _ _ _ hp2 h3
        split
        · next kept h4 =>
          obtain ⟨hk, -⟩ := truncGo_inr _ _ _ _ hp3 h4
          rw [Message.size_eq]
          dsimp only [Message.baseSize]
          push_cast at he1 he2 he3 hk ⊢
          omega
        · next s4 h4 =>
          obtain ⟨he4, hp4⟩ := truncGo_inl _ _ _ _ hp3 h4
          rw [Message.size_eq]
          push_cast at he1 he2 he3 he4 ⊢
          omega

/-- C2 (amended): for budgets that can hold the fixed 12-byte header and a
message whose TC flag is clear, `truncate_to` yields a message that
encodes to at most `N` bytes, and its TC flag is set exactly when
truncation dropped content (i.e. changed the message). -/
theorem claim_C2_amended (m : Message) (N : Nat) (h12 : 12 ≤ N)
    (htc : m.truncated = false) :
    (m.truncateTo N).encode.length ≤ N ∧
    ((m.truncateTo N).truncated = true ↔ m.truncateTo N ≠ m) := by
  unfold Message.truncateTo
  dsimp only
  cases hv : m.ednsVersion with
  | none =>
    dsimp only
    constructor
    · rw [message_encode_length]
      have hb := truncChain_size m ((N : Int) - 12) (by omega)
      have hbase : m.baseSize = 12 := by
        unfold Message.baseSize
        rw [hv]
      rw [hbase] at hb
      omega
    · rcases truncChain_eq_or m ((N : Int) - 12) with heq | hflag
      · rw [heq]
        simp [htc]
      · have hne : truncChain m ((N : Int) - 12) ≠ m := by
          intro hc
          rw [hc, htc] at hflag
          exact Bool.noConfusion hflag
        simp [hflag, hne]
  | some v =>
    dsimp only
    by_cases hfit :
        (N : Int) - 12 - (11 + ((m.options.map Opt.size).sum : Int)) < 0
    · rw [if_pos hfit]
      dsimp only
      constructor
      · rw [message_encode_length]
        have hb := truncChain_size
          { m with ednsVersion := none, truncated := true }
          ((N : Int) - 12) (by omega)
        have hbase :
            ({ m with ednsVersion := none, truncated := true } :
              Message).baseSize = 12 := rfl
        rw [hbase] at hb
        omega
      · have hflag : (truncChain
            { m with ednsVersion := none, truncated := true }
            ((N : Int) - 12)).truncated = true := by
          rcases truncChain_eq_or
              { m with ednsVersion := none, truncated := true }
              ((N : Int) - 12) with heq | hflag
          · rw [heq]
          · exact hflag
        have hne : truncChain
            { m with ednsVersion := none, truncated := true }
            ((N : Int) - 12) ≠ m := by
          intro hc
          rw [hc, htc] at hflag
          exact Bool.noConfusion hflag
        exact ⟨fun _ => hne, fun _ => hflag⟩
    · rw [if_neg hfit]
      dsimp only
      constructor
      · rw [message_encode_length]
        have hb := truncChain_size m
          ((N : Int) - 12 - (11 + ((m.options.map Opt.size).sum : Int)))
          (by omega)
        have hbase : m.baseSize = 23 + (m.options.map Opt.size).sum := by
          unfold Message.baseSize
          rw [hv]
        rw [hbase] at hb
        omega
      · rcases truncChain_eq_or m
            ((N : Int) - 12 - (11 + ((m.options.map Opt.size).sum : Int)))
          with heq | hflag
        · rw [heq]
          simp [htc]
        · have hne : truncChain m
              ((N : Int) - 12 - (11 + ((m.options.map Opt.size).sum : Int)))
              ≠ m := by
            intro hc
            rw [hc, htc] at hflag
            exact Bool.noConfusion hflag
          exact ⟨fun _ => hne, fun _ => hflag⟩

theorem claim_C2_witness :
    12 ≤ 12 ∧ c2msg.truncated = false ∧
    ((c2msg.truncateTo 12).encode.length ≤ 12 ∧
     ((c2msg.truncateTo 12).truncated = true ↔ c2msg.truncateTo 12 ≠ c2msg)) :=
  ⟨le_refl 12, rfl, claim_C2_amended c2msg 12 (le_refl 12) rfl⟩

/-! ### Claim C3: record codec round-trips

Infrastructure: well-formedness of a record (the invariants Rust's
constructors and machine widths guarantee), the `(class, type)` dispatch
table of `dns_record_impl!`, and prefix-decode lemmas for each rdata
shape. -/

/-- A class is normalised when it is what the decoder's `From<u16>` would
produce for its own code (named variants for recognised codes). -/
def RecordClass.normalized (c : RecordClass) : Prop :=
  RecordClass.ofU16 c.toU16 = c ∧ c.toU16 < 2 ^ 16

def RecordType.normalized (t : RecordType) : Prop :=
  RecordType.ofU16 t.toU16 = t ∧ t.toU16 < 2 ^ 16

instance (c : RecordClass) : Decidable c.normalized := by
  unfold RecordClass.normalized
  infer_instance

instance (t : RecordType) : Decidable t.normalized := by
  unfold RecordType.normalized
  infer_instance

/-- The `(class, type)` pairs `dns_record_impl!` dispatches to a concrete
record type (everything else decodes as `OtherRecord`). -/
def dispatches (rclass : RecordClass) (rtype : RecordType) : Bool :=
  match rclass, rtype with
  | .In, .A => true
  | .Ch, .A => true
  | _, .Ns => true
  | _, .Cname => true
  | _, .Soa => true
  | _, .Ptr => true
  | _, .Hinfo => true
  | _, .Mx => true
  | _, .Txt => true
  | _, .Rp => true
  | .In, .Aaaa => true
  | _, .Loc => true
  | _, .Srv => true
  | _, .OptT => true
  | _, _ => false

/-- Per-variant invariants beyond the common name/ttl/size bounds. -/
def Record.restWF : Record → Prop
  | .inA _ _ addr => addr < 2 ^ 32
  | .chA _ _ network addr => NameWF network ∧ addr < 2 ^ 16
  | .ns _ _ rclass authority => rclass.normalized ∧ NameWF authority
  | .cname _ _ rclass canonical => rclass.normalized ∧ NameWF canonical
  | .soa _ _ rclass primary admin serial refresh retry expire minimum =>
    rclass.normalized ∧ NameWF primary ∧ NameWF admin ∧ serial < 2 ^ 32 ∧
      refresh < 2 ^ 32 ∧ retry < 2 ^ 32 ∧ expire < 2 ^ 32 ∧ minimum < 2 ^ 32
  | .ptr _ _ rclass pointer => rclass.normalized ∧ NameWF pointer
  | .hinfo _ _ rclass cpu os => rclass.normalized ∧ cpu.WF ∧ os.WF
  | .mx _ _ rclass priority exchange =>
    rclass.normalized ∧ priority < 2 ^ 16 ∧ NameWF exchange
  | .txt _ _ rclass strings => rclass.normalized ∧ ∀ t ∈ strings, t.WF
  | .rp _ _ rclass mailbox text =>
    rclass.normalized ∧ NameWF mailbox ∧ NameWF text
  | .inAaaa _ _ addr => addr < 2 ^ 128
  | .loc _ _ rclass version latitude longitude altitude sz hp vp =>
    rclass.normalized ∧ version = 0 ∧ latitude < 2 ^ 32 ∧
      longitude < 2 ^ 32 ∧ altitude < 2 ^ 32 ∧ sz.1 ≤ 9 ∧ sz.2 ≤ 9 ∧
      hp.1 ≤ 9 ∧ hp.2 ≤ 9 ∧ vp.1 ≤ 9 ∧ vp.2 ≤ 9
  | .srv _ _ rclass priority weight port target =>
    rclass.normalized ∧ priority < 2 ^ 16 ∧ weight < 2 ^ 16 ∧
      port < 2 ^ 16 ∧ NameWF target
  | .opt _ _ udpPayloadSize options =>
    udpPayloadSize < 2 ^ 16 ∧ ∀ o ∈ options, o.WF
  | .other _ _ rtype rclass _ =>
    rtype.normalized ∧ rclass.normalized ∧ dispatches rclass rtype = false

/-- A constructible (per the Rust constructors) machine-representable
record. -/
def Record.WF (rec : Record) : Prop :=
  NameWF rec.name ∧ rec.ttl < 2 ^ 32 ∧ rec.dataSize < 2 ^ 16 ∧ rec.restWF

theorem RecordClass.toU16_ofU16 (c : Nat) : (RecordClass.ofU16 c).toU16 = c := by
  unfold RecordClass.ofU16
  split_ifs with h1 h2 h3 h4 <;> simp [RecordClass.toU16, *]

theorem nameE_decode_roundtrip (c : Bool) (ls : List Label) {buf rest : List Nat}
    {pos : Nat} (hWF : NameWF ls) (hpos : pos ≤ buf.length)
    (hdrop : buf.drop pos = nameEncode ls ++ rest) :
    decodeNameE c ⟨buf, pos⟩ = .ok (ls, ⟨buf, pos + nameSize ls⟩) := by
  unfold decodeNameE
  rw [name_decode_roundtrip c ls hWF hpos hdrop]

theorem sum_sizes_ge_length {α : Type _} (f : α → Nat) (h1 : ∀ a, 1 ≤ f a)
    (l : List α) : l.length ≤ (l.map f).sum := by
  induction l with
  | nil => simp
  | cons a t ih =>
    simp only [List.map_cons, List.sum_cons, List.length_cons]
    have := h1 a
    omega

theorem txtLoop_encode (len : Nat) (strings : List Text) (acc : List Text)
    (fuel pos : Nat) {buf rest : List Nat}
    (hWF : ∀ t ∈ strings, t.WF)
    (hfuel : strings.length < fuel)
    (hpos : pos ≤ buf.length)
    (hdrop : buf.drop pos = strings.flatMap Text.encode ++ rest) :
    txtLoop len fuel (((strings.map Text.size).sum : Nat) : Int) ⟨buf, pos⟩ acc
      = .ok (acc ++ strings, ⟨buf, pos + (strings.map Text.size).sum⟩) := by
  induction strings generalizing acc fuel pos with
  | nil =>
    cases fuel with
    | zero => omega
    | succ f =>
      unfold txtLoop
      rw [if_pos (by simp)]
      simp
  | cons t ts ih =>
    cases fuel with
    | zero => simp at hfuel
    | succ f =>
      have htWF : t.WF := hWF t (by simp)
      rw [List.flatMap_cons, List.append_assoc] at hdrop
      obtain ⟨hdrop1, hpos1⟩ := drop_step hpos hdrop
      rw [text_encode_length] at hdrop1 hpos1
      unfold txtLoop
      rw [if_neg (by
        simp only [Nat.cast_eq_zero, List.map_cons, List.sum_cons, Text.size]
        omega)]
      rw [if_neg (not_lt.mpr (Int.natCast_nonneg _))]
      rw [text_decode_roundtrip t htWF hpos hdrop]
      dsimp only
      rw [show ((((List.map Text.size (t :: ts)).sum : Nat) : Int)
          - ((t.size : Nat) : Int))
          = (((ts.map Text.size).sum : Nat) : Int) by
        push_cast [List.map_cons, List.sum_cons]
        ring]
      rw [ih (acc ++ [t]) f (pos + t.size)
        (fun x hx => hWF x (by simp [hx])) (by simpa using hfuel)
        hpos1 hdrop1]
      simp only [List.append_assoc, List.singleton_append, List.map_cons,
        List.sum_cons, Nat.add_assoc]

theorem optLoop_encode (len : Nat) (options : List Opt) (acc : List Opt)
    (fuel pos : Nat) {buf rest : List Nat}
    (hWF : ∀ o ∈ options, o.WF)
    (hfuel : options.length < fuel)
    (hpos : pos ≤ buf.length)
    (hdrop : buf.drop pos = options.flatMap Opt.encode ++ rest) :
    optLoop len fuel (((options.map Opt.size).sum : Nat) : Int) ⟨buf, pos⟩ acc
      = .ok (acc ++ options, ⟨buf, pos + (options.map Opt.size).sum⟩) := by
  induction options generalizing acc fuel pos with
  | nil =>
    cases fuel with
    | zero => omega
    | succ f =>
      unfold optLoop
      rw [if_pos (by simp)]
      simp
  | cons o os ih =>
    cases fuel with
    | zero => simp at hfuel
    | succ f =>
      have hoWF : o.WF := hWF o (by simp)
      rw [List.flatMap_cons, List.append_assoc] at hdrop
      obtain ⟨hdrop1, hpos1⟩ := drop_step hpos hdrop
      rw [opt_encode_length] at hdrop1 hpos1
      unfold optLoop
      rw [if_neg (by
        simp only [Nat.cast_eq_zero, List.map_cons, List.sum_cons, Opt.size]
        omega)]
      rw [if_neg (not_lt.mpr (Int.natCast_nonneg _))]
      rw [opt_decode_roundtrip o hoWF hpos hdrop]
      dsimp only
      rw [show ((((List.map Opt.size (o :: os)).sum : Nat) : Int)
          - ((o.size : Nat) : Int))
          = (((os.map Opt.size).sum : Nat) : Int) by
        push_cast [List.map_cons, List.sum_cons]
        ring]
      rw [ih (acc ++ [o]) f (pos + o.size)
        (fun x hx => hWF x (by simp [hx])) (by simpa using hfuel)
        hpos1 hdrop1]
      simp only [List.append_assoc, List.singleton_append, List.map_cons,
        List.sum_cons, Nat.add_assoc]

theorem locSize_decode_roundtrip (sz : Nat × Nat) {buf rest : List Nat} {pos : Nat}
    (h1 : sz.1 ≤ 9) (h2 : sz.2 ≤ 9) (hpos : pos ≤ buf.length)
    (hdrop : buf.drop pos = sizeEncode sz ++ rest) :
    sizeDecode ⟨buf, pos⟩ = .ok (sz, ⟨buf, pos + 1⟩) := by
  obtain ⟨b, e⟩ := sz
  simp only at h1 h2
  have key : (b <<< 4 ||| e) < 256 ∧ (b <<< 4 ||| e) >>> 4 = b ∧
      (b <<< 4 ||| e) &&& 15 = e := by
    interval_cases b <;> interval_cases e <;> decide
  have hr := @uint_decode_roundtrip _ _ _ 1 _ key.1 hpos hdrop
  unfold sizeDecode
  rw [show decodeU8 = decodeUInt 1 from rfl, hr, ok_bind]
  dsimp only
  rw [key.2.1, key.2.2]
  rw [if_neg (by rintro (h | h) <;> first | exact h h1 | exact h h2)]
  rfl

theorem Record.decode_steps (name : List Label) (t c ttl ds : Nat)
    (D : List Nat) {buf rest : List Nat} {pos : Nat}
    (hname : NameWF name) (ht : t < 2 ^ 16) (hc : c < 2 ^ 16)
    (httl : ttl < 2 ^ 32) (hds : ds < 2 ^ 16)
    (hpos : pos ≤ buf.length)
    (hdrop : buf.drop pos
      = nameEncode name ++ encU16 t ++ encU16 c ++ encU32 ttl ++ encU16 ds
        ++ D ++ rest) :
    Record.decode ⟨buf, pos⟩
      = Record.decodeData name ttl (RecordClass.ofU16 c) (RecordType.ofU16 t)
          ds ⟨buf, pos + nameSize name + 10⟩
    ∧ buf.drop (pos + nameSize name + 10) = D ++ rest
    ∧ pos + nameSize name + 10 ≤ buf.length := by
  rw [List.append_assoc, List.append_assoc, List.append_assoc,
    List.append_assoc, List.append_assoc] at hdrop
  have h1 := nameE_decode_roundtrip true name hname hpos hdrop
  obtain ⟨hdrop1, hpos1⟩ := drop_step hpos hdrop
  rw [nameEncode_length] at hdrop1 hpos1
  have h2 := @uint_decode_roundtrip _ _ _ 2 _
    (lt_of_lt_of_eq ht (by norm_num)) hpos1 hdrop1
  obtain ⟨hdrop2, hpos2⟩ := drop_step hpos1 hdrop1
  rw [encU16_length] at hdrop2 hpos2
  have h3 := @uint_decode_roundtrip _ _ _ 2 _
    (lt_of_lt_of_eq hc (by norm_num)) hpos2 hdrop2
  obtain ⟨hdrop3, hpos3⟩ := drop_step hpos2 hdrop2
  rw [encU16_length] at hdrop3 hpos3
  have h4 := @uint_decode_roundtrip _ _ _ 4 _
    (lt_of_lt_of_eq httl (by norm_num)) hpos3 hdrop3
  obtain ⟨hdrop4, hpos4⟩ := drop_step hpos3 hdrop3
  rw [encU32_length] at hdrop4 hpos4
  have h5 := @uint_decode_roundtrip _ _ _ 2 _
    (lt_of_lt_of_eq hds (by norm_num)) hpos4 hdrop4
  obtain ⟨hdrop5, hpos5⟩ := drop_step hpos4 hdrop4
  rw [encU16_length] at hdrop5 hpos5
  refine ⟨?_, ?_, ?_⟩
  · unfold Record.decode
    rw [h1, ok_bind]
    dsimp only
    rw [show decodeU16 = decodeUInt 2 from rfl, h2, ok_bind]
    dsimp only
    rw [h3, ok_bind]
    dsimp only
    rw [show decodeU32 = decodeUInt 4 from rfl, h4, ok_bind]
    dsimp only
    rw [h5, ok_bind]
  · rw [show pos + nameSize name + 10
      = pos + nameSize name + 2 + 2 + 4 + 2 by omega]
    exact hdrop5
  · omega

theorem Record.decodeData_ns (name : List Label) (ttl : Nat)
    (rclass : RecordClass) (len : Nat) (r : WireRead) :
    Record.decodeData name ttl rclass .Ns len r = (do
      let (authority, r) ← decodeNameE false r
      if nameSize authority ≠ len then
        .error (.invalidLength (nameSize authority) len)
      else
        return (.ns name ttl rclass authority, r)) := by
  cases rclass <;> rfl

theorem Record.decodeData_cname (name : List Label) (ttl : Nat)
    (rclass : RecordClass) (len : Nat) (r : WireRead) :
    Record.decodeData name ttl rclass .Cname len r = (do
      let (canonical, r) ← decodeNameE false r
      if nameSize canonical ≠ len then
        .error (.invalidLength (nameSize canonical) len)
      else
        return (.cname name ttl rclass canonical, r)) := by
  cases rclass <;> rfl

theorem Record.decodeData_soa (name : List Label) (ttl : Nat)
    (rclass : RecordClass) (len : Nat) (r : WireRead) :
    Record.decodeData name ttl rclass .Soa len r = (do
      let (primary, r) ← decodeNameE false r
      let (admin, r) ← decodeNameE false r
      if nameSize primary + nameSize admin + 20 ≠ len then
        .error (.invalidLength (nameSize primary + nameSize admin + 20) len)
      else do
        let (serial, r) ← decodeU32 r
        let (refresh, r) ← decodeU32 r
        let (retry, r) ← decodeU32 r
        let (expire, r) ← decodeU32 r
        let (minimum, r) ← decodeU32 r
        return (.soa name ttl rclass primary admin serial refresh retry expire
          minimum, r)) := by
  cases rclass <;> rfl

theorem Record.decodeData_ptr (name : List Label) (ttl : Nat)
    (rclass : RecordClass) (len : Nat) (r : WireRead) :
    Record.decodeData name ttl rclass .Ptr len r = (do
      let (pointer, r) ← decodeNameE false r
      if nameSize pointer ≠ len then
        .error (.invalidLength (nameSize pointer) len)
      else
        return (.ptr name ttl rclass pointer, r)) := by
  cases rclass <;> rfl

theorem Record.decodeData_hinfo (name : List Label) (ttl : Nat)
    (rclass : RecordClass) (len : Nat) (r : WireRead) :
    Record.decodeData name ttl rclass .Hinfo len r = (do
      let (cpu, r) ← Text.decode r
      let (os, r) ← Text.decode r
      if cpu.size + os.size ≠ len then
        .error (.invalidLength (cpu.size + os.size) len)
      else
        return (.hinfo name ttl rclass cpu os, r)) := by
  cases rclass <;> rfl

theorem Record.decodeData_mx (name : List Label) (ttl : Nat)
    (rclass : RecordClass) (len : Nat) (r : WireRead) :
    Record.decodeData name ttl rclass .Mx len r = (do
      let (priority, r) ← decodeU16 r
      let (exchange, r) ← decodeNameE false r
      if nameSize exchange + 2 ≠ len then
        .error (.invalidLength (nameSize exchange) len)
      else
        return (.mx name ttl rclass priority exchange, r)) := by
  cases rclass <;> rfl

theorem Record.decodeData_txt (name : List Label) (ttl : Nat)
    (rclass : RecordClass) (len : Nat) (r : WireRead) :
    Record.decodeData name ttl rclass .Txt len r = (do
      let (strings, r) ← txtLoop len (len + 2) (len : Int) r []
      return (.txt name ttl rclass strings, r)) := by
  cases rclass <;> rfl

theorem Record.decodeData_rp (name : List Label) (ttl : Nat)
    (rclass : RecordClass) (len : Nat) (r : WireRead) :
    Record.decodeData name ttl rclass .Rp len r = (do
      let (mailbox, r) ← decodeNameE false r
      let (text, r) ← decodeNameE false r
      if nameSize mailbox + nameSize text ≠ len then
        .error (.invalidLength (nameSize mailbox + nameSize text) len)
      else
        return (.rp name ttl rclass mailbox text, r)) := by
  cases rclass <;> rfl

theorem Record.decodeData_loc (name : List Label) (ttl : Nat)
    (rclass : RecordClass) (len : Nat) (r : WireRead) :
    Record.decodeData name ttl rclass .Loc len r = (
      if len ≠ 16 then .error (.invalidLength 16 len)
      else do
        let (version, r) ← decodeU8 r
        if version ≠ 0 then .error .unsupportedFormat
        else do
          let (sz, r) ← sizeDecode r
          let (hp, r) ← sizeDecode r
          let (vp, r) ← sizeDecode r
          let (latRaw, r) ← decodeU32 r
          let (lonRaw, r) ← decodeU32 r
          let (altitude, r) ← decodeU32 r
          return (.loc name ttl rclass version (latRaw ^^^ SIGN_BIT)
            (lonRaw ^^^ SIGN_BIT) altitude sz hp vp, r)) := by
  cases rclass <;> rfl

theorem Record.decodeData_srv (name : List Label) (ttl : Nat)
    (rclass : RecordClass) (len : Nat) (r : WireRead) :
    Record.decodeData name ttl rclass .Srv len r = (do
      let (priority, r) ← decodeU16 r
      let (weight, r) ← decodeU16 r
      let (port, r) ← decodeU16 r
      let (target, r) ← decodeNameE false r
      if nameSize target + 6 ≠ len then
        .error (.invalidLength (nameSize target) len)
      else
        return (.srv name ttl rclass priority weight port target, r)) := by
  cases rclass <;> rfl

theorem Record.decodeData_optT (name : List Label) (ttl : Nat)
    (rclass : RecordClass) (len : Nat) (r : WireRead) :
    Record.decodeData name ttl rclass .OptT len r = (do
      let (options, r) ← optLoop len (len + 2) (len : Int) r []
      return (.opt name ttl rclass.toU16 options, r)) := by
  cases rclass <;> rfl

theorem Record.decodeData_not_dispatched (name : List Label) (ttl : Nat)
    (rclass : RecordClass) (rtype : RecordType) (len : Nat) (r : WireRead)
    (h : dispatches rclass rtype = false) :
    Record.decodeData name ttl rclass rtype len r = (do
      let (data, r) ← r.read len
      return (.other name ttl rtype rclass data, r)) := by
  cases rclass <;> cases rtype <;> (try simp [dispatches] at h) <;> rfl

theorem record_decode_roundtrip (rec : Record) {buf rest : List Nat} {pos : Nat}
    (hWF : rec.WF) (hpos : pos ≤ buf.length)
    (hdrop : buf.drop pos = rec.encode ++ rest) :
    Record.decode ⟨buf, pos⟩ = .ok (rec, ⟨buf, pos + rec.size⟩) := by
  obtain ⟨hname, httl, hds, hrest⟩ := hWF
  cases rec with
  | inA n ttl addr =>
    obtain ⟨hdec, hdropD, hposD⟩ := Record.decode_steps n 1 1 ttl 4
      (encU32 addr) hname (by norm_num) (by norm_num) httl hds hpos hdrop
    rw [hdec, show RecordClass.ofU16 1 = RecordClass.In from rfl,
      show RecordType.ofU16 1 = RecordType.A from rfl]
    unfold Record.decodeData
    dsimp only
    rw [if_neg (fun hc => hc rfl)]
    rw [show decodeU32 = decodeUInt 4 from rfl,
      @uint_decode_roundtrip _ _ _ 4 _
        (lt_of_lt_of_eq hrest (by norm_num)) hposD hdropD, ok_bind]
    dsimp only
    rw [show pos + nameSize n + 10 + 4 = pos + (Record.inA n ttl addr).size by
      simp only [Record.size, Record.dataSize, Record.name]
      omega]
    rfl
  | chA n ttl network addr =>
    obtain ⟨hnet, haddr⟩ := hrest
    obtain ⟨hdec, hdropD, hposD⟩ := Record.decode_steps n 1 3 ttl
      (nameSize network + 2) (nameEncode network ++ encU16 addr) hname
      (by norm_num) (by norm_num) httl hds hpos hdrop
    rw [hdec, show RecordClass.ofU16 3 = RecordClass.Ch from rfl,
      show RecordType.ofU16 1 = RecordType.A from rfl]
    unfold Record.decodeData
    dsimp only
    rw [List.append_assoc] at hdropD
    rw [nameE_decode_roundtrip false network hnet hposD hdropD, ok_bind]
    dsimp only
    rw [if_neg (fun hc => hc rfl)]
    obtain ⟨hdrop1, hpos1⟩ := drop_step hposD hdropD
    rw [nameEncode_length] at hdrop1 hpos1
    rw [show decodeU16 = decodeUInt 2 from rfl,
      @uint_decode_roundtrip _ _ _ 2 _
        (lt_of_lt_of_eq haddr (by norm_num)) hpos1 hdrop1, ok_bind]
    dsimp only
    rw [show pos + nameSize n + 10 + nameSize network + 2
        = pos + (Record.chA n ttl network addr).size by
      simp only [Record.size, Record.dataSize, Record.name]
      omega]
    rfl
  | ns n ttl rclass authority =>
    obtain ⟨hnorm, hauth⟩ := hrest
    obtain ⟨hdec, hdropD, hposD⟩ := Record.decode_steps n 2 rclass.toU16 ttl
      (nameSize authority) (nameEncode authority) hname (by norm_num)
      hnorm.2 httl hds hpos hdrop
    rw [hdec, hnorm.1, show RecordType.ofU16 2 = RecordType.Ns from rfl,
      Record.decodeData_ns]
    rw [nameE_decode_roundtrip false authority hauth hposD hdropD, ok_bind]
    dsimp only
    rw [if_neg (fun hc => hc rfl)]
    rw [show pos + nameSize n + 10 + nameSize authority
        = pos + (Record.ns n ttl rclass authority).size by
      simp only [Record.size, Record.dataSize, Record.name]
      omega]
    rfl
  | cname n ttl rclass canonical =>
    obtain ⟨hnorm, hcan⟩ := hrest
    obtain ⟨hdec, hdropD, hposD⟩ := Record.decode_steps n 5 rclass.toU16 ttl
      (nameSize canonical) (nameEncode canonical) hname (by norm_num)
      hnorm.2 httl hds hpos hdrop
    rw [hdec, hnorm.1, show RecordType.ofU16 5 = RecordType.Cname from rfl,
      Record.decodeData_cname]
    rw [nameE_decode_roundtrip false canonical hcan hposD hdropD, ok_bind]
    dsimp only
    rw [if_neg (fun hc => hc rfl)]
    rw [show pos + nameSize n + 10 + nameSize canonical
        = pos + (Record.cname n ttl rclass canonical).size by
      simp only [Record.size, Record.dataSize, Record.name]
      omega]
    rfl
  | soa n ttl rclass primary admin serial refresh retry expire minimum =>
    obtain ⟨hnorm, hp, ha, h1, h2, h3, h4, h5⟩ := hrest
    obtain ⟨hdec, hdropD, hposD⟩ := Record.decode_steps n 6 rclass.toU16 ttl
      (nameSize primary + nameSize admin + 20)
      (nameEncode primary ++ nameEncode admin ++ encU32 serial
        ++ encU32 refresh ++ encU32 retry ++ encU32 expire ++ encU32 minimum)
      hname (by norm_num) hnorm.2 httl hds hpos hdrop
    rw [hdec, hnorm.1, show RecordType.ofU16 6 = RecordType.Soa from rfl,
      Record.decodeData_soa]
    simp only [List.append_assoc] at hdropD
    rw [nameE_decode_roundtrip false primary hp hposD hdropD, ok_bind]
    dsimp only
    obtain ⟨hdrop1, hpos1⟩ := drop_step hposD hdropD
    rw [nameEncode_length] at hdrop1 hpos1
    rw [nameE_decode_roundtrip false admin ha hpos1 hdrop1, ok_bind]
    dsimp only
    rw [if_neg (fun hc => hc rfl)]
    obtain ⟨hdrop2, hpos2⟩ := drop_step hpos1 hdrop1
    rw [nameEncode_length] at hdrop2 hpos2
    rw [show decodeU32 = decodeUInt 4 from rfl]
    rw [@uint_decode_roundtrip _ _ _ 4 _
      (lt_of_lt_of_eq h1 (by norm_num)) hpos2 hdrop2, ok_bind]
    dsimp only
    obtain ⟨hdrop3, hpos3⟩ := drop_step hpos2 hdrop2
    rw [encU32_length] at hdrop3 hpos3
    rw [@uint_decode_roundtrip _ _ _ 4 _
      (lt_of_lt_of_eq h2 (by norm_num)) hpos3 hdrop3, ok_bind]
    dsimp only
    obtain ⟨hdrop4, hpos4⟩ := drop_step hpos3 hdrop3
    rw [encU32_length] at hdrop4 hpos4
    rw [@uint_decode_roundtrip _ _ _ 4 _
      (lt_of_lt_of_eq h3 (by norm_num)) hpos4 hdrop4, ok_bind]
    dsimp only
    obtain ⟨hdrop5, hpos5⟩ := drop_step hpos4 hdrop4
    rw [encU32_length] at hdrop5 hpos5
    rw [@uint_decode_roundtrip _ _ _ 4 _
      (lt_of_lt_of_eq h4 (by norm_num)) hpos5 hdrop5, ok_bind]
    dsimp only
    obtain ⟨hdrop6, hpos6⟩ := drop_step hpos5 hdrop5
    rw [encU32_length] at hdrop6 hpos6
    rw [@uint_decode_roundtrip _ _ _ 4 _
      (lt_of_lt_of_eq h5 (by norm_num)) hpos6 hdrop6, ok_bind]
    dsimp only
    rw [show pos + nameSize n + 10 + nameSize primary + nameSize admin
        + 4 + 4 + 4 + 4 + 4
        = pos + (Record.soa n ttl rclass primary admin serial refresh retry
            expire minimum).size by
      simp only [Record.size, Record.dataSize, Record.name]
      omega]
    rfl
  | ptr n ttl rclass pointer =>
    obtain ⟨hnorm, hptr⟩ := hrest
    obtain ⟨hdec, hdropD, hposD⟩ := Record.decode_steps n 12 rclass.toU16 ttl
      (nameSize pointer) (nameEncode pointer) hname (by norm_num)
      hnorm.2 httl hds hpos hdrop
    rw [hdec, hnorm.1, show RecordType.ofU16 12 = RecordType.Ptr from rfl,
      Record.decodeData_ptr]
    rw [nameE_decode_roundtrip false pointer hptr hposD hdropD, ok_bind]
    dsimp only
    rw [if_neg (fun hc => hc rfl)]
    rw [show pos + nameSize n + 10 + nameSize pointer
        = pos + (Record.ptr n ttl rclass pointer).size by
      simp only [Record.size, Record.dataSize, Record.name]
      omega]
    rfl
  | hinfo n ttl rclass cpu os =>
    obtain ⟨hnorm, hcpu, hos⟩ := hrest
    obtain ⟨hdec, hdropD, hposD⟩ := Record.decode_steps n 13 rclass.toU16 ttl
      (cpu.size + os.size) (Text.encode cpu ++ Text.encode os) hname
      (by norm_num) hnorm.2 httl hds hpos hdrop
    rw [hdec, hnorm.1, show RecordType.ofU16 13 = RecordType.Hinfo from rfl,
      Record.decodeData_hinfo]
    rw [List.append_assoc] at hdropD
    rw [text_decode_roundtrip cpu hcpu hposD hdropD, ok_bind]
    dsimp only
    obtain ⟨hdrop1, hpos1⟩ := drop_step hposD hdropD
    rw [text_encode_length] at hdrop1 hpos1
    rw [text_decode_roundtrip os hos hpos1 hdrop1, ok_bind]
    dsimp only
    rw [if_neg (fun hc => hc rfl)]
    rw [show pos + nameSize n + 10 + cpu.size + os.size
        = pos + (Record.hinfo n ttl rclass cpu os).size by
      simp only [Record.size, Record.dataSize, Record.name]
      omega]
    rfl
  | mx n ttl rclass priority exchange =>
    obtain ⟨hnorm, hpri, hex⟩ := hrest
    obtain ⟨hdec, hdropD, hposD⟩ := Record.decode_steps n 15 rclass.toU16 ttl
      (nameSize exchange + 2) (encU16 priority ++ nameEncode exchange) hname
      (by norm_num) hnorm.2 httl hds hpos hdrop
    rw [hdec, hnorm.1, show RecordType.ofU16 15 = RecordType.Mx from rfl,
      Record.decodeData_mx]
    rw [List.append_assoc] at hdropD
    rw [show decodeU16 = decodeUInt 2 from rfl]
    rw [@uint_decode_roundtrip _ _ _ 2 _
      (lt_of_lt_of_eq hpri (by norm_num)) hposD hdropD, ok_bind]
    dsimp only
    obtain ⟨hdrop1, hpos1⟩ := drop_step hposD hdropD
    rw [encU16_length] at hdrop1 hpos1
    rw [nameE_decode_roundtrip false exchange hex hpos1 hdrop1, ok_bind]
    dsimp only
    rw [if_neg (fun hc => hc rfl)]
    rw [show pos + nameSize n + 10 + 2 + nameSize exchange
        = pos + (Record.mx n ttl rclass priority exchange).size by
      simp only [Record.size, Record.dataSize, Record.name]
      omega]
    rfl
  | txt n ttl rclass strings =>
    obtain ⟨hnorm, hstr⟩ := hrest
    obtain ⟨hdec, hdropD, hposD⟩ := Record.decode_steps n 16 rclass.toU16 ttl
      ((strings.map Text.size).sum) (strings.flatMap Text.encode) hname
      (by norm_num) hnorm.2 httl hds hpos hdrop
    rw [hdec, hnorm.1, show RecordType.ofU16 16 = RecordType.Txt from rfl,
      Record.decodeData_txt]
    rw [txtLoop_encode ((strings.map Text.size).sum) strings []
      ((strings.map Text.size).sum + 2) (pos + nameSize n + 10) hstr
      (by
        have := sum_sizes_ge_length Text.size
          (fun a => Nat.le_add_left 1 a.length) strings
        omega)
      hposD hdropD, ok_bind]
    dsimp only
    rw [List.nil_append]
    rw [show pos + nameSize n + 10 + (strings.map Text.size).sum
        = pos + (Record.txt n ttl rclass strings).size by
      simp only [Record.size, Record.dataSize, Record.name]
      omega]
    rfl
  | rp n ttl rclass mailbox text =>
    obtain ⟨hnorm, hmb, htx⟩ := hrest
    obtain ⟨hdec, hdropD, hposD⟩ := Record.decode_steps n 17 rclass.toU16 ttl
      (nameSize mailbox + nameSize text) (nameEncode mailbox ++ nameEncode text)
      hname (by norm_num) hnorm.2 httl hds hpos hdrop
    rw [hdec, hnorm.1, show RecordType.ofU16 17 = RecordType.Rp from rfl,
      Record.decodeData_rp]
    rw [List.append_assoc] at hdropD
    rw [nameE_decode_roundtrip false mailbox hmb hposD hdropD, ok_bind]
    dsimp only
    obtain ⟨hdrop1, hpos1⟩ := drop_step hposD hdropD
    rw [nameEncode_length] at hdrop1 hpos1
    rw [nameE_decode_roundtrip false text htx hpos1 hdrop1, ok_bind]
    dsimp only
    rw [if_neg (fun hc => hc rfl)]
    rw [show pos + nameSize n + 10 + nameSize mailbox + nameSize text
        = pos + (Record.rp n ttl rclass mailbox text).size by
      simp only [Record.size, Record.dataSize, Record.name]
      omega]
    rfl
  | inAaaa n ttl addr =>
    obtain ⟨hdec, hdropD, hposD⟩ := Record.decode_steps n 28 1 ttl 16
      (encU128 addr) hname (by norm_num) (by norm_num) httl hds hpos hdrop
    rw [hdec, show RecordClass.ofU16 1 = RecordClass.In from rfl,
      show RecordType.ofU16 28 = RecordType.Aaaa from rfl]
    unfold Record.decodeData
    dsimp only
    rw [if_neg (fun hc => hc rfl)]
    rw [show decodeU128 = decodeUInt 16 from rfl,
      @uint_decode_roundtrip _ _ _ 16 _
        (lt_of_lt_of_eq hrest (by norm_num)) hposD hdropD, ok_bind]
    dsimp only
    rw [show pos + nameSize n + 10 + 16
        = pos + (Record.inAaaa n ttl addr).size by
      simp only [Record.size, Record.dataSize, Record.name]
      omega]
    rfl
  | loc n ttl rclass version latitude longitude altitude sz hp vp =>
    obtain ⟨hnorm, hv0, hlat, hlon, halt, hsz1, hsz2, hhp1, hhp2, hvp1, hvp2⟩
      := hrest
    subst hv0
    obtain ⟨hdec, hdropD, hposD⟩ := Record.decode_steps n 29 rclass.toU16 ttl
      16
      (encU8 0 ++ sizeEncode sz ++ sizeEncode hp ++ sizeEncode vp
        ++ encU32 (SIGN_BIT ^^^ latitude) ++ encU32 (SIGN_BIT ^^^ longitude)
        ++ encU32 altitude)
      hname (by norm_num) hnorm.2 httl hds hpos hdrop
    rw [hdec, hnorm.1, show RecordType.ofU16 29 = RecordType.Loc from rfl,
      Record.decodeData_loc]
    rw [if_neg (fun hc => hc rfl)]
    simp only [List.append_assoc] at hdropD
    rw [show decodeU8 = decodeUInt 1 from rfl]
    rw [@uint_decode_roundtrip _ _ _ 1 _ (by norm_num : (0 : Nat) < 256 ^ 1)
      hposD hdropD, ok_bind]
    dsimp only
    rw [if_neg (fun hc => hc rfl)]
    obtain ⟨hdrop1, hpos1⟩ := drop_step hposD hdropD
    rw [show (encU8 0).length = 1 from rfl] at hdrop1 hpos1
    rw [locSize_decode_roundtrip sz hsz1 hsz2 hpos1 hdrop1, ok_bind]
    dsimp only
    obtain ⟨hdrop2, hpos2⟩ := drop_step hpos1 hdrop1
    rw [sizeEncode_length] at hdrop2 hpos2
    rw [locSize_decode_roundtrip hp hhp1 hhp2 hpos2 hdrop2, ok_bind]
    dsimp only
    obtain ⟨hdrop3, hpos3⟩ := drop_step hpos2 hdrop2
    rw [sizeEncode_length] at hdrop3 hpos3
    rw [locSize_decode_roundtrip vp hvp1 hvp2 hpos3 hdrop3, ok_bind]
    dsimp only
    obtain ⟨hdrop4, hpos4⟩ := drop_step hpos3 hdrop3
    rw [sizeEncode_length] at hdrop4 hpos4
    have hxlat : SIGN_BIT ^^^ latitude < 2 ^ 32 :=
      Nat.xor_lt_two_pow (by norm_num [SIGN_BIT]) hlat
    have hxlon : SIGN_BIT ^^^ longitude < 2 ^ 32 :=
      Nat.xor_lt_two_pow (by norm_num [SIGN_BIT]) hlon
    rw [show decodeU32 = decodeUInt 4 from rfl]
    rw [@uint_decode_roundtrip _ _ _ 4 _
      (lt_of_lt_of_eq hxlat (by norm_num)) hpos4 hdrop4, ok_bind]
    dsimp only
    obtain ⟨hdrop5, hpos5⟩ := drop_step hpos4 hdrop4
    rw [encU32_length] at hdrop5 hpos5
    rw [@uint_decode_roundtrip _ _ _ 4 _
      (lt_of_lt_of_eq hxlon (by norm_num)) hpos5 hdrop5, ok_bind]
    dsimp only
    obtain ⟨hdrop6, hpos6⟩ := drop_step hpos5 hdrop5
    rw [encU32_length] at hdrop6 hpos6
    rw [@uint_decode_roundtrip _ _ _ 4 _
      (lt_of_lt_of_eq halt (by norm_num)) hpos6 hdrop6, ok_bind]
    dsimp only
    rw [show SIGN_BIT ^^^ latitude ^^^ SIGN_BIT = latitude by
      rw [Nat.xor_comm SIGN_BIT latitude, Nat.xor_assoc, Nat.xor_self,
        Nat.xor_zero]]
    rw [show SIGN_BIT ^^^ longitude ^^^ SIGN_BIT = longitude by
      rw [Nat.xor_comm SIGN_BIT longitude, Nat.xor_assoc, Nat.xor_self,
        Nat.xor_zero]]
    rw [show pos + nameSize n + 10 + 1 + 1 + 1 + 1 + 4 + 4 + 4
        = pos + (Record.loc n ttl rclass 0 latitude longitude altitude
            sz hp vp).size by
      simp only [Record.size, Record.dataSize, Record.name]
      omega]
    rfl
  | srv n ttl rclass priority weight port target =>
    obtain ⟨hnorm, hpri, hw, hpo, htg⟩ := hrest
    obtain ⟨hdec, hdropD, hposD⟩ := Record.decode_steps n 33 rclass.toU16 ttl
      (nameSize target + 6)
      (encU16 priority ++ encU16 weight ++ encU16 port ++ nameEncode target)
      hname (by norm_num) hnorm.2 httl hds hpos hdrop
    rw [hdec, hnorm.1, show RecordType.ofU16 33 = RecordType.Srv from rfl,
      Record.decodeData_srv]
    simp only [List.append_assoc] at hdropD
    rw [show decodeU16 = decodeUInt 2 from rfl]
    rw [@uint_decode_roundtrip _ _ _ 2 _
      (lt_of_lt_of_eq hpri (by norm_num)) hposD hdropD, ok_bind]
    dsimp only
    obtain ⟨hdrop1, hpos1⟩ := drop_step hposD hdropD
    rw [encU16_length] at hdrop1 hpos1
    rw [@uint_decode_roundtrip _ _ _ 2 _
      (lt_of_lt_of_eq hw (by norm_num)) hpos1 hdrop1, ok_bind]
    dsimp only
    obtain ⟨hdrop2, hpos2⟩ := drop_step hpos1 hdrop1
    rw [encU16_length] at hdrop2 hpos2
    rw [@uint_decode_roundtrip _ _ _ 2 _
      (lt_of_lt_of_eq hpo (by norm_num)) hpos2 hdrop2, ok_bind]
    dsimp only
    obtain ⟨hdrop3, hpos3⟩ := drop_step hpos2 hdrop2
    rw [encU16_length] at hdrop3 hpos3
    rw [nameE_decode_roundtrip false target htg hpos3 hdrop3, ok_bind]
    dsimp only
    rw [if_neg (fun hc => hc rfl)]
    rw [show pos + nameSize n + 10 + 2 + 2 + 2 + nameSize target
        = pos + (Record.srv n ttl rclass priority weight port target).size by
      simp only [Record.size, Record.dataSize, Record.name]
      omega]
    rfl
  | opt n flags ups options =>
    obtain ⟨hups, hopts⟩ := hrest
    unfold Record.encode at hdrop
    dsimp only [Record.name, Record.rtype, Record.rclass, Record.ttl,
      Record.dataSize, Record.encodeData] at hdrop
    rw [RecordClass.toU16_ofU16] at hdrop
    obtain ⟨hdec, hdropD, hposD⟩ := Record.decode_steps n 41 ups flags
      ((options.map Opt.size).sum) (options.flatMap Opt.encode) hname
      (by norm_num) hups httl hds hpos hdrop
    rw [hdec, show RecordType.ofU16 41 = RecordType.OptT from rfl,
      Record.decodeData_optT]
    rw [optLoop_encode ((options.map Opt.size).sum) options []
      ((options.map Opt.size).sum + 2) (pos + nameSize n + 10) hopts
      (by
        have := sum_sizes_ge_length Opt.size
          (fun a => by unfold Opt.size; omega) options
        omega)
      hposD hdropD, ok_bind]
    dsimp only
    rw [RecordClass.toU16_ofU16, List.nil_append]
    rw [show pos + nameSize n + 10 + (options.map Opt.size).sum
        = pos + (Record.opt n flags ups options).size by
      simp only [Record.size, Record.dataSize, Record.name]
      omega]
    rfl
  | other n ttl rtype rclass data =>
    obtain ⟨hnT, hnC, hdisp⟩ := hrest
    obtain ⟨hdec, hdropD, hposD⟩ := Record.decode_steps n rtype.toU16
      rclass.toU16 ttl data.length data hname hnT.2 hnC.2 httl hds hpos hdrop
    rw [hdec, hnC.1, hnT.1,
      Record.decodeData_not_dispatched _ _ _ _ _ _ hdisp]
    rw [wireRead_read_exact hposD hdropD, ok_bind]
    dsimp only
    rw [show pos + nameSize n + 10 + data.length
        = pos + (Record.other n ttl rtype rclass data).size by
      simp only [Record.size, Record.dataSize, Record.name]
      omega]
    rfl

def c3rec : Record := .other [[97]] 60 .A .In [1, 2, 3, 4]

/-- C3 counterexample: the opaque-bytes fallback record built with the
recognised pair `(class IN, type A)` encodes to the same bytes as an A
record, so decoding yields `InARecord`, not the `OtherRecord` that was
encoded — the round-trip fails for fallback records whose `(class, type)`
pair is in the dispatch table. -/
theorem claim_C3_counterexample :
    Record.decode ⟨c3rec.encode, 0⟩
      = .ok (.inA [[97]] 60 16909060, ⟨c3rec.encode, c3rec.encode.length⟩) ∧
    Record.inA [[97]] 60 16909060 ≠ c3rec :=
  ⟨rfl, by decide⟩

/-- C3 (amended): for every *well-formed* record — machine-width field
bounds, label/text length bounds, normalised class and type codes, and,
for the opaque fallback, a `(class, type)` pair outside the dispatch
table — encoding then decoding yields exactly the record back (consuming
exactly the encoding), and the encoded length equals `size()`.  The
opaque fallback with a *recognised* pair decodes as the recognised type
instead (see the counterexample), so the claim's "arbitrary (class,
type) pair" is wrong. -/
theorem claim_C3_amended (rec : Record) (hWF : rec.WF) :
    Record.decode ⟨rec.encode, 0⟩
      = .ok (rec, ⟨rec.encode, rec.encode.length⟩) ∧
    rec.encode.length = rec.size := by
  refine ⟨?_, record_encode_length rec⟩
  have h := record_decode_roundtrip rec hWF (Nat.zero_le _)
    (show rec.encode.drop 0 = rec.encode ++ [] by simp)
  rw [record_encode_length rec]
  simpa using h

theorem claim_C3_witness :
    Record.WF (.mx [[110, 115], [101, 120]] 3600 .In 10 [[109, 120]]) ∧
    (Record.decode
        ⟨(Record.mx [[110, 115], [101, 120]] 3600 .In 10 [[109, 120]]).encode,
         0⟩
      = .ok (.mx [[110, 115], [101, 120]] 3600 .In 10 [[109, 120]],
          ⟨(Record.mx [[110, 115], [101, 120]] 3600 .In 10
              [[109, 120]]).encode,
           (Record.mx [[110, 115], [101, 120]] 3600 .In 10
              [[109, 120]]).encode.length⟩) ∧
     (Record.mx [[110, 115], [101, 120]] 3600 .In 10
        [[109, 120]]).encode.length
       = (Record.mx [[110, 115], [101, 120]] 3600 .In 10 [[109, 120]]).size) :=
  ⟨⟨by decide, by decide, by decide, by decide, by decide, by decide⟩,
    claim_C3_amended _
      ⟨by decide, by decide, by decide, by decide, by decide, by decide⟩⟩

end Realm
